import Mathlib

/-!
# tatdylf: a shallow embedding of the DHCP responder

The definitions below follow `src/tatdylf.h` and `src/tatdylf.cpp`.

Conventions of the embedding:

* `uint8_t`, `uint16_t`, `uint32_t` values are natural numbers; every
  operation that can wrap in C is written with an explicit `% 2^32`
  (`add32`, `sub32`); conversions `uint32_t -> int` go through `toInt32`.
* The host is little endian (the code base is MSVC / Windows only), so a
  `uint32_t` overlaid on four bytes `b0 b1 b2 b3` has the value
  `b0 + 2^8 b1 + 2^16 b2 + 2^24 b3` and `htonl` is the 32-bit byte swap.
* The union `Request::packet` / `Request::buffer` is rendered by the pair
  `Packet.ofBuffer` / `Packet.toBuffer`.
* What C leaves undefined (an index outside `cfg->clients`, a read outside
  the options region, a copy larger than the option buffer) is the outer
  `none` of an `Option` result.
* The clock `seconds_since_start()`, the result of `recvfrom` and the result
  of `sendto` are inputs of the functions that call them.
-/

namespace Tatdylf

/-! ## Constants (`tatdylf.h`) -/

abbrev BOOTP_REQUEST : Nat := 1
abbrev BOOTP_REPLY : Nat := 2
abbrev CHADDR_N32 : Nat := 4
abbrev NUM_CLIENTS : Nat := 32
abbrev SERVER_PORT : Nat := 67
abbrev CLIENT_PORT : Nat := 68
abbrev DHCP_OPT_SIZE : Nat := 128
abbrev DHCP_COOKIE : Nat := 0x63538263
abbrev CC_NET_MASK_LE : Nat := 0xffff0000
abbrev CC_PREFIX_LE : Nat := 0xc0a80000
abbrev CC_SUB_MASK_LE : Nat := 0xffffff00
abbrev CC_SUB_MASK_BE : Nat := 0x00ffffff

abbrev UINT32_MAX : Nat := 0xffffffff
abbrev SOCKET_ERROR : Int := -1

abbrev DMSG_DISCOVER : Nat := 1
abbrev DMSG_OFFER : Nat := 2
abbrev DMSG_REQUEST : Nat := 3
abbrev DMSG_ACK : Nat := 5
abbrev DMSG_NAK : Nat := 6

abbrev DOPT_PAD : Nat := 0
abbrev DOPT_SUBNET_MASK : Nat := 1
abbrev DOPT_REQUESTED_IP_ADDR : Nat := 50
abbrev DOPT_ADDR_LEASE_TIME : Nat := 51
abbrev DOPT_MESSAGE_TYPE : Nat := 53
abbrev DOPT_SERVER_IDENT : Nat := 54
abbrev DOPT_END : Nat := 255

/-- The size of `struct Packet` in bytes: 236 bytes of BOOTP header, the
magic cookie and the options region. -/
abbrev PACKET_SIZE : Nat := 368

/-! ## Machine arithmetic -/

/-- Addition of two `uint32_t`. -/
def add32 (a b : Nat) : Nat := (a + b) % 4294967296

/-- Subtraction of two `uint32_t`. -/
def sub32 (a b : Nat) : Nat := (a % 4294967296 + 4294967296 - b % 4294967296) % 4294967296

/-- Conversion `uint32_t -> int` (two's complement, as MSVC does it). -/
def toInt32 (x : Nat) : Int :=
  if x % 4294967296 < 2147483648 then ((x % 4294967296 : Nat) : Int)
  else ((x % 4294967296 : Nat) : Int) - 4294967296

/-- The function `htonl` of a little endian host: the 32-bit byte swap. -/
def htonl (x : Nat) : Nat :=
  (x % 256) * 16777216 + (x / 256 % 256) * 65536 + (x / 65536 % 256) * 256
    + (x / 16777216 % 256)

/-- A `uint16_t` overlaid on the bytes `off, off+1` of a buffer. -/
def le16 (bs : List Nat) (off : Nat) : Nat :=
  bs.getD off 0 + 256 * bs.getD (off + 1) 0

/-- A `uint32_t` overlaid on the bytes `off .. off+3` of a buffer. -/
def le32 (bs : List Nat) (off : Nat) : Nat :=
  bs.getD off 0 + 256 * bs.getD (off + 1) 0 + 65536 * bs.getD (off + 2) 0
    + 16777216 * bs.getD (off + 3) 0

/-- The two bytes a `uint16_t` occupies in memory. -/
def bytes16 (v : Nat) : List Nat := [v % 256, v / 256 % 256]

/-- The four bytes a `uint32_t` occupies in memory. -/
def bytes32 (v : Nat) : List Nat :=
  [v % 256, v / 256 % 256, v / 65536 % 256, v / 16777216 % 256]

/-! ## Data model (`tatdylf.h`) -/

/-- The array `uint32_t chaddr[CHADDR_N32]`. -/
structure Chaddr where
  w0 : Nat
  w1 : Nat
  w2 : Nat
  w3 : Nat
deriving DecidableEq

/-- The record `struct Packet`. -/
structure Packet where
  op : Nat
  htype : Nat
  hlen : Nat
  hops : Nat
  xid : Nat
  secs : Nat
  flags : Nat
  ciaddr : Nat
  yiaddr : Nat
  siaddr : Nat
  giaddr : Nat
  chaddr : Chaddr
  sname : List Nat
  file : List Nat
  magic_cookie : Nat
  options : List Nat
deriving DecidableEq

/-- The record `struct Request`; the member `buffer` of its union is obtained
from `packet` by `Packet.toBuffer`. -/
structure Request where
  packet : Packet
  server_ip : Nat
  requested_ip : Nat
  request_msg : Nat
  reply_msg : Nat
deriving DecidableEq

/-- The record `struct Client`. -/
structure Client where
  expiry : Nat
  chaddr : Chaddr
deriving DecidableEq

/-- The record `struct Config` (the socket handle is left out: it only
names the endpoint that `recvfrom` and `sendto` work on). -/
structure Config where
  server_ip : Nat
  lease : Nat
  range_start : Nat
  range_end : Nat
  clients : List Client
deriving DecidableEq

/-- Modelled from the spec: the type `Option` of the option codec is used by
`tatdylf.cpp` but declared in no file under `src/`.  It has a one byte tag, a
one byte size and a payload buffer `buf` that shares its storage with the
member `u32`; the capacity of the buffer is the length of `buf`. -/
structure DhcpOption where
  tag : Nat
  size : Nat
  buf : List Nat
deriving DecidableEq

/-- The member `u32` of the option: the first four payload bytes read as one
`uint32_t`. -/
def DhcpOption.u32 (o : DhcpOption) : Nat := le32 o.buf 0

/-- The view `req->packet` of the bytes in `req->buffer`. -/
def Packet.ofBuffer (b : List Nat) : Packet where
  op := b.getD 0 0
  htype := b.getD 1 0
  hlen := b.getD 2 0
  hops := b.getD 3 0
  xid := le32 b 4
  secs := le16 b 8
  flags := le16 b 10
  ciaddr := le32 b 12
  yiaddr := le32 b 16
  siaddr := le32 b 20
  giaddr := le32 b 24
  chaddr := ⟨le32 b 28, le32 b 32, le32 b 36, le32 b 40⟩
  sname := (b.drop 44).take 64
  file := (b.drop 108).take 128
  magic_cookie := le32 b 236
  options := (b.drop 240).take DHCP_OPT_SIZE

/-- The view `req->buffer` of the fields of `req->packet`. -/
def Packet.toBuffer (p : Packet) : List Nat :=
  [p.op, p.htype, p.hlen, p.hops] ++ bytes32 p.xid ++ bytes16 p.secs ++ bytes16 p.flags
    ++ bytes32 p.ciaddr ++ bytes32 p.yiaddr ++ bytes32 p.siaddr ++ bytes32 p.giaddr
    ++ bytes32 p.chaddr.w0 ++ bytes32 p.chaddr.w1 ++ bytes32 p.chaddr.w2
    ++ bytes32 p.chaddr.w3
    ++ p.sname ++ p.file ++ bytes32 p.magic_cookie ++ p.options

/-- The array `empty` of `assign_address` after `zero_init`. -/
def empty : Chaddr := ⟨0, 0, 0, 0⟩

/-! ## Receiving (`extract_option`, `receive_request`) -/

/-- The function `extract_option`, reading at offset `src` of the options
region.  The inner `none` is the null pointer returned at the terminator; on
success the new offset and the updated option are returned (bytes of `buf`
beyond `size` keep their old content).  The outer `none` stands for a read
outside the options region or a copy that does not fit `buf`. -/
def extract_option (options : List Nat) (src : Nat) (opt : DhcpOption) :
    Option (Option (Nat × DhcpOption)) :=
  match options[src]? with
  | none => none
  | some tag =>
    if tag ≠ DOPT_END then
      match options[src + 1]? with
      | none => none
      | some size =>
        if size ≤ opt.buf.length ∧ src + 2 + size ≤ options.length then
          some (some (src + 2 + size,
            { tag := tag, size := size,
              buf := (options.drop (src + 2)).take size ++ opt.buf.drop size }))
        else none
    else some none

/-- The `switch (opt.tag)` in the loop of `receive_request`. -/
def store_option (req : Request) (opt : DhcpOption) : Request :=
  if opt.tag = DOPT_MESSAGE_TYPE then { req with request_msg := opt.buf.getD 0 0 }
  else if opt.tag = DOPT_SERVER_IDENT then { req with server_ip := opt.u32 }
  else if opt.tag = DOPT_REQUESTED_IP_ADDR then { req with requested_ip := opt.u32 }
  else req

/-- The loop `while (src < end && (src = extract_option(src, &opt)) != nullptr)`
of `receive_request`.  Every round moves `src` forward by at least two bytes,
so the first argument, a bound on the number of rounds still possible, is
never used up when it starts at `DHCP_OPT_SIZE` with `src = 0`. -/
def decode_options (options : List Nat) : Nat → Nat → DhcpOption → Request → Option Request
  | 0, src, _, req => if src < DHCP_OPT_SIZE then none else some req
  | rounds + 1, src, opt, req =>
    if src < DHCP_OPT_SIZE then
      match extract_option options src opt with
      | none => none
      | some none => some req
      | some (some (src', opt')) =>
        decode_options options rounds src' opt' (store_option req opt')
    else some req

/-- The request after `zero_init(*req)`. -/
def zero_request : Request where
  packet := Packet.ofBuffer (List.replicate PACKET_SIZE 0)
  server_ip := 0
  requested_ip := 0
  request_msg := 0
  reply_msg := 0

/-- The content of `req->buffer` after `recvfrom` has stored the bytes `data`
in the zeroed buffer of `sizeof(Packet)` bytes. -/
def recv_buffer (data : List Nat) : List Nat :=
  (data ++ List.replicate PACKET_SIZE 0).take PACKET_SIZE

/-- The function `receive_request`.  `size` is the value `recvfrom` returned
and `data` the bytes it stored; `opt0` is the content of the local variable
`opt` before the first option is extracted. -/
def receive_request (opt0 : DhcpOption) (size : Int) (data : List Nat) :
    Option (Bool × Request) :=
  let req : Request := { zero_request with packet := Packet.ofBuffer (recv_buffer data) }
  if size = SOCKET_ERROR then some (false, req)
  else
    let req_op := req.packet.op
    let cookie := htonl req.packet.magic_cookie
    if req_op ≠ BOOTP_REQUEST ∨ cookie ≠ DHCP_COOKIE then some (false, req)
    else
      match decode_options req.packet.options DHCP_OPT_SIZE 0 opt0 req with
      | none => none
      | some req' => some (true, req')

/-! ## The lease table (`equal_chaddr`, `assign_address`, `matching_client`) -/

/-- The function `equal_chaddr`: only the first two words are compared. -/
def equal_chaddr (a b : Chaddr) : Bool := (a.w0 == b.w0) && (a.w1 == b.w1)

/-- The value `num_addr` of `assign_address`. -/
def num_addr (cfg : Config) : Int :=
  toInt32 (add32 (sub32 cfg.range_end cfg.range_start) 1)

/-- The loop `for (; i < num_addr; i++)` of `assign_address`.  The first
argument is `num_addr - i`, the number of rounds left; the result is the pair
`(i, expired)` at the exit of the loop. -/
def scan (hw : Chaddr) (clients : List Client) (now : Nat) :
    Nat → Nat → Int → Option (Nat × Int)
  | 0, i, expired => some (i, expired)
  | left + 1, i, expired =>
    match clients[i]? with
    | none => none
    | some c =>
      if equal_chaddr hw c.chaddr || equal_chaddr c.chaddr empty then
        some (i, expired)
      else
        scan hw clients now left (i + 1)
          (if !equal_chaddr c.chaddr empty && decide (c.expiry < now) then (i : Int)
           else expired)

/-- The choice of the slot in `assign_address` (up to the statement
`return 0`): the inner `none` is the case "no available IP". -/
def select_slot (req : Request) (cfg : Config) (now : Nat) : Option (Option Nat) :=
  match scan req.packet.chaddr cfg.clients now (num_addr cfg).toNat 0 (-1) with
  | none => none
  | some (i, expired) =>
    if (i : Int) ≥ num_addr cfg then
      if expired ≥ 0 then some (some expired.toNat) else some none
    else some (some i)

/-- The last three statements of `assign_address` for the chosen slot `i`. -/
def reserve (req : Request) (cfg : Config) (now : Nat) (i : Nat) : Option (Nat × Config) :=
  if i < cfg.clients.length then
    some (htonl (add32 cfg.range_start i),
      { cfg with clients := cfg.clients.set i ⟨add32 now 42, req.packet.chaddr⟩ })
  else none

/-- The function `assign_address`; `now` is the value of
`seconds_since_start()`.  The result is the returned address and the
configuration with the updated lease table. -/
def assign_address (req : Request) (cfg : Config) (now : Nat) : Option (Nat × Config) :=
  match select_slot req cfg now with
  | none => none
  | some none => some (0, cfg)
  | some (some i) => reserve req cfg now i

/-- The function `client_index_from_ip`. -/
def client_index_from_ip (cfg : Config) (ip : Nat) : Int :=
  let ip_host_end := htonl ip
  if ip_host_end ≥ cfg.range_start ∧ ip_host_end ≤ cfg.range_end then
    toInt32 (sub32 ip_host_end cfg.range_start)
  else -1

/-- The function `matching_client`. -/
def matching_client (ip : Nat) (chaddr : Chaddr) (cfg : Config) : Option Int :=
  let idx := client_index_from_ip cfg ip
  if idx ≥ 0 then
    match cfg.clients[idx.toNat]? with
    | none => none
    | some c => if equal_chaddr chaddr c.chaddr then some idx else some (-1)
  else some (-1)

/-! ## Replying (`attach_option`, `finalize_reply`, `send_reply`) -/

/-- The function `attach_option`: the option is written at offset `dst` of
the options region and the offset behind it is returned. -/
def attach_option (options : List Nat) (dst : Nat) (opt : DhcpOption) : List Nat × Nat :=
  let bs := [opt.tag, opt.size] ++ opt.buf.take opt.size
  (options.take dst ++ bs ++ options.drop (dst + bs.length), dst + 2 + opt.size)

/-- The function `finalize_reply`: the request with the reply options and
the reply opcode, and the length of the datagram. -/
def finalize_reply (req : Request) (cfg : Config) : Request × Nat :=
  let options := List.replicate DHCP_OPT_SIZE 0
  let (options, dst) := attach_option options 0 ⟨DOPT_MESSAGE_TYPE, 1, [req.reply_msg]⟩
  let (options, dst) :=
    if req.reply_msg ≠ DMSG_NAK then
      let (options, dst) := attach_option options dst ⟨DOPT_SUBNET_MASK, 4, bytes32 CC_SUB_MASK_BE⟩
      let (options, dst) := attach_option options dst ⟨DOPT_SERVER_IDENT, 4, bytes32 cfg.server_ip⟩
      attach_option options dst ⟨DOPT_ADDR_LEASE_TIME, 4, bytes32 (htonl cfg.lease)⟩
    else (options, dst)
  let options := options.set dst DOPT_END
  ({ req with packet := { req.packet with options := options, op := BOOTP_REPLY } },
    240 + (dst + 1))

/-- What `send_reply` leaves behind: its return value, the request record,
the configuration, and the datagram handed to `sendto` (if any). -/
structure Outcome where
  ret : Bool
  req : Request
  cfg : Config
  datagram : Option (List Nat)
deriving DecidableEq

/-- The expiry written by `send_reply` for a confirmed lease. -/
def confirmed_expiry (t lease : Nat) : Nat :=
  if sub32 UINT32_MAX t > lease then add32 t lease else UINT32_MAX

/-- The tail of `send_reply` from `finalize_reply` on. -/
def transmit (req : Request) (cfg : Config) (client2update : Int) (now : Nat) (sent : Int) :
    Option Outcome :=
  let (req, size) := finalize_reply req cfg
  let datagram := req.packet.toBuffer.take size
  if sent > 0 ∧ client2update ≥ 0 then
    match cfg.clients[client2update.toNat]? with
    | none => none
    | some c =>
      some ⟨true, req,
        { cfg with clients :=
            cfg.clients.set client2update.toNat { c with expiry := confirmed_expiry now cfg.lease } },
        some datagram⟩
  else some ⟨false, req, cfg, some datagram⟩

/-- The local constant `ip` of `send_reply`: the client's current address if
there is one, else the requested address. -/
def candidate_ip (req : Request) : Nat :=
  if req.packet.ciaddr ≠ 0 then req.packet.ciaddr else req.requested_ip

/-- The function `send_reply`.  `now` is the value of `seconds_since_start()`
(read once: by `assign_address` for a DISCOVER, after the send for a
REQUEST) and `sent` is the value `sendto` returns. -/
def send_reply (req : Request) (cfg : Config) (now : Nat) (sent : Int) : Option Outcome :=
  let req : Request := { req with reply_msg := DMSG_NAK, packet := { req.packet with yiaddr := 0 } }
  if req.request_msg = DMSG_DISCOVER then
    match assign_address req cfg now with
    | none => none
    | some (ip, cfg) =>
      let req : Request := { req with packet := { req.packet with yiaddr := ip } }
      let req : Request := if ip ≠ 0 then { req with reply_msg := DMSG_OFFER } else req
      transmit req cfg (-1) now sent
  else if req.request_msg = DMSG_REQUEST then
    if req.server_ip = 0 ∨ req.server_ip = cfg.server_ip then
      let ip := candidate_ip req
      if ip ≠ 0 then
        match matching_client ip req.packet.chaddr cfg with
        | none => none
        | some client2update =>
          if client2update ≥ 0 then
            transmit { req with reply_msg := DMSG_ACK, packet := { req.packet with yiaddr := ip } }
              cfg client2update now sent
          else transmit req cfg client2update now sent
      else transmit req cfg (-1) now sent
    else transmit req cfg (-1) now sent
  else some ⟨false, req, cfg, none⟩

/-! ## Vocabulary of the statements -/

/-- The exit condition of the scan in `assign_address`: the slot belongs to
`hw` or is unused. -/
def usable (hw : Chaddr) (c : Client) : Bool :=
  equal_chaddr hw c.chaddr || equal_chaddr c.chaddr empty

/-- The condition under which the scan memorises a slot for reuse. -/
def stale (now : Nat) (c : Client) : Bool :=
  !equal_chaddr c.chaddr empty && decide (c.expiry < now)

/-- A run of DISCOVERs of one client at the given times: the addresses
`assign_address` returns, in order, and the final configuration. -/
def rediscover (req : Request) : Config → List Nat → Option (List Nat × Config)
  | cfg, [] => some ([], cfg)
  | cfg, now :: rest =>
    match assign_address req cfg now with
    | none => none
    | some (x, cfg1) =>
      match rediscover req cfg1 rest with
      | none => none
      | some (xs, cfg2) => some (x :: xs, cfg2)

/-- The state a reservation leaves behind: slot `i` of the pool belongs to the
client and no slot before it is usable for the client. -/
def reserved_at (req : Request) (cfg : Config) (i : Nat) : Prop :=
  (i : Int) < num_addr cfg ∧
  (∃ c, cfg.clients[i]? = some c ∧ usable req.packet.chaddr c = true) ∧
  ∀ j, j < i → ∃ cj, cfg.clients[j]? = some cj ∧ usable req.packet.chaddr cj = false

/-- The conditions of the spec for acknowledging a REQUEST: (a) no server
identifier or our own, (b) a candidate IP, (c) the candidate IP lies in the
range and its slot stores the hardware address of the requester. -/
def owned_request (req : Request) (cfg : Config) : Prop :=
  (req.server_ip = 0 ∨ req.server_ip = cfg.server_ip) ∧
  candidate_ip req ≠ 0 ∧
  cfg.range_start ≤ htonl (candidate_ip req) ∧ htonl (candidate_ip req) ≤ cfg.range_end ∧
  ∃ c, cfg.clients[htonl (candidate_ip req) - cfg.range_start]? = some c ∧
    equal_chaddr req.packet.chaddr c.chaddr = true

/-- The request record after the first two assignments of `send_reply`. -/
def nak_request (req : Request) : Request :=
  { req with reply_msg := DMSG_NAK, packet := { req.packet with yiaddr := 0 } }

/-- The request record after `send_reply` has decided to acknowledge `ip`. -/
def ack_request (req : Request) (ip : Nat) : Request :=
  { req with reply_msg := DMSG_ACK, packet := { req.packet with yiaddr := ip } }

/-! ## Sample data -/

/-- The hardware address `AA:BB:CC:DD:EE:FF` as it lies in `chaddr`. -/
def mac_a : Chaddr := ⟨0xDDCCBBAA, 0x0000FFEE, 0, 0⟩

/-- The hardware address `11:22:33:44:55:66`. -/
def mac_b : Chaddr := ⟨0x44332211, 0x00006655, 0, 0⟩

/-- The hardware address `21:22:33:44:55:66`. -/
def mac_c : Chaddr := ⟨0x44332221, 0x00006655, 0, 0⟩

/-- The hardware address `31:22:33:44:55:66`. -/
def mac_d : Chaddr := ⟨0x44332231, 0x00006655, 0, 0⟩

/-- A lease table of `NUM_CLIENTS` slots that starts with the given slots
and is unused behind them. -/
def sample_table (cs : List Client) : List Client :=
  cs ++ List.replicate (NUM_CLIENTS - cs.length) ⟨0, empty⟩

/-- The configuration of the server 192.168.0.1 with the three addresses
192.168.0.2 to 192.168.0.4 in its pool. -/
def sample_cfg (lease : Nat) (cs : List Client) : Config :=
  ⟨0x0100A8C0, lease, 0xC0A80002, 0xC0A80004, sample_table cs⟩

/-- A decoded DISCOVER of the given client. -/
def discover_from (hw : Chaddr) : Request :=
  { zero_request with
    request_msg := DMSG_DISCOVER
    packet := { zero_request.packet with op := BOOTP_REQUEST, chaddr := hw } }

/-- A decoded REQUEST of the given client for the address `ciaddr`. -/
def request_from (hw : Chaddr) (ciaddr : Nat) : Request :=
  { zero_request with
    request_msg := DMSG_REQUEST
    packet := { zero_request.packet with op := BOOTP_REQUEST, chaddr := hw, ciaddr := ciaddr } }

/-- A DHCPDISCOVER datagram of 244 bytes as RFC 2131 lays it out: `op = 1`,
Ethernet, client `AA:BB:CC:DD:EE:FF`, the magic cookie `63 82 53 63` at offset
236 and the options "message type = DISCOVER", "end". -/
def rfc_discover : List Nat :=
  [1, 1, 6, 0] ++ List.replicate 24 0 ++ [0xAA, 0xBB, 0xCC, 0xDD, 0xEE, 0xFF]
    ++ List.replicate 10 0 ++ List.replicate 192 0 ++ [0x63, 0x82, 0x53, 0x63]
    ++ [53, 1, 1, 255]

/-! ## The clock (`seconds_since_start`) -/

/-- The function `seconds_since_start`.  `first` is the value of its static
variable before the call and `ft` the count of 100 ns ticks delivered by
`GetSystemTimeAsFileTime`; the result is the returned value together with the
static variable after the call. -/
def seconds_since_start (first : Nat) (ft : Nat) : Nat × Nat :=
  let now := (ft / 10000000) % 4294967296
  let first := if first = 0 then now else first
  (sub32 now first, first)

/-! ## Configuration (`get_single_config`) -/

/-- The operator `~` on a `uint32_t`. -/
def not32 (x : Nat) : Nat := 4294967295 - x % 4294967296

/-- The function `get_single_config`.  `ip` is the result of `inet_addr` on
the entry "ip" of the section (`none` when the entry is missing), `lease` the
value the lease part of the function stores (600 unless
`TATDYLF_READ_LEASE_TIME` is defined) and `socket_ok` tells whether creating,
configuring and binding the socket succeeded.  The result `none` is the return
value false. -/
def get_single_config (ip : Option Nat) (lease : Nat) (socket_ok : Bool) : Option Config :=
  match ip with
  | none => none
  | some server_ip =>
    let server_ip_host_end := htonl server_ip
    if server_ip_host_end &&& CC_NET_MASK_LE ≠ CC_PREFIX_LE then none
    else
      let (range_start, range_end) :=
        if server_ip_host_end &&& not32 CC_SUB_MASK_LE ≥ 128 then
          ((server_ip_host_end &&& CC_SUB_MASK_LE) ||| 1, sub32 server_ip_host_end 1)
        else
          (add32 server_ip_host_end 1, (server_ip_host_end &&& CC_SUB_MASK_LE) ||| 254)
      let range_end :=
        if add32 (sub32 range_end range_start) 1 > NUM_CLIENTS then
          sub32 (add32 range_start NUM_CLIENTS) 1
        else range_end
      if socket_ok then
        some ⟨server_ip, lease, range_start, range_end, List.replicate NUM_CLIENTS ⟨0, empty⟩⟩
      else none

/-- The datagram `rfc_discover` with the second and third byte of the magic
cookie exchanged: `63 53 82 63` at offset 236. -/
def swapped_discover : List Nat :=
  [1, 1, 6, 0] ++ List.replicate 24 0 ++ [0xAA, 0xBB, 0xCC, 0xDD, 0xEE, 0xFF]
    ++ List.replicate 10 0 ++ List.replicate 192 0 ++ [0x63, 0x53, 0x82, 0x63]
    ++ [53, 1, 1, 255]

/-- The request record that `receive_request` decodes from
`swapped_discover`. -/
def swapped_request : Request :=
  { zero_request with
    packet := Packet.ofBuffer (recv_buffer swapped_discover)
    request_msg := DMSG_DISCOVER }

/-! ## Vocabulary of the codec statements -/

/-- Encoding as the spec describes it and as `finalize_reply` does it: the
options are attached one after the other from offset `dst` on, then the
terminator is written. -/
def write_options (options : List Nat) (dst : Nat) : List DhcpOption → List Nat × Nat
  | [] => (options.set dst DOPT_END, dst + 1)
  | o :: rest => write_options (attach_option options dst o).1 (attach_option options dst o).2 rest

/-- Repeated calls of `extract_option` from offset `src` on, at most `rounds`
of them: the options extracted before the call that returns the null pointer.
The result is `none` when a call is undefined or when `rounds` calls did not
reach the terminator. -/
def extract_all (options : List Nat) : Nat → Nat → DhcpOption → Option (List DhcpOption)
  | 0, _, _ => none
  | rounds + 1, src, opt =>
    match extract_option options src opt with
    | none => none
    | some none => some []
    | some (some (src', opt')) =>
      match extract_all options rounds src' opt' with
      | none => none
      | some rest => some (opt' :: rest)

/-- What the round trip compares: tag, size and the `size` payload bytes. -/
def option_content (o : DhcpOption) : Nat × Nat × List Nat := (o.tag, o.size, o.buf.take o.size)

/-- The options `finalize_reply` attaches. -/
def reply_options (req : Request) (cfg : Config) : List DhcpOption :=
  ⟨DOPT_MESSAGE_TYPE, 1, [req.reply_msg]⟩ ::
    (if req.reply_msg ≠ DMSG_NAK then
      [⟨DOPT_SUBNET_MASK, 4, bytes32 CC_SUB_MASK_BE⟩,
       ⟨DOPT_SERVER_IDENT, 4, bytes32 cfg.server_ip⟩,
       ⟨DOPT_ADDR_LEASE_TIME, 4, bytes32 (htonl cfg.lease)⟩]
    else [])

/-- The bytes of an option on the wire, given as tag and payload. -/
def option_bytes (o : Nat × List Nat) : List Nat := o.1 :: o.2.length :: o.2

/-- The bytes of a sequence of options on the wire. -/
def options_bytes : List (Nat × List Nat) → List Nat
  | [] => []
  | o :: rest => option_bytes o ++ options_bytes rest

/-- The payload of the last option with the given tag, if there is one. -/
def last_payload (tag : Nat) : List (Nat × List Nat) → Option (List Nat)
  | [] => none
  | o :: rest =>
    match last_payload tag rest with
    | some p => some p
    | none => if o.1 = tag then some o.2 else none

/-- What the spec says the decode loop yields for a sequence of options:
the message type is the first payload byte of the last option 53, the server
identifier and the requested address are the payloads of the last options 54
and 50, and a field without option keeps the value it had. -/
def reference_decode (opts : List (Nat × List Nat)) (req : Request) : Request :=
  { req with
    request_msg :=
      match last_payload DOPT_MESSAGE_TYPE opts with
      | some p => p.getD 0 0
      | none => req.request_msg
    server_ip :=
      match last_payload DOPT_SERVER_IDENT opts with
      | some p => le32 p 0
      | none => req.server_ip
    requested_ip :=
      match last_payload DOPT_REQUESTED_IP_ADDR opts with
      | some p => le32 p 0
      | none => req.requested_ip }

/-- A datagram with the cookie bytes the validation accepts, carrying the
options "message type = REQUEST", a client identifier (option 61, seven
bytes), "requested address = 192.168.0.2", "server identifier = 192.168.0.1"
and the terminator, followed by bytes that are not zero. -/
def request_datagram : List Nat :=
  [1, 1, 6, 0] ++ List.replicate 24 0 ++ [0xAA, 0xBB, 0xCC, 0xDD, 0xEE, 0xFF]
    ++ List.replicate 10 0 ++ List.replicate 192 0 ++ [0x63, 0x53, 0x82, 0x63]
    ++ [53, 1, 3, 61, 7, 1, 0xAA, 0xBB, 0xCC, 0xDD, 0xEE, 0xFF, 50, 4, 192, 168, 0, 2,
        54, 4, 192, 168, 0, 1, 255, 53, 1, 1]

/-! ## Vocabulary of the statements about runs -/

/-- The configuration of the scenario in the spec, with the range that
`get_single_config` computes for the server 192.168.0.0: addresses
192.168.0.1 to 192.168.0.32, lease 600, empty lease table. -/
def spec_cfg : Config :=
  ⟨0x0000A8C0, 600, 0xC0A80001, 0xC0A80020, List.replicate NUM_CLIENTS ⟨0, empty⟩⟩

/-- The outcome of the DISCOVER of `AA:BB:CC:DD:EE:FF` at time 1000 in the
scenario of the spec. -/
def spec_offer : Outcome :=
  (send_reply (discover_from mac_a) spec_cfg 1000 262).getD ⟨false, zero_request, spec_cfg, none⟩

/-- A run of the server on one interface: the datagrams that passed
`receive_request`, each with the clock value and the result of `sendto` that
`send_reply` meets, are processed in order; the result is the final
configuration. -/
def run_requests : Config → List (Request × Nat × Int) → Option Config
  | cfg, [] => some cfg
  | cfg, (req, now, sent) :: rest =>
    match send_reply req cfg now sent with
    | none => none
    | some o => run_requests o.cfg rest

/-- No two slots in use store the same hardware address (in the sense of
`equal_chaddr`). -/
def unique_leases (cfg : Config) : Prop :=
  ∀ (i j : Nat) (ci cj : Client), cfg.clients[i]? = some ci → cfg.clients[j]? = some cj →
    equal_chaddr ci.chaddr empty = false → equal_chaddr ci.chaddr cj.chaddr = true → i = j

/-- The part of a hardware address that `equal_chaddr` looks at. -/
def hw_key (a : Chaddr) : Nat × Nat := (a.w0, a.w1)

/-- The keys of the hardware addresses stored in the lease table. -/
def lease_keys (cfg : Config) : List (Nat × Nat) := cfg.clients.map fun c => hw_key c.chaddr

/-- No key other than the unused one occurs twice. -/
def keys_unique (ks : List (Nat × Nat)) : Prop :=
  ∀ (i j : Nat) (k : Nat × Nat), ks[i]? = some k → ks[j]? = some k → k ≠ (0, 0) → i = j

/-- No unused slot lies before a slot in use. -/
def keys_packed (ks : List (Nat × Nat)) : Prop :=
  ∀ (i j : Nat) (ki kj : Nat × Nat), i < j → ks[i]? = some ki → ks[j]? = some kj →
    kj ≠ (0, 0) → ki ≠ (0, 0)

/-- The slots from index `n` on are unused. -/
def keys_unused_from (n : Nat) (ks : List (Nat × Nat)) : Prop :=
  ∀ (j : Nat) (k : Nat × Nat), n ≤ j → ks[j]? = some k → k = (0, 0)

/-- The invariant of the lease table maintained by `send_reply`. -/
def table_invariant (cfg : Config) : Prop :=
  keys_unique (lease_keys cfg) ∧ keys_packed (lease_keys cfg) ∧
    keys_unused_from (num_addr cfg).toNat (lease_keys cfg)

/-- The hardware address `00:00:00:00:00:00`. -/
def mac_zero : Chaddr := ⟨0, 0, 0, 0⟩


/-- No unused slot of the lease table has a lower index than a slot in use. -/
def packed_leases (cfg : Config) : Prop :=
  ∀ (i j : Nat) (ci cj : Client), i < j → cfg.clients[i]? = some ci →
    cfg.clients[j]? = some cj → equal_chaddr cj.chaddr empty = false →
    equal_chaddr ci.chaddr empty = false

/-- Every slot in use in `cfg` is in use in `cfg1`. -/
def leases_persist (cfg cfg1 : Config) : Prop :=
  ∀ (j : Nat) (c : Client), cfg.clients[j]? = some c → equal_chaddr c.chaddr empty = false →
    ∃ c1, cfg1.clients[j]? = some c1 ∧ equal_chaddr c1.chaddr empty = false


/-- The bytes of a datagram at the offsets 1 to 15 (`htype`, `hlen`, `hops`,
`xid`, `secs`, `flags`, `ciaddr`) and 20 to 239 (`siaddr`, `giaddr`, `chaddr`,
`sname`, `file`, `magic_cookie`): all of the fixed part but `op` and
`yiaddr`. -/
def kept_bytes (b : List Nat) : List Nat × List Nat :=
  ((b.drop 1).take 15, (b.drop 20).take 220)

/-! # Theorems -/

/-! ## The loops of the embedding against the loops of the source -/

/-- The function `scan` run with `num_addr - i` rounds left is the loop
`for (; i < num_addr; i++)` with the body of the source. -/
theorem scan_for_loop (hw : Chaddr) (cl : List Client) (now n i : Nat) (e : Int) :
    scan hw cl now (n - i) i e =
      if i < n then
        match cl[i]? with
        | none => none
        | some c =>
          if equal_chaddr hw c.chaddr || equal_chaddr c.chaddr empty then some (i, e)
          else scan hw cl now (n - (i + 1)) (i + 1)
            (if !equal_chaddr c.chaddr empty && decide (c.expiry < now) then (i : Int) else e)
      else some (i, e) := by
  by_cases h : i < n
  · rw [if_pos h, show n - i = (n - (i + 1)) + 1 by omega]
    rfl
  · rw [if_neg h, show n - i = 0 by omega]
    rfl

/-- The bound on the rounds of `decode_options` does not influence the
result once it covers the bytes left in the options region. -/
theorem decode_options_rounds (options : List Nat) :
    ∀ (r1 r2 src : Nat) (opt : DhcpOption) (req : Request),
      DHCP_OPT_SIZE ≤ src + r1 → DHCP_OPT_SIZE ≤ src + r2 →
      decode_options options r1 src opt req = decode_options options r2 src opt req := by
  intro r1
  induction r1 with
  | zero =>
    intro r2 src opt req h1 _
    have hs : ¬ (src < DHCP_OPT_SIZE) := by omega
    cases r2 with
    | zero => rfl
    | succ r => simp only [decode_options, if_neg hs]
  | succ r ih =>
    intro r2 src opt req h1 h2
    by_cases hs : src < DHCP_OPT_SIZE
    · obtain ⟨r', rfl⟩ : ∃ r', r2 = r' + 1 := ⟨r2 - 1, by omega⟩
      simp only [decode_options, if_pos hs]
      cases hx : extract_option options src opt with
      | none => rfl
      | some x =>
        cases x with
        | none => rfl
        | some y =>
          obtain ⟨src', opt'⟩ := y
          have hadv : src < src' := by
            unfold extract_option at hx
            split at hx
            · cases hx
            · split at hx
              · split at hx
                · cases hx
                · split at hx
                  · simp only [Option.some.injEq, Prod.mk.injEq] at hx
                    omega
                  · cases hx
              · cases hx
          exact ih r' src' opt' _ (by omega) (by omega)
    · cases r2 with
      | zero => simp only [decode_options, if_neg hs]
      | succ r' => simp only [decode_options, if_neg hs]


/-! ## Validation in `receive_request` -/

theorem recv_buffer_getD (data : List Nat) (k : Nat) (hk : k < PACKET_SIZE) :
    (recv_buffer data).getD k 0 = data.getD k 0 := by
  unfold recv_buffer
  simp only [List.getD_eq_getElem?_getD, List.getElem?_take, hk, if_true]
  by_cases hlt : k < data.length
  · rw [List.getElem?_append_left hlt]
  · rw [List.getElem?_eq_none (l := data) (by omega)]
    by_cases hlt2 : k < (data ++ List.replicate PACKET_SIZE 0).length
    · rw [List.getElem?_eq_getElem hlt2, List.getElem_append_right (by omega)]
      simp
    · rw [List.getElem?_eq_none (by omega)]

/-- Every datagram with `op = 1` and the RFC 2131 cookie bytes `63 82 53 63`
at offset 236 is refused by the validation of `receive_request`. -/
theorem receive_request_refuses_rfc_cookie (opt0 : DhcpOption) (size : Int) (data : List Nat)
    (h0 : data.getD 236 0 = 0x63) (h1 : data.getD 237 0 = 0x82)
    (h2 : data.getD 238 0 = 0x53) (h3 : data.getD 239 0 = 0x63) :
    ∃ req, receive_request opt0 size data = some (false, req) := by
  have hc : htonl (Packet.ofBuffer (recv_buffer data)).magic_cookie ≠ DHCP_COOKIE := by
    simp only [Packet.ofBuffer, le32]
    rw [recv_buffer_getD data 236 (by decide), recv_buffer_getD data 237 (by decide),
      recv_buffer_getD data 238 (by decide), recv_buffer_getD data 239 (by decide),
      h0, h1, h2, h3]
    decide
  unfold receive_request
  simp only []
  by_cases hs : size = SOCKET_ERROR
  · exact ⟨_, by rw [if_pos hs]⟩
  · exact ⟨_, by rw [if_neg hs, if_pos (Or.inr hc)]⟩

set_option maxRecDepth 8000 in
/-- C1 (the code departs from the claim): the RFC 2131 DHCPDISCOVER datagram
`rfc_discover`, received without error (`recvfrom` returns its length 244),
has `op = 1` and the cookie bytes `63 82 53 63` at offset 236, yet
`receive_request` returns false for it: the byte-swapped cookie `0x63825363`
is compared with `DHCP_COOKIE = 0x63538263`. -/
theorem receive_request_rejects_rfc_discover (opt0 : DhcpOption) :
    rfc_discover.length = 244 ∧
    (Packet.ofBuffer (recv_buffer rfc_discover)).op = BOOTP_REQUEST ∧
    rfc_discover.drop 236 = [0x63, 0x82, 0x53, 0x63, 53, 1, 1, 255] ∧
    htonl (Packet.ofBuffer (recv_buffer rfc_discover)).magic_cookie = 0x63825363 ∧
    Option.map Prod.fst (receive_request opt0 244 rfc_discover) = some false := by
  refine ⟨by decide, by decide, by decide, by decide, ?_⟩
  obtain ⟨req, hreq⟩ := receive_request_refuses_rfc_cookie opt0 244 rfc_discover
    (by decide) (by decide) (by decide) (by decide)
  rw [hreq]
  rfl


/-! ## The scan of `assign_address` -/

theorem scan_succ (hw : Chaddr) (cl : List Client) (now left i : Nat) (e : Int) (c : Client)
    (hc : cl[i]? = some c) :
    scan hw cl now (left + 1) i e =
      if usable hw c then some (i, e)
      else scan hw cl now left (i + 1) (if stale now c then (i : Int) else e) := by
  simp [scan, hc, usable, stale]

theorem scan_exit (hw : Chaddr) (cl : List Client) (now : Nat) :
    ∀ (left i : Nat) (e : Int) (i' : Nat) (e' : Int),
      scan hw cl now left i e = some (i', e') →
      i ≤ i' ∧ i' ≤ i + left ∧
      (∀ j, i ≤ j → j < i' → ∃ c, cl[j]? = some c ∧ usable hw c = false) ∧
      (i' < i + left → ∃ c, cl[i']? = some c ∧ usable hw c = true) := by
  intro left
  induction left with
  | zero =>
    intro i e i' e' h
    simp only [scan, Option.some.injEq, Prod.mk.injEq] at h
    obtain ⟨rfl, rfl⟩ := h
    exact ⟨le_refl _, le_refl _, fun j h1 h2 => absurd h2 (by omega), fun h => absurd h (by omega)⟩
  | succ n ih =>
    intro i e i' e' h
    cases hc : cl[i]? with
    | none => simp [scan, hc] at h
    | some c =>
      rw [scan_succ hw cl now n i e c hc] at h
      by_cases hu : usable hw c = true
      · simp only [hu, if_true, Option.some.injEq, Prod.mk.injEq] at h
        obtain ⟨rfl, rfl⟩ := h
        exact ⟨le_refl _, by omega, fun j h1 h2 => absurd h2 (by omega), fun _ => ⟨c, hc, hu⟩⟩
      · simp only [hu] at h
        obtain ⟨h1, h2, h3, h4⟩ := ih _ _ _ _ h
        refine ⟨by omega, by omega, ?_, ?_⟩
        · intro j hj1 hj2
          by_cases hji : j = i
          · subst hji
            exact ⟨c, hc, by simpa using hu⟩
          · exact h3 j (by omega) hj2
        · intro hlt
          exact h4 (by omega)

theorem scan_expired (hw : Chaddr) (cl : List Client) (now : Nat) :
    ∀ (left i : Nat) (e : Int) (i' : Nat) (e' : Int),
      scan hw cl now left i e = some (i', e') →
      (e' = e ∧ ∀ j c, i ≤ j → j < i' → cl[j]? = some c → stale now c = false) ∨
      (∃ m : Nat, e' = (m : Int) ∧ i ≤ m ∧ m < i' ∧
        (∃ c, cl[m]? = some c ∧ stale now c = true) ∧
        ∀ j c, m < j → j < i' → cl[j]? = some c → stale now c = false) := by
  intro left
  induction left with
  | zero =>
    intro i e i' e' h
    simp only [scan, Option.some.injEq, Prod.mk.injEq] at h
    obtain ⟨rfl, rfl⟩ := h
    exact Or.inl ⟨rfl, fun j c h1 h2 => absurd h2 (by omega)⟩
  | succ n ih =>
    intro i e i' e' h
    cases hc : cl[i]? with
    | none => simp [scan, hc] at h
    | some c =>
      rw [scan_succ hw cl now n i e c hc] at h
      by_cases hu : usable hw c = true
      · simp only [hu, if_true, Option.some.injEq, Prod.mk.injEq] at h
        obtain ⟨rfl, rfl⟩ := h
        exact Or.inl ⟨rfl, fun j c h1 h2 => absurd h2 (by omega)⟩
      · simp only [hu] at h
        have hb := (scan_exit hw cl now _ _ _ _ _ h).1
        rcases ih _ _ _ _ h with ⟨he, hno⟩ | ⟨m, hm, hm1, hm2, hm3, hm4⟩
        · by_cases hs : stale now c = true
          · right
            refine ⟨i, ?_, le_refl _, by omega, ⟨c, hc, hs⟩, ?_⟩
            · simpa [hs] using he
            · intro j cj hj1 hj2 hj3
              exact hno j cj (by omega) hj2 hj3
          · left
            refine ⟨?_, ?_⟩
            · simpa [hs] using he
            · intro j cj hj1 hj2 hj3
              by_cases hji : j = i
              · subst hji
                rw [hc] at hj3
                cases hj3
                simpa using hs
              · exact hno j cj (by omega) hj2 hj3
        · right
          exact ⟨m, hm, by omega, hm2, hm3, hm4⟩

theorem scan_total (hw : Chaddr) (cl : List Client) (now : Nat) :
    ∀ (left i : Nat) (e : Int), i + left ≤ cl.length →
      ∃ r, scan hw cl now left i e = some r := by
  intro left
  induction left with
  | zero => intro i e _; exact ⟨_, rfl⟩
  | succ n ih =>
    intro i e hlen
    have hi : i < cl.length := by omega
    have hc : cl[i]? = some cl[i] := List.getElem?_eq_getElem hi
    rw [scan_succ hw cl now n i e _ hc]
    by_cases hu : usable hw cl[i] = true
    · exact ⟨(i, e), by simp [hu]⟩
    · simp only [hu]
      exact ih _ _ (by omega)

theorem scan_break (hw : Chaddr) (cl : List Client) (now : Nat) :
    ∀ (k left i : Nat) (e : Int) (c : Client), k < left →
      cl[i + k]? = some c → usable hw c = true →
      (∀ j, j < k → ∃ cj, cl[i + j]? = some cj ∧ usable hw cj = false) →
      ∃ e', scan hw cl now left i e = some (i + k, e') := by
  intro k
  induction k with
  | zero =>
    intro left i e c hk hc hu _
    obtain ⟨n, rfl⟩ : ∃ n, left = n + 1 := ⟨left - 1, by omega⟩
    rw [scan_succ hw cl now n i e c (by simpa using hc)]
    exact ⟨e, by simp [hu]⟩
  | succ k ih =>
    intro left i e c hk hc hu hpre
    obtain ⟨n, rfl⟩ : ∃ n, left = n + 1 := ⟨left - 1, by omega⟩
    obtain ⟨c0, hc0, hu0⟩ := hpre 0 (by omega)
    rw [scan_succ hw cl now n i e c0 (by simpa using hc0)]
    simp only [hu0]
    have := ih n (i + 1) (if stale now c0 = true then (i : Int) else e) c (by omega)
      (by rw [← hc]; congr 1; omega) hu
      (fun j hj => by
        obtain ⟨cj, h1, h2⟩ := hpre (j + 1) (by omega)
        exact ⟨cj, by rw [← h1]; congr 1; omega, h2⟩)
    obtain ⟨e', he'⟩ := this
    exact ⟨e', by rw [show i + (k + 1) = i + 1 + k by omega]; simpa using he'⟩


/-! ## The choice of the slot -/

theorem num_addr_toNat (cfg : Config) (i : Nat) :
    i < (num_addr cfg).toNat ↔ (i : Int) < num_addr cfg := by
  omega

theorem select_slot_first (req : Request) (cfg : Config) (now i : Nat) (c : Client)
    (hi : (i : Int) < num_addr cfg) (hc : cfg.clients[i]? = some c)
    (hu : usable req.packet.chaddr c = true)
    (hpre : ∀ j, j < i → ∃ cj, cfg.clients[j]? = some cj ∧ usable req.packet.chaddr cj = false) :
    select_slot req cfg now = some (some i) := by
  have hk : i < (num_addr cfg).toNat := by omega
  obtain ⟨e', he'⟩ := scan_break req.packet.chaddr cfg.clients now i _ 0 (-1) c hk
    (by simpa using hc) hu (by simpa using hpre)
  simp only [zero_add] at he'
  simp only [select_slot, he']
  rw [if_neg (by omega)]

theorem select_slot_inv (req : Request) (cfg : Config) (now i : Nat)
    (h : select_slot req cfg now = some (some i)) :
    (i : Int) < num_addr cfg ∧ (∃ c, cfg.clients[i]? = some c) ∧
      ∀ j, j < i → ∃ cj, cfg.clients[j]? = some cj ∧ usable req.packet.chaddr cj = false := by
  unfold select_slot at h
  cases hs : scan req.packet.chaddr cfg.clients now (num_addr cfg).toNat 0 (-1) with
  | none => simp [hs] at h
  | some r =>
    obtain ⟨i', e'⟩ := r
    simp only [hs] at h
    obtain ⟨_, h2, h3, h4⟩ := scan_exit _ _ _ _ _ _ _ _ hs
    by_cases hge : (i' : Int) ≥ num_addr cfg
    · rw [if_pos hge] at h
      by_cases he : e' ≥ 0
      · rw [if_pos he] at h
        simp only [Option.some.injEq] at h
        rcases scan_expired _ _ _ _ _ _ _ _ hs with ⟨he', _⟩ | ⟨m, hm, _, hm2, ⟨c, hc, _⟩, _⟩
        · omega
        · have him : i = m := by omega
          subst him
          exact ⟨by omega, ⟨c, hc⟩, fun j hj => h3 j (Nat.zero_le _) (by omega)⟩
      · rw [if_neg he] at h
        simp at h
    · rw [if_neg hge] at h
      simp only [Option.some.injEq] at h
      subst h
      obtain ⟨c, hc, _⟩ := h4 (by omega)
      exact ⟨by omega, ⟨c, hc⟩, fun j hj => h3 j (Nat.zero_le _) hj⟩

theorem select_slot_no_usable (req : Request) (cfg : Config) (now : Nat)
    (hfit : (num_addr cfg).toNat ≤ cfg.clients.length)
    (hnone : ∀ (j : Nat) (c : Client), (j : Int) < num_addr cfg → cfg.clients[j]? = some c →
      usable req.packet.chaddr c = false) :
    (select_slot req cfg now = some none ∧
      ∀ (j : Nat) (c : Client), (j : Int) < num_addr cfg → cfg.clients[j]? = some c → stale now c = false) ∨
    (∃ (m : Nat) (c : Client), (m : Int) < num_addr cfg ∧ cfg.clients[m]? = some c ∧ stale now c = true ∧
      (∀ (j : Nat) (cj : Client), m < j → (j : Int) < num_addr cfg → cfg.clients[j]? = some cj →
        stale now cj = false) ∧
      select_slot req cfg now = some (some m)) := by
  obtain ⟨⟨i', e'⟩, hs⟩ := scan_total req.packet.chaddr cfg.clients now
    (num_addr cfg).toNat 0 (-1) (by omega)
  obtain ⟨_, h2, _, h4⟩ := scan_exit _ _ _ _ _ _ _ _ hs
  have hi' : i' = (num_addr cfg).toNat := by
    by_contra hne
    obtain ⟨c, hc, hu⟩ := h4 (by omega)
    have := hnone i' c (by omega) hc
    rw [this] at hu
    cases hu
  have hge : (i' : Int) ≥ num_addr cfg := by omega
  rcases scan_expired _ _ _ _ _ _ _ _ hs with ⟨he', hno⟩ | ⟨m, hm, _, hm2, ⟨c, hc, hst⟩, hm4⟩
  · left
    refine ⟨?_, fun j c hj hc => hno j c (Nat.zero_le _) (by omega) hc⟩
    simp only [select_slot, hs]
    rw [if_pos hge, if_neg (by omega)]
  · right
    refine ⟨m, c, by omega, hc, hst, fun j cj h1 h2 h3 => hm4 j cj h1 (by omega) h3, ?_⟩
    simp only [select_slot, hs]
    rw [if_pos hge, if_pos (by omega)]
    simp [hm]

theorem usable_iff (hw : Chaddr) (c : Client) :
    usable hw c = true ↔
      (equal_chaddr hw c.chaddr = true ∨ equal_chaddr c.chaddr empty = true) := by
  simp [usable]

theorem usable_false_iff (hw : Chaddr) (c : Client) :
    usable hw c = false ↔
      (equal_chaddr hw c.chaddr = false ∧ equal_chaddr c.chaddr empty = false) := by
  simp [usable]

theorem equal_chaddr_self (a : Chaddr) : equal_chaddr a a = true := by
  simp [equal_chaddr]


theorem stale_iff (now : Nat) (c : Client) :
    stale now c = true ↔ (equal_chaddr c.chaddr empty = false ∧ c.expiry < now) := by
  simp [stale]

theorem assign_address_of_select (req : Request) (cfg : Config) (now i : Nat)
    (hsel : select_slot req cfg now = some (some i)) :
    assign_address req cfg now = some (htonl (add32 cfg.range_start i),
      { cfg with clients := cfg.clients.set i ⟨add32 now 42, req.packet.chaddr⟩ }) := by
  obtain ⟨_, ⟨c, hc⟩, _⟩ := select_slot_inv req cfg now i hsel
  have hi : i < cfg.clients.length := by
    by_contra hge
    rw [List.getElem?_eq_none (by omega)] at hc
    cases hc
  simp [assign_address, hsel, reserve, hi]

/-! ## Claims about `assign_address` -/

/-- C2: in a lease table of `NUM_CLIENTS` slots whose pool has at most 32
addresses, if some slot of the pool stores the requesting hardware address
(first two words equal) or is unused, `assign_address` selects the slot of
lowest index with that property, whatever the expiry of the slots before it. -/
theorem assign_address_selects_first_usable (req : Request) (cfg : Config) (now : Nat)
    (hlen : cfg.clients.length = NUM_CLIENTS) (hn2 : num_addr cfg ≤ 32)
    (h : ∃ (j : Nat) (c : Client), (j : Int) < num_addr cfg ∧ cfg.clients[j]? = some c ∧
      (equal_chaddr req.packet.chaddr c.chaddr = true ∨ equal_chaddr c.chaddr empty = true)) :
    ∃ (i : Nat) (c : Client), (i : Int) < num_addr cfg ∧ cfg.clients[i]? = some c ∧
      (equal_chaddr req.packet.chaddr c.chaddr = true ∨ equal_chaddr c.chaddr empty = true) ∧
      (∀ (j : Nat) (cj : Client), j < i → cfg.clients[j]? = some cj →
        equal_chaddr req.packet.chaddr cj.chaddr = false ∧
          equal_chaddr cj.chaddr empty = false) ∧
      select_slot req cfg now = some (some i) ∧
      assign_address req cfg now = some (htonl (add32 cfg.range_start i),
        { cfg with clients := cfg.clients.set i ⟨add32 now 42, req.packet.chaddr⟩ }) := by
  classical
  have hex : ∃ i : Nat, ∃ c : Client, cfg.clients[i]? = some c ∧ usable req.packet.chaddr c = true := by
    obtain ⟨j, c, _, hc, hu⟩ := h
    exact ⟨j, c, hc, (usable_iff _ _).2 hu⟩
  obtain ⟨c, hc, hu⟩ := Nat.find_spec hex
  obtain ⟨j, cj, hj, hcj, huj⟩ := h
  have hij : Nat.find hex ≤ j := Nat.find_min' hex ⟨cj, hcj, (usable_iff _ _).2 huj⟩
  have hlow : ∀ (k : Nat) (ck : Client), k < Nat.find hex → cfg.clients[k]? = some ck →
      usable req.packet.chaddr ck = false := by
    intro k ck hk hck
    have := Nat.find_min hex hk
    by_contra hne
    exact this ⟨ck, hck, by simpa using hne⟩
  have hpre : ∀ k, k < Nat.find hex →
      ∃ ck, cfg.clients[k]? = some ck ∧ usable req.packet.chaddr ck = false := by
    intro k hk
    have hkl : k < cfg.clients.length := by
      rw [hlen]
      simp only [NUM_CLIENTS]
      omega
    exact ⟨cfg.clients[k], List.getElem?_eq_getElem hkl,
      hlow k _ hk (List.getElem?_eq_getElem hkl)⟩
  have hsel := select_slot_first req cfg now (Nat.find hex) c (by omega) hc hu hpre
  exact ⟨Nat.find hex, c, by omega, hc, (usable_iff _ _).1 hu,
    fun k ck hk hck => (usable_false_iff _ _).1 (hlow k ck hk hck), hsel,
    assign_address_of_select req cfg now _ hsel⟩

/-- C3: in a lease table of `NUM_CLIENTS` slots whose pool has at most 32
addresses, none of them unused and none storing the requesting hardware
address, if some slot of the pool has `expiry < now` then `assign_address`
selects the slot of highest index among those with `expiry < now`. -/
theorem assign_address_reuses_last_expired (req : Request) (cfg : Config) (now : Nat)
    (hlen : cfg.clients.length = NUM_CLIENTS) (hn2 : num_addr cfg ≤ 32)
    (hnone : ∀ (j : Nat) (c : Client), (j : Int) < num_addr cfg → cfg.clients[j]? = some c →
      equal_chaddr req.packet.chaddr c.chaddr = false ∧ equal_chaddr c.chaddr empty = false)
    (hexp : ∃ (j : Nat) (c : Client), (j : Int) < num_addr cfg ∧ cfg.clients[j]? = some c ∧
      c.expiry < now) :
    ∃ (m : Nat) (c : Client), (m : Int) < num_addr cfg ∧ cfg.clients[m]? = some c ∧
      c.expiry < now ∧
      (∀ (j : Nat) (cj : Client), (j : Int) < num_addr cfg → cfg.clients[j]? = some cj →
        cj.expiry < now → j ≤ m) ∧
      select_slot req cfg now = some (some m) ∧
      assign_address req cfg now = some (htonl (add32 cfg.range_start m),
        { cfg with clients := cfg.clients.set m ⟨add32 now 42, req.packet.chaddr⟩ }) := by
  have hfit : (num_addr cfg).toNat ≤ cfg.clients.length := by
    rw [hlen]
    simp only [NUM_CLIENTS]
    omega
  have hnone' : ∀ (j : Nat) (c : Client), (j : Int) < num_addr cfg →
      cfg.clients[j]? = some c → usable req.packet.chaddr c = false :=
    fun j c hj hc => (usable_false_iff _ _).2 (hnone j c hj hc)
  rcases select_slot_no_usable req cfg now hfit hnone' with ⟨_, hno⟩ | ⟨m, c, hm, hc, hst, hmax, hsel⟩
  · obtain ⟨j, c, hj, hc, he⟩ := hexp
    have h1 := hno j c hj hc
    have h2 : stale now c = true := (stale_iff _ _).2 ⟨(hnone j c hj hc).2, he⟩
    rw [h1] at h2
    cases h2
  · refine ⟨m, c, hm, hc, ((stale_iff _ _).1 hst).2, ?_, hsel,
      assign_address_of_select req cfg now _ hsel⟩
    intro j cj hj hcj he
    by_contra hlt
    have h1 := hmax j cj (by omega) hj hcj
    have h2 : stale now cj = true := (stale_iff _ _).2 ⟨(hnone j cj hj hcj).2, he⟩
    rw [h1] at h2
    cases h2

/-- C5: in a lease table of `NUM_CLIENTS` slots whose pool has at most 32
addresses, none of them unused, none storing the requesting hardware address
and all with `expiry >= now`, `assign_address` selects no slot, returns 0 and
leaves the configuration, lease table included, as it was. -/
theorem assign_address_exhausted (req : Request) (cfg : Config) (now : Nat)
    (hlen : cfg.clients.length = NUM_CLIENTS) (hn2 : num_addr cfg ≤ 32)
    (hnone : ∀ (j : Nat) (c : Client), (j : Int) < num_addr cfg → cfg.clients[j]? = some c →
      equal_chaddr req.packet.chaddr c.chaddr = false ∧ equal_chaddr c.chaddr empty = false)
    (hfresh : ∀ (j : Nat) (c : Client), (j : Int) < num_addr cfg → cfg.clients[j]? = some c →
      now ≤ c.expiry) :
    select_slot req cfg now = some none ∧ assign_address req cfg now = some (0, cfg) := by
  have hfit : (num_addr cfg).toNat ≤ cfg.clients.length := by
    rw [hlen]
    simp only [NUM_CLIENTS]
    omega
  have hnone' : ∀ (j : Nat) (c : Client), (j : Int) < num_addr cfg →
      cfg.clients[j]? = some c → usable req.packet.chaddr c = false :=
    fun j c hj hc => (usable_false_iff _ _).2 (hnone j c hj hc)
  rcases select_slot_no_usable req cfg now hfit hnone' with ⟨hsel, _⟩ | ⟨m, c, hm, hc, hst, _, _⟩
  · exact ⟨hsel, by simp [assign_address, hsel]⟩
  · have := hfresh m c hm hc
    have := ((stale_iff _ _).1 hst).2
    omega

/-- C6: when `assign_address` selects slot `i`, it returns
`htonl(range_start + i)` (32-bit sum), and in the resulting configuration slot
`i` holds the hardware address of the request and the expiry `now + 42`
(32-bit sum) while every other slot and every other field of the
configuration is unchanged. -/
theorem assign_address_effect (req : Request) (cfg : Config) (now i : Nat)
    (hsel : select_slot req cfg now = some (some i)) :
    ∃ cfg1, assign_address req cfg now = some (htonl ((cfg.range_start + i) % 2 ^ 32), cfg1) ∧
      cfg1.clients[i]? = some ⟨(now + 42) % 2 ^ 32, req.packet.chaddr⟩ ∧
      (∀ j, j ≠ i → cfg1.clients[j]? = cfg.clients[j]?) ∧
      cfg1.clients.length = cfg.clients.length ∧
      cfg1.server_ip = cfg.server_ip ∧ cfg1.lease = cfg.lease ∧
      cfg1.range_start = cfg.range_start ∧ cfg1.range_end = cfg.range_end := by
  obtain ⟨_, ⟨c, hc⟩, _⟩ := select_slot_inv req cfg now i hsel
  have hi : i < cfg.clients.length := by
    by_contra hge
    rw [List.getElem?_eq_none (by omega)] at hc
    cases hc
  refine ⟨_, assign_address_of_select req cfg now i hsel, ?_, ?_, ?_, rfl, rfl, rfl, rfl⟩
  · simp [hi, add32]
  · intro j hj
    simp [List.getElem?_set, Ne.symm hj]
  · simp


/-! ## Repeated DISCOVERs -/

theorem reserved_at_select (req : Request) (cfg : Config) (i now : Nat)
    (h : reserved_at req cfg i) : select_slot req cfg now = some (some i) := by
  obtain ⟨hi, ⟨c, hc, hu⟩, hpre⟩ := h
  exact select_slot_first req cfg now i c hi hc hu hpre

theorem reserved_at_after (req : Request) (cfg cfg1 : Config) (i e : Nat)
    (hsel : (i : Int) < num_addr cfg ∧ (∃ c, cfg.clients[i]? = some c) ∧
      ∀ j, j < i → ∃ cj, cfg.clients[j]? = some cj ∧ usable req.packet.chaddr cj = false)
    (hna : num_addr cfg1 = num_addr cfg)
    (hcl : cfg1.clients = cfg.clients.set i ⟨e, req.packet.chaddr⟩) :
    reserved_at req cfg1 i := by
  obtain ⟨hi, ⟨c, hc⟩, hpre⟩ := hsel
  have hex : i < cfg.clients.length := by
    by_contra hge
    rw [List.getElem?_eq_none (by omega)] at hc
    cases hc
  refine ⟨by rw [hna]; exact hi, ⟨⟨e, req.packet.chaddr⟩, ?_, ?_⟩, ?_⟩
  · rw [hcl]
    simp [hex]
  · simp [usable, equal_chaddr_self]
  · intro j hj
    obtain ⟨cj, h1, h2⟩ := hpre j hj
    refine ⟨cj, ?_, h2⟩
    rw [hcl]
    simp only [List.getElem?_set]
    rw [if_neg (by omega)]
    exact h1

theorem rediscover_same (req : Request) (i : Nat) :
    ∀ (times : List Nat) (cfg : Config), reserved_at req cfg i →
      ∃ cfgN, rediscover req cfg times
        = some (List.replicate times.length (htonl (add32 cfg.range_start i)), cfgN) := by
  intro times
  induction times with
  | nil => intro cfg _; exact ⟨cfg, rfl⟩
  | cons now rest ih =>
    intro cfg hres
    have hsel := reserved_at_select req cfg i now hres
    have hnext := ih
      (Config.mk cfg.server_ip cfg.lease cfg.range_start cfg.range_end
        (cfg.clients.set i ⟨add32 now 42, req.packet.chaddr⟩))
      (reserved_at_after req cfg _ i (add32 now 42) (select_slot_inv req cfg now i hsel) rfl rfl)
    obtain ⟨cfgN, hN⟩ := hnext
    refine ⟨cfgN, ?_⟩
    simp only [rediscover, assign_address_of_select req cfg now i hsel, hN, List.length_cons,
      List.replicate_succ]

/-- C4: if `assign_address` for a hardware address returns a non-zero
address `x` (it succeeds), then on the resulting configuration
`assign_address` for the same hardware address returns `x` again at every
time `now2` (so also at every `now2 >= now1`), and so does every DISCOVER of
an arbitrarily long run of repetitions at arbitrary times; nothing is assumed
about the other slots. -/
theorem discover_idempotent (req : Request) (cfg : Config) (now1 x : Nat) (cfg1 : Config)
    (h : assign_address req cfg now1 = some (x, cfg1)) (hx : x ≠ 0) :
    (∀ now2, ∃ cfg2, assign_address req cfg1 now2 = some (x, cfg2)) ∧
    (∀ times : List Nat, ∃ cfgN,
      rediscover req cfg1 times = some (List.replicate times.length x, cfgN)) := by
  cases hs : select_slot req cfg now1 with
  | none => simp [assign_address, hs] at h
  | some r =>
    cases r with
    | none =>
      simp only [assign_address, hs, Option.some.injEq, Prod.mk.injEq] at h
      exact absurd h.1.symm hx
    | some i =>
      rw [assign_address_of_select req cfg now1 i hs] at h
      simp only [Option.some.injEq, Prod.mk.injEq] at h
      obtain ⟨hx1, hcfg⟩ := h
      have hres : reserved_at req cfg1 i :=
        reserved_at_after req cfg cfg1 i (add32 now1 42) (select_slot_inv req cfg now1 i hs)
          (by rw [← hcfg]; rfl) (by rw [← hcfg])
      have hrs : cfg1.range_start = cfg.range_start := by rw [← hcfg]
      constructor
      · intro now2
        have h2 := assign_address_of_select req cfg1 now2 i
          (reserved_at_select req cfg1 i now2 hres)
        rw [hrs, hx1] at h2
        exact ⟨_, h2⟩
      · intro times
        obtain ⟨cfgN, hN⟩ := rediscover_same req i times cfg1 hres
        exact ⟨cfgN, by rw [hN, hrs, hx1]⟩


/-! ## Machine arithmetic -/

theorem htonl_lt (x : Nat) : htonl x < 4294967296 := by
  unfold htonl
  omega

theorem toInt32_sub32 (h rs : Nat) (hle : rs ≤ h) (hlt : h < 4294967296)
    (hpos : 0 ≤ toInt32 (sub32 h rs)) : (toInt32 (sub32 h rs)).toNat = h - rs := by
  unfold toInt32 sub32 at *
  split at hpos <;> split <;> omega

theorem toInt32_sub32_small (h rs : Nat) (hle : rs ≤ h) (hlt : h < 4294967296)
    (hsmall : h - rs < 2147483648) : toInt32 (sub32 h rs) = ((h - rs : Nat) : Int) := by
  unfold toInt32 sub32
  split <;> omega

theorem confirmed_expiry_eq (t lease : Nat) (ht : t < 4294967296) (hl : lease < 4294967296) :
    confirmed_expiry t lease = min (t + lease) 4294967295 := by
  unfold confirmed_expiry sub32 add32 UINT32_MAX
  rw [Nat.min_def]
  split <;> split <;> omega

/-! ## `matching_client` -/

theorem matching_client_nonneg (ip : Nat) (hw : Chaddr) (cfg : Config) (k : Int)
    (h : matching_client ip hw cfg = some k) (hk : 0 ≤ k) :
    cfg.range_start ≤ htonl ip ∧ htonl ip ≤ cfg.range_end ∧
      k.toNat = htonl ip - cfg.range_start ∧
      ∃ c, cfg.clients[k.toNat]? = some c ∧ equal_chaddr hw c.chaddr = true := by
  unfold matching_client client_index_from_ip at h
  by_cases hr : htonl ip ≥ cfg.range_start ∧ htonl ip ≤ cfg.range_end
  · simp only [hr, and_self, if_true] at h
    by_cases hi : toInt32 (sub32 (htonl ip) cfg.range_start) ≥ 0
    · simp only [hi, if_true] at h
      cases hc : cfg.clients[(toInt32 (sub32 (htonl ip) cfg.range_start)).toNat]? with
      | none => simp [hc] at h
      | some c =>
        simp only [hc] at h
        by_cases he : equal_chaddr hw c.chaddr = true
        · simp only [he, if_true, Option.some.injEq] at h
          subst h
          exact ⟨hr.1, hr.2, toInt32_sub32 _ _ hr.1 (htonl_lt ip) hi, c, hc, he⟩
        · rw [if_neg he] at h
          simp only [Option.some.injEq] at h
          omega
    · rw [if_neg hi] at h
      simp only [Option.some.injEq] at h
      omega
  · simp only [hr] at h
    simp at h
    omega

theorem matching_client_out_of_range (ip : Nat) (hw : Chaddr) (cfg : Config)
    (h : ¬ (cfg.range_start ≤ htonl ip ∧ htonl ip ≤ cfg.range_end)) :
    matching_client ip hw cfg = some (-1) := by
  unfold matching_client client_index_from_ip
  have h' : ¬ (htonl ip ≥ cfg.range_start ∧ htonl ip ≤ cfg.range_end) := h
  simp [h']

theorem matching_client_slot (ip : Nat) (hw : Chaddr) (cfg : Config) (c : Client)
    (h1 : cfg.range_start ≤ htonl ip) (h2 : htonl ip ≤ cfg.range_end)
    (hc : cfg.clients[htonl ip - cfg.range_start]? = some c) :
    matching_client ip hw cfg = some (-1) ∨
      (equal_chaddr hw c.chaddr = true ∧
        matching_client ip hw cfg = some ((htonl ip - cfg.range_start : Nat) : Int)) := by
  unfold matching_client client_index_from_ip
  have hr : htonl ip ≥ cfg.range_start ∧ htonl ip ≤ cfg.range_end := ⟨h1, h2⟩
  simp only [hr, and_self, if_true]
  by_cases hi : toInt32 (sub32 (htonl ip) cfg.range_start) ≥ 0
  · have hn := toInt32_sub32 _ _ h1 (htonl_lt ip) hi
    simp only [hi, if_true, hn, hc]
    by_cases he : equal_chaddr hw c.chaddr = true
    · right
      refine ⟨he, ?_⟩
      simp only [he, if_true, Option.some.injEq]
      omega
    · left
      simp [he]
  · left
    simp [hi]

theorem matching_client_mismatch (ip : Nat) (hw : Chaddr) (cfg : Config) (c : Client)
    (h1 : cfg.range_start ≤ htonl ip) (h2 : htonl ip ≤ cfg.range_end)
    (hc : cfg.clients[htonl ip - cfg.range_start]? = some c)
    (hne : equal_chaddr hw c.chaddr = false) :
    matching_client ip hw cfg = some (-1) := by
  rcases matching_client_slot ip hw cfg c h1 h2 hc with h | ⟨he, _⟩
  · exact h
  · rw [hne] at he
    cases he


/-! ## `finalize_reply` and the tail of `send_reply` -/

theorem finalize_reply_reply_msg (req : Request) (cfg : Config) :
    (finalize_reply req cfg).1.reply_msg = req.reply_msg := by
  unfold finalize_reply
  simp only []

theorem finalize_reply_yiaddr (req : Request) (cfg : Config) :
    (finalize_reply req cfg).1.packet.yiaddr = req.packet.yiaddr := by
  unfold finalize_reply
  simp only []

theorem transmit_no_update (req : Request) (cfg : Config) (k : Int) (now : Nat) (sent : Int)
    (h : ¬ (sent > 0 ∧ k ≥ 0)) :
    ∃ o, transmit req cfg k now sent = some o ∧ o.ret = false ∧
      o.req.reply_msg = req.reply_msg ∧ o.req.packet.yiaddr = req.packet.yiaddr ∧
      o.cfg = cfg := by
  unfold transmit
  simp only []
  rw [if_neg h]
  exact ⟨_, rfl, rfl, finalize_reply_reply_msg req cfg, finalize_reply_yiaddr req cfg, rfl⟩

theorem transmit_update (req : Request) (cfg : Config) (i now : Nat) (sent : Int) (c : Client)
    (hs : 0 < sent) (hc : cfg.clients[i]? = some c) :
    ∃ o, transmit req cfg (i : Int) now sent = some o ∧ o.ret = true ∧
      o.req.reply_msg = req.reply_msg ∧ o.req.packet.yiaddr = req.packet.yiaddr ∧
      o.cfg =
        { cfg with clients := cfg.clients.set i ⟨confirmed_expiry now cfg.lease, c.chaddr⟩ } := by
  unfold transmit
  simp only []
  rw [if_pos ⟨hs, by omega⟩]
  simp only [Int.toNat_ofNat, hc]
  exact ⟨_, rfl, rfl, finalize_reply_reply_msg req cfg, finalize_reply_yiaddr req cfg, rfl⟩


/-! ## `send_reply` for a REQUEST -/

theorem send_reply_request_refused (req : Request) (cfg : Config) (now : Nat) (sent : Int)
    (hmsg : req.request_msg = DMSG_REQUEST)
    (h : ¬ ((req.server_ip = 0 ∨ req.server_ip = cfg.server_ip) ∧ candidate_ip req ≠ 0)) :
    send_reply req cfg now sent = transmit (nak_request req) cfg (-1) now sent := by
  have h1 : ¬ (req.request_msg = DMSG_DISCOVER) := by rw [hmsg]; decide
  unfold send_reply
  simp only []
  rw [if_neg h1, if_pos hmsg]
  by_cases hs : req.server_ip = 0 ∨ req.server_ip = cfg.server_ip
  · rw [if_pos hs]
    have hc : ¬ (candidate_ip req ≠ 0) := fun hne => h ⟨hs, hne⟩
    have hc' : ¬ (candidate_ip { req with reply_msg := DMSG_NAK, packet := { req.packet with yiaddr := 0 } } ≠ 0) := hc
    rw [if_neg hc']
    rfl
  · rw [if_neg hs]
    rfl

theorem send_reply_request_checked (req : Request) (cfg : Config) (now : Nat) (sent : Int)
    (k : Int) (hmsg : req.request_msg = DMSG_REQUEST)
    (hs : req.server_ip = 0 ∨ req.server_ip = cfg.server_ip) (hip : candidate_ip req ≠ 0)
    (hm : matching_client (candidate_ip req) req.packet.chaddr cfg = some k) :
    send_reply req cfg now sent =
      if k ≥ 0 then transmit (ack_request req (candidate_ip req)) cfg k now sent
      else transmit (nak_request req) cfg k now sent := by
  have h1 : ¬ (req.request_msg = DMSG_DISCOVER) := by rw [hmsg]; decide
  have hip' : candidate_ip { req with reply_msg := DMSG_NAK, packet := { req.packet with yiaddr := 0 } } ≠ 0 := hip
  have hm' : matching_client (candidate_ip { req with reply_msg := DMSG_NAK, packet := { req.packet with yiaddr := 0 } }) req.packet.chaddr cfg = some k := hm
  unfold send_reply
  simp only []
  rw [if_neg h1, if_pos hmsg, if_pos hs, if_pos hip', hm']
  rfl


theorem send_reply_request_nak (req : Request) (cfg : Config) (now : Nat) (sent : Int)
    (hmsg : req.request_msg = DMSG_REQUEST)
    (hm : matching_client (candidate_ip req) req.packet.chaddr cfg = some (-1)) :
    ∃ o, send_reply req cfg now sent = some o ∧ o.ret = false ∧
      o.req.reply_msg = DMSG_NAK ∧ o.req.packet.yiaddr = 0 ∧ o.cfg = cfg := by
  by_cases hok : (req.server_ip = 0 ∨ req.server_ip = cfg.server_ip) ∧ candidate_ip req ≠ 0
  · rw [send_reply_request_checked req cfg now sent _ hmsg hok.1 hok.2 hm,
      if_neg (by decide)]
    exact transmit_no_update (nak_request req) cfg (-1) now sent (by omega)
  · rw [send_reply_request_refused req cfg now sent hmsg hok]
    exact transmit_no_update (nak_request req) cfg (-1) now sent (by omega)

/-- C7: when a REQUEST is acknowledged (server identifier absent or ours,
candidate IP non-zero, slot `i` matching) and the reply is sent (`sendto`
returns a positive size) at relative time `t`, `send_reply` returns true and
the only change of the configuration is that slot `i` gets the expiry
`min (t + lease) (2^32 - 1)`, the minimum taken over the naturals, for all
32-bit `t` and `lease`. -/
theorem request_confirm_saturates (req : Request) (cfg : Config) (t : Nat) (sent : Int)
    (i : Nat) (ht : t < 2 ^ 32) (hl : cfg.lease < 2 ^ 32)
    (hmsg : req.request_msg = DMSG_REQUEST)
    (hsrv : req.server_ip = 0 ∨ req.server_ip = cfg.server_ip)
    (hip : candidate_ip req ≠ 0)
    (hmatch : matching_client (candidate_ip req) req.packet.chaddr cfg = some (i : Int))
    (hsent : 0 < sent) :
    ∃ c o, cfg.clients[i]? = some c ∧ send_reply req cfg t sent = some o ∧ o.ret = true ∧
      o.req.reply_msg = DMSG_ACK ∧
      o.cfg = { cfg with clients := cfg.clients.set i ⟨min (t + cfg.lease) (2 ^ 32 - 1), c.chaddr⟩ } := by
  obtain ⟨_, _, _, c, hc, _⟩ :=
    matching_client_nonneg _ _ _ _ hmatch (Int.ofNat_nonneg i)
  simp only [Int.toNat_ofNat] at hc
  obtain ⟨o, ho, hret, hmsg', _, hcfg⟩ :=
    transmit_update (ack_request req (candidate_ip req)) cfg i t sent c hsent hc
  refine ⟨c, o, hc, ?_, hret, hmsg', ?_⟩
  · rw [send_reply_request_checked req cfg t sent _ hmsg hsrv hip hmatch,
      if_pos (Int.ofNat_nonneg i)]
    exact ho
  · rw [hcfg, confirmed_expiry_eq t cfg.lease ht hl]
    rfl

/-- C8: a REQUEST whose candidate IP lies outside `[range_start, range_end]`
(host order), or lies inside and maps to a slot whose stored hardware address
differs from the requester's, is answered with NAK and `yiaddr = 0`;
`send_reply` returns false and the configuration, with every slot of the
lease table, is unchanged. -/
theorem request_not_owner_nak (req : Request) (cfg : Config) (now : Nat) (sent : Int)
    (hmsg : req.request_msg = DMSG_REQUEST)
    (h : ¬ (cfg.range_start ≤ htonl (candidate_ip req) ∧
          htonl (candidate_ip req) ≤ cfg.range_end) ∨
      (cfg.range_start ≤ htonl (candidate_ip req) ∧
        htonl (candidate_ip req) ≤ cfg.range_end ∧
        ∃ c, cfg.clients[htonl (candidate_ip req) - cfg.range_start]? = some c ∧
          equal_chaddr req.packet.chaddr c.chaddr = false)) :
    ∃ o, send_reply req cfg now sent = some o ∧ o.ret = false ∧
      o.req.reply_msg = DMSG_NAK ∧ o.req.packet.yiaddr = 0 ∧ o.cfg = cfg := by
  have hm : matching_client (candidate_ip req) req.packet.chaddr cfg = some (-1) := by
    rcases h with h | ⟨h1, h2, c, hc, hne⟩
    · exact matching_client_out_of_range _ _ _ h
    · exact matching_client_mismatch _ _ _ c h1 h2 hc hne
  exact send_reply_request_nak req cfg now sent hmsg hm

/-- C9: for a REQUEST handled on a lease table of `NUM_CLIENTS` slots whose
range spans at most `NUM_CLIENTS` addresses, the reply is ACK with `yiaddr`
the candidate IP exactly when (a) the server identifier is absent or ours,
(b) the candidate IP is non-zero and (c) it lies in the range and its slot
stores the requester's hardware address; otherwise the reply is NAK with
`yiaddr = 0`, `send_reply` returns false and the configuration is unchanged. -/
theorem request_decision (req : Request) (cfg : Config) (now : Nat) (sent : Int)
    (hmsg : req.request_msg = DMSG_REQUEST)
    (hlen : cfg.clients.length = NUM_CLIENTS)
    (hpool : cfg.range_end - cfg.range_start < NUM_CLIENTS) :
    ∃ o, send_reply req cfg now sent = some o ∧
      ((o.req.reply_msg = DMSG_ACK ∧ o.req.packet.yiaddr = candidate_ip req)
        ↔ owned_request req cfg) ∧
      (¬ owned_request req cfg →
        o.req.reply_msg = DMSG_NAK ∧ o.req.packet.yiaddr = 0 ∧ o.ret = false ∧ o.cfg = cfg) := by
  by_cases hown : owned_request req cfg
  · obtain ⟨hs, hip, h1, h2, c, hc, he⟩ := hown
    have hm : matching_client (candidate_ip req) req.packet.chaddr cfg
        = some ((htonl (candidate_ip req) - cfg.range_start : Nat) : Int) := by
      rcases matching_client_slot _ req.packet.chaddr cfg c h1 h2 hc with hn | ⟨_, hm⟩
      · unfold matching_client client_index_from_ip at hn
        have hr : htonl (candidate_ip req) ≥ cfg.range_start ∧
            htonl (candidate_ip req) ≤ cfg.range_end := ⟨h1, h2⟩
        have hsm := toInt32_sub32_small (htonl (candidate_ip req)) cfg.range_start h1
          (htonl_lt _) (by simp only [NUM_CLIENTS] at hpool; omega)
        simp only [hr, and_self, if_true, hsm, Int.toNat_ofNat, hc, he] at hn
        rw [if_pos (Int.ofNat_nonneg _)] at hn
        simp only [Option.some.injEq] at hn
        omega
      · exact hm
    rw [send_reply_request_checked req cfg now sent _ hmsg hs hip hm,
      if_pos (Int.ofNat_nonneg _)]
    by_cases hsent : 0 < sent
    · obtain ⟨o, ho, _, hr, hy, _⟩ := transmit_update (ack_request req (candidate_ip req)) cfg
        (htonl (candidate_ip req) - cfg.range_start) now sent c hsent hc
      exact ⟨o, ho, ⟨fun _ => ⟨hs, hip, h1, h2, c, hc, he⟩, fun _ => ⟨hr, hy⟩⟩,
        fun hno => absurd ⟨hs, hip, h1, h2, c, hc, he⟩ hno⟩
    · obtain ⟨o, ho, _, hr, hy, _⟩ := transmit_no_update (ack_request req (candidate_ip req)) cfg
        ((htonl (candidate_ip req) - cfg.range_start : Nat) : Int) now sent (by omega)
      exact ⟨o, ho, ⟨fun _ => ⟨hs, hip, h1, h2, c, hc, he⟩, fun _ => ⟨hr, hy⟩⟩,
        fun hno => absurd ⟨hs, hip, h1, h2, c, hc, he⟩ hno⟩
  · have hnak : ∃ o, send_reply req cfg now sent = some o ∧ o.ret = false ∧
        o.req.reply_msg = DMSG_NAK ∧ o.req.packet.yiaddr = 0 ∧ o.cfg = cfg := by
      by_cases hok : (req.server_ip = 0 ∨ req.server_ip = cfg.server_ip) ∧ candidate_ip req ≠ 0
      · by_cases hr : cfg.range_start ≤ htonl (candidate_ip req) ∧
            htonl (candidate_ip req) ≤ cfg.range_end
        · have hidx : htonl (candidate_ip req) - cfg.range_start < cfg.clients.length := by
            rw [hlen]
            omega
          refine send_reply_request_nak req cfg now sent hmsg
            (matching_client_mismatch _ _ _ _ hr.1 hr.2 (List.getElem?_eq_getElem hidx) ?_)
          by_contra hne
          exact hown ⟨hok.1, hok.2, hr.1, hr.2, _, List.getElem?_eq_getElem hidx,
            by simpa using hne⟩
        · exact send_reply_request_nak req cfg now sent hmsg
            (matching_client_out_of_range _ _ _ hr)
      · rw [send_reply_request_refused req cfg now sent hmsg hok]
        exact transmit_no_update (nak_request req) cfg (-1) now sent (by omega)
    obtain ⟨o, ho, hret, hr, hy, hcfg⟩ := hnak
    refine ⟨o, ho, ⟨fun hack => ?_, fun h => absurd h hown⟩, fun _ => ⟨hr, hy, hret, hcfg⟩⟩
    rw [hr] at hack
    exact absurd hack.1 (by decide)

/-! ## `send_reply` for a DISCOVER -/

/-- C10: for a DISCOVER, whatever options the request carries, the reply
carries in `yiaddr` exactly the value `assign_address` returned and the
configuration is the one `assign_address` produced; the reply type is OFFER
when that value is non-zero (success) and NAK, with `yiaddr = 0`, when it is
zero (failure). -/
theorem discover_dispatch (req : Request) (cfg : Config) (now : Nat) (sent : Int)
    (ip : Nat) (cfg1 : Config)
    (hmsg : req.request_msg = DMSG_DISCOVER)
    (h : assign_address req cfg now = some (ip, cfg1)) :
    ∃ o, send_reply req cfg now sent = some o ∧ o.cfg = cfg1 ∧ o.req.packet.yiaddr = ip ∧
      (ip ≠ 0 → o.req.reply_msg = DMSG_OFFER) ∧
      (ip = 0 → o.req.reply_msg = DMSG_NAK ∧ o.req.packet.yiaddr = 0) := by
  have h' : assign_address { req with reply_msg := DMSG_NAK, packet := { req.packet with yiaddr := 0 } } cfg now = some (ip, cfg1) := h
  unfold send_reply
  simp only []
  rw [if_pos hmsg, h']
  simp only []
  by_cases hz : ip = 0
  · obtain ⟨o, ho, _, hr, hy, hc⟩ := transmit_no_update
      { req with reply_msg := DMSG_NAK, packet := { req.packet with yiaddr := ip } }
      cfg1 (-1) now sent (by omega)
    refine ⟨o, ?_, hc, hy, fun hne => absurd hz hne, fun _ => ⟨hr, by rw [hy]; exact hz⟩⟩
    rw [← ho, if_neg (by simpa using hz)]
  · obtain ⟨o, ho, _, hr, hy, hc⟩ := transmit_no_update
      { req with reply_msg := DMSG_OFFER, packet := { req.packet with yiaddr := ip } }
      cfg1 (-1) now sent (by omega)
    refine ⟨o, ?_, hc, hy, fun _ => hr, fun h0 => absurd h0 hz⟩
    rw [← ho, if_pos hz]


/-! ## Instances on the sample data -/

theorem sample_pool_size (lease : Nat) (cs : List Client) :
    num_addr (sample_cfg lease cs) = 3 := by
  show toInt32 (add32 (sub32 0xC0A80004 0xC0A80002) 1) = 3
  decide

/-- Witness of C2: slot 0 is in use and expired, slot 1 is unused. -/
theorem assign_address_selects_first_usable_witness :
    ∃ (i : Nat) (c : Client),
      (i : Int) < num_addr (sample_cfg 600 [⟨5, mac_b⟩, ⟨0, empty⟩, ⟨2000, mac_c⟩]) ∧
      (sample_cfg 600 [⟨5, mac_b⟩, ⟨0, empty⟩, ⟨2000, mac_c⟩]).clients[i]? = some c ∧
      (equal_chaddr (discover_from mac_a).packet.chaddr c.chaddr = true ∨
        equal_chaddr c.chaddr empty = true) ∧
      (∀ (j : Nat) (cj : Client), j < i →
        (sample_cfg 600 [⟨5, mac_b⟩, ⟨0, empty⟩, ⟨2000, mac_c⟩]).clients[j]? = some cj →
        equal_chaddr (discover_from mac_a).packet.chaddr cj.chaddr = false ∧
          equal_chaddr cj.chaddr empty = false) ∧
      select_slot (discover_from mac_a)
        (sample_cfg 600 [⟨5, mac_b⟩, ⟨0, empty⟩, ⟨2000, mac_c⟩]) 1000 = some (some i) ∧
      assign_address (discover_from mac_a)
        (sample_cfg 600 [⟨5, mac_b⟩, ⟨0, empty⟩, ⟨2000, mac_c⟩]) 1000 =
        some (htonl (add32 (sample_cfg 600 [⟨5, mac_b⟩, ⟨0, empty⟩, ⟨2000, mac_c⟩]).range_start i),
          { sample_cfg 600 [⟨5, mac_b⟩, ⟨0, empty⟩, ⟨2000, mac_c⟩] with clients := (sample_cfg 600 [⟨5, mac_b⟩, ⟨0, empty⟩, ⟨2000, mac_c⟩]).clients.set i ⟨add32 1000 42, (discover_from mac_a).packet.chaddr⟩ }) :=
  assign_address_selects_first_usable (discover_from mac_a)
    (sample_cfg 600 [⟨5, mac_b⟩, ⟨0, empty⟩, ⟨2000, mac_c⟩]) 1000 (by decide) (by decide)
    ⟨1, ⟨0, empty⟩, by decide, by decide, Or.inr (by decide)⟩


/-- Witness of C3: all three slots of the pool are held by other clients, the
leases of slots 0 and 1 have run out. -/
theorem assign_address_reuses_last_expired_witness :
    ∃ (m : Nat) (c : Client),
      (m : Int) < num_addr (sample_cfg 600 [⟨5, mac_b⟩, ⟨7, mac_c⟩, ⟨2000, mac_d⟩]) ∧
      (sample_cfg 600 [⟨5, mac_b⟩, ⟨7, mac_c⟩, ⟨2000, mac_d⟩]).clients[m]? = some c ∧
      c.expiry < 1000 ∧
      (∀ (j : Nat) (cj : Client),
        (j : Int) < num_addr (sample_cfg 600 [⟨5, mac_b⟩, ⟨7, mac_c⟩, ⟨2000, mac_d⟩]) →
        (sample_cfg 600 [⟨5, mac_b⟩, ⟨7, mac_c⟩, ⟨2000, mac_d⟩]).clients[j]? = some cj →
        cj.expiry < 1000 → j ≤ m) ∧
      select_slot (discover_from mac_a)
        (sample_cfg 600 [⟨5, mac_b⟩, ⟨7, mac_c⟩, ⟨2000, mac_d⟩]) 1000 = some (some m) ∧
      assign_address (discover_from mac_a)
        (sample_cfg 600 [⟨5, mac_b⟩, ⟨7, mac_c⟩, ⟨2000, mac_d⟩]) 1000 =
        some (htonl (add32 (sample_cfg 600 [⟨5, mac_b⟩, ⟨7, mac_c⟩, ⟨2000, mac_d⟩]).range_start m),
          { sample_cfg 600 [⟨5, mac_b⟩, ⟨7, mac_c⟩, ⟨2000, mac_d⟩] with clients := (sample_cfg 600 [⟨5, mac_b⟩, ⟨7, mac_c⟩, ⟨2000, mac_d⟩]).clients.set m ⟨add32 1000 42, (discover_from mac_a).packet.chaddr⟩ }) :=
  assign_address_reuses_last_expired (discover_from mac_a)
    (sample_cfg 600 [⟨5, mac_b⟩, ⟨7, mac_c⟩, ⟨2000, mac_d⟩]) 1000 (by decide) (by decide)
    (by
      intro j c hj hc
      rw [sample_pool_size] at hj
      have hj3 : j < 3 := by omega
      interval_cases j <;> simp [sample_cfg, sample_table] at hc <;> subst hc <;> decide)
    ⟨0, ⟨5, mac_b⟩, by decide, by decide, by decide⟩

/-- Witness of C5: a pool of three addresses held by three distinct clients
with running leases refuses a fourth client. -/
theorem assign_address_exhausted_witness :
    select_slot (discover_from mac_a)
        (sample_cfg 600 [⟨2000, mac_b⟩, ⟨2000, mac_c⟩, ⟨2000, mac_d⟩]) 1000 = some none ∧
      assign_address (discover_from mac_a)
        (sample_cfg 600 [⟨2000, mac_b⟩, ⟨2000, mac_c⟩, ⟨2000, mac_d⟩]) 1000 =
        some (0, sample_cfg 600 [⟨2000, mac_b⟩, ⟨2000, mac_c⟩, ⟨2000, mac_d⟩]) :=
  assign_address_exhausted (discover_from mac_a)
    (sample_cfg 600 [⟨2000, mac_b⟩, ⟨2000, mac_c⟩, ⟨2000, mac_d⟩]) 1000 (by decide) (by decide)
    (by
      intro j c hj hc
      rw [sample_pool_size] at hj
      have hj3 : j < 3 := by omega
      interval_cases j <;> simp [sample_cfg, sample_table] at hc <;> subst hc <;> decide)
    (by
      intro j c hj hc
      rw [sample_pool_size] at hj
      have hj3 : j < 3 := by omega
      interval_cases j <;> simp [sample_cfg, sample_table] at hc <;> subst hc <;> decide)

/-- Witness of C6: slot 1 is selected for `AA:BB:CC:DD:EE:FF` at time 1000. -/
theorem assign_address_effect_witness :
    ∃ cfg1, assign_address (discover_from mac_a) (sample_cfg 600 [⟨5, mac_b⟩]) 1000 =
        some (htonl (((sample_cfg 600 [⟨5, mac_b⟩]).range_start + 1) % 2 ^ 32), cfg1) ∧
      cfg1.clients[1]? = some ⟨(1000 + 42) % 2 ^ 32, (discover_from mac_a).packet.chaddr⟩ ∧
      (∀ j, j ≠ 1 → cfg1.clients[j]? = (sample_cfg 600 [⟨5, mac_b⟩]).clients[j]?) ∧
      cfg1.clients.length = (sample_cfg 600 [⟨5, mac_b⟩]).clients.length ∧
      cfg1.server_ip = (sample_cfg 600 [⟨5, mac_b⟩]).server_ip ∧
      cfg1.lease = (sample_cfg 600 [⟨5, mac_b⟩]).lease ∧
      cfg1.range_start = (sample_cfg 600 [⟨5, mac_b⟩]).range_start ∧
      cfg1.range_end = (sample_cfg 600 [⟨5, mac_b⟩]).range_end :=
  assign_address_effect (discover_from mac_a) (sample_cfg 600 [⟨5, mac_b⟩]) 1000 1 (by decide)

/-- Witness of C4: the first DISCOVER of `AA:BB:CC:DD:EE:FF` on the empty
table is offered 192.168.0.2. -/
theorem discover_idempotent_witness :
    (∀ now2, ∃ cfg2, assign_address (discover_from mac_a) (sample_cfg 600 [⟨1042, mac_a⟩]) now2
      = some (0x0200A8C0, cfg2)) ∧
    (∀ times : List Nat, ∃ cfgN,
      rediscover (discover_from mac_a) (sample_cfg 600 [⟨1042, mac_a⟩]) times
        = some (List.replicate times.length 0x0200A8C0, cfgN)) :=
  discover_idempotent (discover_from mac_a) (sample_cfg 600 []) 1000 0x0200A8C0
    (sample_cfg 600 [⟨1042, mac_a⟩]) (by decide) (by decide)

/-- Witness of C7: the example of the spec, `t = 2^32 - 1 - 5` and lease 10. -/
theorem request_confirm_saturates_witness :
    ∃ c o, (sample_cfg 10 [⟨42, mac_a⟩]).clients[0]? = some c ∧
      send_reply (request_from mac_a 0x0200A8C0) (sample_cfg 10 [⟨42, mac_a⟩]) 4294967290 244
        = some o ∧ o.ret = true ∧ o.req.reply_msg = DMSG_ACK ∧
      o.cfg = { sample_cfg 10 [⟨42, mac_a⟩] with clients := (sample_cfg 10 [⟨42, mac_a⟩]).clients.set 0 ⟨min (4294967290 + (sample_cfg 10 [⟨42, mac_a⟩]).lease) (2 ^ 32 - 1), c.chaddr⟩ } :=
  request_confirm_saturates (request_from mac_a 0x0200A8C0) (sample_cfg 10 [⟨42, mac_a⟩])
    4294967290 244 0 (by decide) (by decide) (by decide) (by decide) (by decide) (by decide)
    (by decide)

/-- Witness of C8: 192.168.0.2 is held by `AA:BB:CC:DD:EE:FF` and requested
by `11:22:33:44:55:66`. -/
theorem request_not_owner_nak_witness :
    ∃ o, send_reply (request_from mac_b 0x0200A8C0) (sample_cfg 600 [⟨42, mac_a⟩]) 5 244
        = some o ∧ o.ret = false ∧ o.req.reply_msg = DMSG_NAK ∧ o.req.packet.yiaddr = 0 ∧
      o.cfg = sample_cfg 600 [⟨42, mac_a⟩] :=
  request_not_owner_nak (request_from mac_b 0x0200A8C0) (sample_cfg 600 [⟨42, mac_a⟩]) 5 244
    (by decide) (Or.inr ⟨by decide, by decide, ⟨42, mac_a⟩, by decide, by decide⟩)

/-- Witness of C9: a REQUEST of the holder of 192.168.0.2. -/
theorem request_decision_witness :
    ∃ o, send_reply (request_from mac_a 0x0200A8C0) (sample_cfg 600 [⟨42, mac_a⟩]) 5 244
        = some o ∧
      ((o.req.reply_msg = DMSG_ACK ∧
          o.req.packet.yiaddr = candidate_ip (request_from mac_a 0x0200A8C0))
        ↔ owned_request (request_from mac_a 0x0200A8C0) (sample_cfg 600 [⟨42, mac_a⟩])) ∧
      (¬ owned_request (request_from mac_a 0x0200A8C0) (sample_cfg 600 [⟨42, mac_a⟩]) →
        o.req.reply_msg = DMSG_NAK ∧ o.req.packet.yiaddr = 0 ∧ o.ret = false ∧
          o.cfg = sample_cfg 600 [⟨42, mac_a⟩]) :=
  request_decision (request_from mac_a 0x0200A8C0) (sample_cfg 600 [⟨42, mac_a⟩]) 5 244
    (by decide) (by decide) (by decide)

/-- Witness of C10: the first DISCOVER on the empty table. -/
theorem discover_dispatch_witness :
    ∃ o, send_reply (discover_from mac_a) (sample_cfg 600 []) 1000 244 = some o ∧
      o.cfg = sample_cfg 600 [⟨1042, mac_a⟩] ∧ o.req.packet.yiaddr = 0x0200A8C0 ∧
      (0x0200A8C0 ≠ 0 → o.req.reply_msg = DMSG_OFFER) ∧
      (0x0200A8C0 = 0 → o.req.reply_msg = DMSG_NAK ∧ o.req.packet.yiaddr = 0) :=
  discover_dispatch (discover_from mac_a) (sample_cfg 600 []) 1000 244 0x0200A8C0
    (sample_cfg 600 [⟨1042, mac_a⟩]) (by decide) (by decide)

/-! ## Byte order -/

theorem htonl_bytes (b0 b1 b2 b3 : Nat) (h0 : b0 < 256) (h1 : b1 < 256) (h2 : b2 < 256)
    (h3 : b3 < 256) :
    htonl (b0 + 256 * b1 + 65536 * b2 + 16777216 * b3)
      = b3 + 256 * b2 + 65536 * b1 + 16777216 * b0 := by
  unfold htonl
  omega

theorem htonl_htonl (x : Nat) (hx : x < 4294967296) : htonl (htonl x) = x := by
  have hd : x = x % 256 + 256 * (x / 256 % 256) + 65536 * (x / 65536 % 256)
      + 16777216 * (x / 16777216 % 256) := by omega
  have hb := htonl_bytes (x % 256) (x / 256 % 256) (x / 65536 % 256) (x / 16777216 % 256)
    (by omega) (by omega) (by omega) (by omega)
  rw [← hd] at hb
  rw [hb]
  have hb2 := htonl_bytes (x / 16777216 % 256) (x / 65536 % 256) (x / 256 % 256) (x % 256)
    (by omega) (by omega) (by omega) (by omega)
  rw [hb2]
  omega

theorem htonl_eq_zero (x : Nat) (hx : x < 4294967296) (h : htonl x = 0) : x = 0 := by
  have := htonl_htonl x hx
  rw [h] at this
  rw [← this]
  rfl

theorem bytes32_htonl (x : Nat) :
    bytes32 (htonl x)
      = [x / 16777216 % 256, x / 65536 % 256, x / 256 % 256, x % 256] := by
  unfold bytes32 htonl
  have h3 : x / 16777216 % 256 < 256 := Nat.mod_lt _ (by decide)
  have h2 : x / 65536 % 256 < 256 := Nat.mod_lt _ (by decide)
  have h1 : x / 256 % 256 < 256 := Nat.mod_lt _ (by decide)
  have h0 : x % 256 < 256 := Nat.mod_lt _ (by decide)
  generalize x / 16777216 % 256 = b3 at *
  generalize x / 65536 % 256 = b2 at *
  generalize x / 256 % 256 = b1 at *
  generalize x % 256 = b0 at *
  have e0 : (b0 * 16777216 + b1 * 65536 + b2 * 256 + b3) % 256 = b3 := by omega
  have e1 : (b0 * 16777216 + b1 * 65536 + b2 * 256 + b3) / 256 % 256 = b2 := by omega
  have e2 : (b0 * 16777216 + b1 * 65536 + b2 * 256 + b3) / 65536 % 256 = b1 := by omega
  have e3 : (b0 * 16777216 + b1 * 65536 + b2 * 256 + b3) / 16777216 % 256 = b0 := by omega
  rw [e0, e1, e2, e3]

/-! ## Claims about validation and dispatch -/

theorem receive_request_wrong_op (opt0 : DhcpOption) (size : Int) (data : List Nat)
    (h : data.getD 0 0 ≠ BOOTP_REQUEST) :
    ∃ req, receive_request opt0 size data = some (false, req) := by
  have hop : (Packet.ofBuffer (recv_buffer data)).op ≠ BOOTP_REQUEST := by
    simp only [Packet.ofBuffer]
    rw [recv_buffer_getD data 0 (by decide)]
    exact h
  unfold receive_request
  simp only []
  by_cases hs : size = SOCKET_ERROR
  · exact ⟨_, by rw [if_pos hs]⟩
  · exact ⟨_, by rw [if_neg hs, if_pos (Or.inl hop)]⟩

set_option maxRecDepth 8000 in
/-- C11 (the code departs from the claim): the datagram `swapped_discover`
has `op = 1` and the cookie bytes `63 53 82 63`, which read in network order
are `0x63538263` and not the DHCP cookie `0x63825363`; yet `receive_request`
returns true for it with the message type DISCOVER decoded, and `send_reply`
then reserves slot 0 of the empty table for the client and hands a datagram to
`sendto`. -/
theorem receive_request_accepts_swapped_cookie (tag size b0 b1 b2 b3 : Nat) :
    swapped_discover.drop 236 = [0x63, 0x53, 0x82, 0x63, 53, 1, 1, 255] ∧
    receive_request ⟨tag, size, [b0, b1, b2, b3]⟩ 244 swapped_discover
      = some (true, swapped_request) ∧
    swapped_request.request_msg = DMSG_DISCOVER ∧
    Option.map (fun o => (o.cfg.clients[0]?, o.datagram.isSome))
        (send_reply swapped_request (sample_cfg 600 []) 1000 262)
      = some (some ⟨1042, mac_a⟩, true) := by
  refine ⟨by decide, ?_, rfl, by decide⟩
  have hc : ¬ ((Packet.ofBuffer (recv_buffer swapped_discover)).op ≠ BOOTP_REQUEST ∨
      htonl (Packet.ofBuffer (recv_buffer swapped_discover)).magic_cookie ≠ DHCP_COOKIE) := by
    decide
  unfold receive_request
  simp only []
  rw [if_neg (by decide), if_neg hc]
  rfl


/-! ## Bit masks -/

theorem land_high_mask (s k : Nat) (hs : s < 2 ^ 32) (hk : k ≤ 32) :
    s &&& ((2 ^ (32 - k) - 1) <<< k) = (s >>> k) <<< k := by
  apply Nat.eq_of_testBit_eq
  intro i
  rw [Nat.testBit_and, Nat.testBit_shiftLeft, Nat.testBit_shiftLeft, Nat.testBit_shiftRight,
    Nat.testBit_two_pow_sub_one]
  by_cases hik : i ≥ k
  · have e : k + (i - k) = i := by omega
    rw [e]
    by_cases hi : i < 32
    · have : i - k < 32 - k := by omega
      simp [hik, this]
    · have hlt : s < 2 ^ i := lt_of_lt_of_le hs (Nat.pow_le_pow_right (by decide) (by omega))
      simp [Nat.testBit_lt_two_pow hlt]
  · simp [hik]

theorem land_sub_mask (s : Nat) (hs : s < 4294967296) :
    s &&& CC_SUB_MASK_LE = s / 256 * 256 := by
  have h := land_high_mask s 8 hs (by decide)
  have e1 : (2 ^ (32 - 8) - 1) <<< 8 = CC_SUB_MASK_LE := by decide
  rw [e1] at h
  rw [h, Nat.shiftLeft_eq, Nat.shiftRight_eq_div_pow]

theorem land_net_mask (s : Nat) (hs : s < 4294967296) :
    s &&& CC_NET_MASK_LE = s / 65536 * 65536 := by
  have h := land_high_mask s 16 hs (by decide)
  have e1 : (2 ^ (32 - 16) - 1) <<< 16 = CC_NET_MASK_LE := by decide
  rw [e1] at h
  rw [h, Nat.shiftLeft_eq, Nat.shiftRight_eq_div_pow]

theorem land_host_mask (s : Nat) : s &&& not32 CC_SUB_MASK_LE = s % 256 := by
  have e : not32 CC_SUB_MASK_LE = 2 ^ 8 - 1 := by decide
  rw [e, Nat.and_pow_two_sub_one_eq_mod]

theorem lor_low (a b : Nat) (hb : b < 256) : a * 256 ||| b = a * 256 + b := by
  have h := Nat.mul_add_lt_is_or (i := 8) (b := b) (by simpa using hb) a
  rw [Nat.mul_comm] at h
  exact h.symm


/-! ## `get_single_config` -/

theorem get_single_config_range (ip lease : Nat)
    (hnet : htonl ip &&& CC_NET_MASK_LE = CC_PREFIX_LE) :
    get_single_config (some ip) lease true =
      some ⟨ip, lease,
        if htonl ip % 256 ≥ 128 then htonl ip / 256 * 256 + 1 else htonl ip + 1,
        (if htonl ip % 256 ≥ 128 then htonl ip / 256 * 256 + 1 else htonl ip + 1) + 31,
        List.replicate NUM_CLIENTS ⟨0, empty⟩⟩ := by
  have hs := htonl_lt ip
  have hnet2 := hnet
  rw [land_net_mask _ hs] at hnet2
  simp only [CC_PREFIX_LE] at hnet2
  unfold get_single_config
  simp only []
  rw [if_neg (not_not.mpr hnet), land_host_mask, land_sub_mask _ hs,
    lor_low _ 1 (by decide), lor_low _ 254 (by decide)]
  by_cases hy : htonl ip % 256 ≥ 128
  · simp only [hy, if_true]
    have hcap : add32 (sub32 (sub32 (htonl ip) 1) (htonl ip / 256 * 256 + 1)) 1 > NUM_CLIENTS := by
      unfold add32 sub32
      simp only [NUM_CLIENTS]
      omega
    rw [if_pos hcap]
    have he : sub32 (add32 (htonl ip / 256 * 256 + 1) NUM_CLIENTS) 1
        = htonl ip / 256 * 256 + 1 + 31 := by
      unfold add32 sub32
      simp only [NUM_CLIENTS]
      omega
    rw [he]
  · simp only [hy, if_false]
    have hcap : add32 (sub32 (htonl ip / 256 * 256 + 254) (add32 (htonl ip) 1)) 1
        > NUM_CLIENTS := by
      unfold add32 sub32
      simp only [NUM_CLIENTS]
      omega
    rw [if_pos hcap]
    have he : sub32 (add32 (add32 (htonl ip) 1) NUM_CLIENTS) 1 = htonl ip + 1 + 31 := by
      unfold add32 sub32
      simp only [NUM_CLIENTS]
      omega
    have he1 : add32 (htonl ip) 1 = htonl ip + 1 := by
      unfold add32
      omega
    rw [he, he1]
    rfl

/-- C20: for every server IP that `get_single_config` accepts (class C
private: the host-order value has `0xc0a8` in its upper half, whatever the last
octet), the configuration it returns satisfies `range_start <= range_end` and
`range_end - range_start + 1 <= NUM_CLIENTS`; the value `num_addr` computed by
`assign_address` is then between 1 and 32. -/
theorem get_single_config_capacity (ip lease : Nat)
    (hnet : htonl ip &&& 0xffff0000 = 0xc0a80000) :
    ∃ cfg, get_single_config (some ip) lease true = some cfg ∧
      cfg.range_start ≤ cfg.range_end ∧
      cfg.range_end - cfg.range_start + 1 ≤ NUM_CLIENTS ∧
      1 ≤ num_addr cfg ∧ num_addr cfg ≤ 32 := by
  have hs := htonl_lt ip
  have hnet2 := hnet
  rw [show (0xffff0000 : Nat) = CC_NET_MASK_LE from rfl, land_net_mask _ hs] at hnet2
  refine ⟨_, get_single_config_range ip lease hnet, ?_, ?_, ?_⟩
  · simp only []
    omega
  · simp only [NUM_CLIENTS]
    omega
  · unfold num_addr toInt32 add32 sub32
    simp only []
    split <;> split <;> omega

/-- Witness of C20: the server 192.168.0.1. -/
theorem get_single_config_capacity_witness :
    ∃ cfg, get_single_config (some 0x0100A8C0) 600 true = some cfg ∧
      cfg.range_start ≤ cfg.range_end ∧
      cfg.range_end - cfg.range_start + 1 ≤ NUM_CLIENTS ∧
      1 ≤ num_addr cfg ∧ num_addr cfg ≤ 32 :=
  get_single_config_capacity 0x0100A8C0 600 (by decide)


/-- C12: when the decoded message type is neither DISCOVER nor REQUEST (for
instance 0, the value left by `zero_init` when the datagram has no message
type option), `send_reply` hands nothing to `sendto`, returns false and leaves
the configuration with its lease table unchanged. -/
theorem send_reply_ignores_other_types (req : Request) (cfg : Config) (now : Nat) (sent : Int)
    (h1 : req.request_msg ≠ DMSG_DISCOVER) (h3 : req.request_msg ≠ DMSG_REQUEST) :
    ∃ o, send_reply req cfg now sent = some o ∧ o.ret = false ∧ o.cfg = cfg ∧
      o.datagram = none := by
  unfold send_reply
  simp only []
  rw [if_neg h1, if_neg h3]
  exact ⟨_, rfl, rfl, rfl, rfl⟩

/-- Witness of C12: a request whose message type was never set. -/
theorem send_reply_ignores_other_types_witness :
    ∃ o, send_reply zero_request (sample_cfg 600 [⟨42, mac_a⟩]) 5 244 = some o ∧
      o.ret = false ∧ o.cfg = sample_cfg 600 [⟨42, mac_a⟩] ∧ o.datagram = none :=
  send_reply_ignores_other_types zero_request (sample_cfg 600 [⟨42, mac_a⟩]) 5 244
    (by decide) (by decide)

/-! ## Reply assembly -/

theorem finalize_reply_nak (req : Request) (cfg : Config) (h : req.reply_msg = DMSG_NAK) :
    (finalize_reply req cfg).1.packet.options = [53, 1, 6, 255] ++ List.replicate 124 0 ∧
    (finalize_reply req cfg).2 = 244 := by
  unfold finalize_reply attach_option
  simp only [h]
  constructor <;> rfl

theorem finalize_reply_other (req : Request) (cfg : Config) (h : req.reply_msg ≠ DMSG_NAK) :
    (finalize_reply req cfg).1.packet.options =
      [53, 1, req.reply_msg, 1, 4, 255, 255, 255, 0, 54, 4] ++ bytes32 cfg.server_ip
        ++ [51, 4] ++ bytes32 (htonl cfg.lease) ++ [255] ++ List.replicate 106 0 ∧
    (finalize_reply req cfg).2 = 262 := by
  unfold finalize_reply attach_option
  simp only []
  rw [if_pos h]
  constructor <;> rfl

theorem finalize_reply_op (req : Request) (cfg : Config) :
    (finalize_reply req cfg).1.packet.op = BOOTP_REPLY := by
  unfold finalize_reply
  simp only []

/-- C13: `finalize_reply` sets `op` to 2 and makes the options region
`53 1 t`, then, only when `t` is not NAK, `1 4 255 255 255 0`, `54 4` with the
four bytes of `cfg->server_ip` as they lie in memory (network order) and
`51 4` with the lease as a big-endian integer, then the terminator 255 and
zeros up to the 128 bytes of the region; the returned length is `240 + 4` for
NAK and `240 + 22` otherwise. -/
theorem finalize_reply_layout (req : Request) (cfg : Config) :
    (finalize_reply req cfg).1.packet.op = 2 ∧
    (finalize_reply req cfg).1.packet.options =
      [53, 1, req.reply_msg]
        ++ (if req.reply_msg = DMSG_NAK then []
            else [1, 4, 255, 255, 255, 0]
              ++ [54, 4, cfg.server_ip % 256, cfg.server_ip / 256 % 256,
                    cfg.server_ip / 65536 % 256, cfg.server_ip / 16777216 % 256]
              ++ [51, 4, cfg.lease / 16777216 % 256, cfg.lease / 65536 % 256,
                    cfg.lease / 256 % 256, cfg.lease % 256])
        ++ [255]
        ++ List.replicate (if req.reply_msg = DMSG_NAK then 124 else 106) 0 ∧
    (finalize_reply req cfg).1.packet.options.length = DHCP_OPT_SIZE ∧
    (finalize_reply req cfg).2 = (if req.reply_msg = DMSG_NAK then 240 + 4 else 240 + 22) := by
  refine ⟨finalize_reply_op req cfg, ?_⟩
  by_cases h : req.reply_msg = DMSG_NAK
  · obtain ⟨h1, h2⟩ := finalize_reply_nak req cfg h
    rw [h1, h2, if_pos h, if_pos h, if_pos h, h]
    exact ⟨rfl, rfl, rfl⟩
  · obtain ⟨h1, h2⟩ := finalize_reply_other req cfg h
    rw [h1, h2, if_neg h, if_neg h, if_neg h, bytes32_htonl]
    exact ⟨rfl, rfl, rfl⟩

/-! ## Slot index and address -/

/-- C18: in a configuration with `range_start <= range_end < 2^32` and
`range_end - range_start < 2^31`, `client_index_from_ip` maps the address
`htonl(range_start + i)` that `assign_address` returns for slot `i` back to
`i`, for every `i <= range_end - range_start`, and maps every network-order
address whose host-order value lies outside `[range_start, range_end]` to
`-1`. -/
theorem client_index_from_ip_inverse (cfg : Config)
    (hle : cfg.range_start ≤ cfg.range_end) (hre : cfg.range_end < 2 ^ 32)
    (hsz : cfg.range_end - cfg.range_start < 2 ^ 31) :
    (∀ i : Nat, i ≤ cfg.range_end - cfg.range_start →
      client_index_from_ip cfg (htonl (add32 cfg.range_start i)) = (i : Int)) ∧
    (∀ ip : Nat, ¬ (cfg.range_start ≤ htonl ip ∧ htonl ip ≤ cfg.range_end) →
      client_index_from_ip cfg ip = -1) := by
  constructor
  · intro i hi
    have ha : add32 cfg.range_start i = cfg.range_start + i := by
      unfold add32
      omega
    have hh : htonl (htonl (cfg.range_start + i)) = cfg.range_start + i :=
      htonl_htonl _ (by omega)
    unfold client_index_from_ip
    simp only [ha, hh]
    rw [if_pos ⟨by omega, by omega⟩]
    rw [toInt32_sub32_small _ _ (by omega) (by omega) (by omega)]
    congr 1
    omega
  · intro ip h
    unfold client_index_from_ip
    simp only []
    rw [if_neg (fun hc => h ⟨hc.1, hc.2⟩)]

/-- Witness of C18: the sample pool 192.168.0.2 to 192.168.0.4. -/
theorem client_index_from_ip_inverse_witness :
    (∀ i : Nat, i ≤ (sample_cfg 600 []).range_end - (sample_cfg 600 []).range_start →
      client_index_from_ip (sample_cfg 600 []) (htonl (add32 (sample_cfg 600 []).range_start i))
        = (i : Int)) ∧
    (∀ ip : Nat, ¬ ((sample_cfg 600 []).range_start ≤ htonl ip ∧
        htonl ip ≤ (sample_cfg 600 []).range_end) →
      client_index_from_ip (sample_cfg 600 []) ip = -1) :=
  client_index_from_ip_inverse (sample_cfg 600 []) (by decide) (by decide) (by decide)

/-! ## The clock -/

theorem seconds_since_start_first (ft : Nat) : (seconds_since_start 0 ft).1 = 0 := by
  unfold seconds_since_start sub32
  simp only [if_true]
  omega

theorem seconds_since_start_later (t0 t : Nat) (hz : t0 / 10000000 % 4294967296 ≠ 0)
    (hle : t0 ≤ t) (hd : t / 10000000 - t0 / 10000000 < 4294967296) :
    seconds_since_start (seconds_since_start 0 t0).2 t
      = (t / 10000000 - t0 / 10000000, (seconds_since_start 0 t0).2) := by
  have hmono : t0 / 10000000 ≤ t / 10000000 := Nat.div_le_div_right hle
  unfold seconds_since_start sub32
  simp only [if_true]
  rw [if_neg hz]
  congr 1
  omega

/-- C19 (the code departs from the claim): when the first call happens at a
time whose count of seconds is a multiple of `2^32` (here `3 * 2^32` seconds
after the FILETIME epoch, a moment in the year 2009), the static variable
keeps the value 0 that marks it as unset; the call five seconds later
captures the epoch again and returns 0 where the claim requires 5. -/
theorem seconds_since_start_zero_epoch :
    seconds_since_start 0 128849018880000000 = (0, 0) ∧
    seconds_since_start (seconds_since_start 0 128849018880000000).2
      (128849018880000000 + 50000000) = (0, 5) ∧
    (128849018880000000 + 50000000) / 10000000 - 128849018880000000 / 10000000 = 5 := by
  decide


/-! ## The option codec -/

theorem finalize_reply_write_options (req : Request) (cfg : Config) :
    (finalize_reply req cfg).1.packet.options
      = (write_options (List.replicate DHCP_OPT_SIZE 0) 0 (reply_options req cfg)).1 ∧
    (finalize_reply req cfg).2
      = 240 + (write_options (List.replicate DHCP_OPT_SIZE 0) 0 (reply_options req cfg)).2 := by
  unfold finalize_reply reply_options
  by_cases h : req.reply_msg ≠ DMSG_NAK
  · simp only []
    rw [if_pos h, if_pos h]
    exact ⟨rfl, rfl⟩
  · simp only []
    rw [if_neg h, if_neg h]
    exact ⟨rfl, rfl⟩

theorem extract_option_at (pre rest payload : List Nat) (tag : Nat) (opt : DhcpOption)
    (htag : tag ≠ DOPT_END) (hfit : payload.length ≤ opt.buf.length) :
    extract_option (pre ++ tag :: payload.length :: (payload ++ rest)) pre.length opt
      = some (some (pre.length + 2 + payload.length,
          ⟨tag, payload.length, payload ++ opt.buf.drop payload.length⟩)) := by
  unfold extract_option
  have h0 : (pre ++ tag :: payload.length :: (payload ++ rest))[pre.length]? = some tag := by
    rw [List.getElem?_append_right (le_refl _)]
    simp
  have h1 : (pre ++ tag :: payload.length :: (payload ++ rest))[pre.length + 1]?
      = some payload.length := by
    rw [List.getElem?_append_right (by omega)]
    simp
  have h2 : (List.drop (pre.length + 2) (pre ++ tag :: payload.length :: (payload ++ rest))).take
      payload.length = payload := by
    rw [List.drop_append_eq_append_drop, List.drop_eq_nil_of_le (by omega)]
    simp
  simp only [h0, h1, h2]
  rw [if_pos htag, if_pos ⟨hfit, by simp; omega⟩]

theorem extract_option_end (pre rest : List Nat) (opt : DhcpOption) :
    extract_option (pre ++ DOPT_END :: rest) pre.length opt = some none := by
  unfold extract_option
  have h0 : (pre ++ DOPT_END :: rest)[pre.length]? = some DOPT_END := by
    rw [List.getElem?_append_right (le_refl _)]
    simp
  simp only [h0]
  rw [if_neg (by simp)]


/-- The (tag, payload) pair that `attach_option` writes for an option. -/
theorem attach_option_eq (options : List Nat) (dst : Nat) (opt : DhcpOption)
    (hpay : opt.size ≤ opt.buf.length) :
    attach_option options dst opt =
      (options.take dst ++ option_bytes (opt.tag, opt.buf.take opt.size)
          ++ options.drop (dst + 2 + opt.size), dst + 2 + opt.size) := by
  unfold attach_option option_bytes
  have hl : (opt.buf.take opt.size).length = opt.size := by
    rw [List.length_take]
    omega
  have e : dst + ([opt.tag, opt.size] ++ List.take opt.size opt.buf).length
      = dst + 2 + opt.size := by
    simp only [List.length_append, List.length_cons, List.length_nil, hl]
    omega
  simp only [hl, e]
  rfl

theorem write_options_eq :
    ∀ (opts : List DhcpOption) (options : List Nat) (dst : Nat),
      (∀ o ∈ opts, o.size ≤ o.buf.length) →
      dst + (options_bytes (opts.map fun o => (o.tag, o.buf.take o.size))).length + 1
        ≤ options.length →
      write_options options dst opts =
        (options.take dst ++ options_bytes (opts.map fun o => (o.tag, o.buf.take o.size))
            ++ DOPT_END ::
              options.drop (dst
                + (options_bytes (opts.map fun o => (o.tag, o.buf.take o.size))).length + 1),
          dst + (options_bytes (opts.map fun o => (o.tag, o.buf.take o.size))).length + 1) := by
  intro opts
  induction opts with
  | nil =>
    intro options dst _ hroom
    simp only [List.map_nil, options_bytes, List.length_nil, Nat.add_zero, List.append_nil,
      write_options] at hroom ⊢
    rw [List.set_eq_take_append_cons_drop, if_pos (by omega)]
  | cons o rest ih =>
    intro options dst hpay hroom
    have hp : o.size ≤ o.buf.length := hpay o (List.mem_cons_self _ _)
    have hl : (o.buf.take o.size).length = o.size := by
      rw [List.length_take]
      omega
    have hob : (option_bytes (o.tag, o.buf.take o.size)).length = 2 + o.size := by
      simp only [option_bytes, List.length_cons, hl]
      omega
    simp only [List.map_cons, options_bytes, List.length_append, hob] at hroom ⊢
    have ha := attach_option_eq options dst o hp
    simp only [write_options, ha]
    have hlen1 : (options.take dst).length = dst := by
      rw [List.length_take]
      omega
    rw [ih _ _ (fun x hx => hpay x (List.mem_cons_of_mem _ hx)) (by
      simp only [List.length_append, hlen1, hob, List.length_drop]
      omega)]
    have et : List.take (dst + 2 + o.size)
        (options.take dst ++ option_bytes (o.tag, o.buf.take o.size)
          ++ options.drop (dst + 2 + o.size))
        = options.take dst ++ option_bytes (o.tag, o.buf.take o.size) := by
      apply List.take_left'
      simp only [List.length_append, hlen1, hob]
      omega
    have ed : ∀ k, List.drop (dst + 2 + o.size + k)
        (options.take dst ++ option_bytes (o.tag, o.buf.take o.size)
          ++ options.drop (dst + 2 + o.size))
        = options.drop (dst + 2 + o.size + k) := by
      intro k
      rw [List.drop_append_eq_append_drop, List.drop_eq_nil_of_le (by
        simp only [List.length_append, hlen1, hob]
        omega)]
      simp only [List.length_append, hlen1, hob, List.nil_append, List.drop_drop]
      congr 1
      omega
    have ed1 := ed ((options_bytes (rest.map fun o => (o.tag, o.buf.take o.size))).length + 1)
    rw [← Nat.add_assoc] at ed1
    rw [et, ed1]
    have en : dst + 2 + o.size
        + (options_bytes (rest.map fun o => (o.tag, o.buf.take o.size))).length + 1
        = dst + (2 + o.size
          + (options_bytes (rest.map fun o => (o.tag, o.buf.take o.size))).length) + 1 := by
      omega
    rw [en]
    simp only [List.append_assoc]


theorem extract_all_region (rest : List Nat) :
    ∀ (ws : List (Nat × List Nat)) (pre : List Nat) (opt : DhcpOption),
      (∀ w ∈ ws, w.1 ≠ DOPT_END ∧ w.2.length ≤ opt.buf.length) →
      ∃ os, extract_all (pre ++ options_bytes ws ++ DOPT_END :: rest) (ws.length + 1)
          pre.length opt = some os ∧
        os.map option_content = ws.map fun w => (w.1, w.2.length, w.2) := by
  intro ws
  induction ws with
  | nil =>
    intro pre opt _
    refine ⟨[], ?_, rfl⟩
    simp only [options_bytes, List.append_nil, List.length_nil, Nat.zero_add, extract_all,
      extract_option_end]
  | cons w ws ih =>
    intro pre opt hall
    obtain ⟨htag, hfit⟩ := hall w (List.mem_cons_self _ _)
    have hx := extract_option_at pre (options_bytes ws ++ DOPT_END :: rest) w.2 w.1 opt htag hfit
    have hreg : pre ++ options_bytes (w :: ws) ++ DOPT_END :: rest
        = pre ++ w.1 :: w.2.length :: (w.2 ++ (options_bytes ws ++ DOPT_END :: rest)) := by
      simp only [options_bytes, option_bytes, List.append_assoc, List.cons_append]
    have hreg2 : pre ++ options_bytes (w :: ws) ++ DOPT_END :: rest
        = (pre ++ option_bytes w) ++ options_bytes ws ++ DOPT_END :: rest := by
      simp only [options_bytes, List.append_assoc]
    have hlen : (pre ++ option_bytes w).length = pre.length + 2 + w.2.length := by
      simp only [option_bytes, List.length_append, List.length_cons]
      omega
    have hcap : (w.2 ++ opt.buf.drop w.2.length).length = opt.buf.length := by
      simp only [List.length_append, List.length_drop]
      omega
    obtain ⟨os, hos, hmap⟩ := ih (pre ++ option_bytes w)
      ⟨w.1, w.2.length, w.2 ++ opt.buf.drop w.2.length⟩
      (fun x hx => by
        have := hall x (List.mem_cons_of_mem _ hx)
        exact ⟨this.1, by rw [hcap]; exact this.2⟩)
    rw [← hreg2, hlen] at hos
    refine ⟨⟨w.1, w.2.length, w.2 ++ opt.buf.drop w.2.length⟩ :: os, ?_, ?_⟩
    · rw [List.length_cons, extract_all]
      rw [hreg] at hos ⊢
      simp only [hx, hos]
    · simp only [List.map_cons, hmap, option_content, List.take_left']

/-- C14: (1) for an option whose tag is not 255 and whose `size` payload
bytes fit the payload buffer, `extract_option` applied at the place where
`attach_option` wrote it returns the same tag, the same size and the same
payload bytes and moves the offset by exactly `2 + size`; (2) for a list of
such options written one after the other and followed by the terminator 255,
repeated extraction returns options with the same tags, sizes and payload
bytes in the same order and then meets the terminator. -/
theorem option_codec_round_trip :
    (∀ (options : List Nat) (dst : Nat) (opt opt0 : DhcpOption),
      opt.tag ≠ DOPT_END → opt.size ≤ opt.buf.length → opt.size ≤ opt0.buf.length →
      dst + 2 + opt.size ≤ options.length →
      (attach_option options dst opt).2 = dst + 2 + opt.size ∧
      ∃ opt1, extract_option (attach_option options dst opt).1 dst opt0
          = some (some (dst + 2 + opt.size, opt1)) ∧
        opt1.tag = opt.tag ∧ opt1.size = opt.size ∧
        opt1.buf.take opt.size = opt.buf.take opt.size) ∧
    (∀ (options : List Nat) (dst : Nat) (opts : List DhcpOption) (opt0 : DhcpOption),
      (∀ o ∈ opts, o.tag ≠ DOPT_END ∧ o.size ≤ o.buf.length ∧ o.size ≤ opt0.buf.length) →
      dst + (opts.map fun o => 2 + o.size).sum + 1 ≤ options.length →
      ∃ os, extract_all (write_options options dst opts).1 (opts.length + 1) dst opt0
          = some os ∧
        os.map option_content = opts.map option_content) := by
  constructor
  · intro options dst opt opt0 htag hpay hfit hroom
    have hl : (opt.buf.take opt.size).length = opt.size := by
      rw [List.length_take]
      omega
    have hlen1 : (options.take dst).length = dst := by
      rw [List.length_take]
      omega
    rw [attach_option_eq options dst opt hpay]
    refine ⟨rfl, ⟨opt.tag, opt.size, opt.buf.take opt.size ++ opt0.buf.drop opt.size⟩, ?_, rfl, rfl,
      ?_⟩
    · have hx := extract_option_at (options.take dst) (options.drop (dst + 2 + opt.size))
        (opt.buf.take opt.size) opt.tag opt0 htag (by rw [hl]; exact hfit)
      rw [hl, hlen1] at hx
      simp only [option_bytes, hl, List.append_assoc, List.cons_append]
      exact hx
    · exact List.take_left' hl
  · intro options dst opts opt0 hall hroom
    have hsum : ∀ (l : List DhcpOption), (∀ o ∈ l, o.size ≤ o.buf.length) →
        (options_bytes (l.map fun o => (o.tag, o.buf.take o.size))).length
          = (l.map fun o => 2 + o.size).sum := by
      intro l
      induction l with
      | nil => intro _; rfl
      | cons o l ihl =>
        intro hl
        have hp := hl o (List.mem_cons_self _ _)
        simp only [List.map_cons, options_bytes, option_bytes, List.length_append,
          List.length_cons, List.length_take, List.sum_cons,
          ihl (fun x hx => hl x (List.mem_cons_of_mem _ hx))]
        omega
    have hs := hsum opts (fun o ho => (hall o ho).2.1)
    rw [write_options_eq opts options dst (fun o ho => (hall o ho).2.1) (by rw [hs]; exact hroom)]
    have hlen1 : (options.take dst).length = dst := by
      rw [List.length_take]
      omega
    obtain ⟨os, hos, hmap⟩ := extract_all_region
      (options.drop (dst
        + (options_bytes (opts.map fun o => (o.tag, o.buf.take o.size))).length + 1))
      (opts.map fun o => (o.tag, o.buf.take o.size)) (options.take dst) opt0
      (by
        intro w hw
        obtain ⟨o, ho, rfl⟩ := List.mem_map.1 hw
        have := hall o ho
        refine ⟨this.1, ?_⟩
        simp only [List.length_take]
        omega)
    rw [List.length_map, hlen1] at hos
    refine ⟨os, hos, ?_⟩
    rw [hmap, List.map_map]
    apply List.map_congr_left
    intro o ho
    have := (hall o ho).2.1
    simp only [Function.comp, option_content, List.length_take, Prod.mk.injEq, true_and, and_true]
    omega

set_option maxRecDepth 8000 in
/-- Witness of C14: the option list of the spec, (53, 1, [2]), (54, 4,
192.168.0.1), (50, 4, 192.168.0.2), written into a zeroed region. -/
theorem option_codec_round_trip_witness :
    (∃ opt1, extract_option (attach_option (List.replicate 128 0) 0 ⟨53, 1, [2]⟩).1 0
          ⟨0, 0, [0, 0, 0, 0]⟩ = some (some (0 + 2 + 1, opt1)) ∧
        opt1.tag = 53 ∧ opt1.size = 1 ∧ opt1.buf.take 1 = [2]) ∧
    (∃ os, extract_all
          (write_options (List.replicate 128 0) 0
            [⟨53, 1, [2]⟩, ⟨54, 4, [192, 168, 0, 1]⟩, ⟨50, 4, [192, 168, 0, 2]⟩]).1
          4 0 ⟨0, 0, [0, 0, 0, 0]⟩ = some os ∧
        os.map option_content =
          [(53, 1, [2]), (54, 4, [192, 168, 0, 1]), (50, 4, [192, 168, 0, 2])]) :=
  ⟨(option_codec_round_trip.1 (List.replicate 128 0) 0 ⟨53, 1, [2]⟩ ⟨0, 0, [0, 0, 0, 0]⟩
      (by decide) (by decide) (by decide) (by decide)).2,
    option_codec_round_trip.2 (List.replicate 128 0) 0
      [⟨53, 1, [2]⟩, ⟨54, 4, [192, 168, 0, 1]⟩, ⟨50, 4, [192, 168, 0, 2]⟩] ⟨0, 0, [0, 0, 0, 0]⟩
      (by decide) (by decide)⟩


/-! ## The decode loop of `receive_request` -/

/-- The `switch` of the loop in terms of the option on the wire. -/
theorem reference_decode_cons (w : Nat × List Nat) (ws : List (Nat × List Nat))
    (req : Request) :
    reference_decode (w :: ws) req =
      reference_decode ws
        (if w.1 = DOPT_MESSAGE_TYPE then { req with request_msg := w.2.getD 0 0 }
         else if w.1 = DOPT_SERVER_IDENT then { req with server_ip := le32 w.2 0 }
         else if w.1 = DOPT_REQUESTED_IP_ADDR then { req with requested_ip := le32 w.2 0 }
         else req) := by
  unfold reference_decode
  simp only [last_payload]
  by_cases h53 : w.1 = DOPT_MESSAGE_TYPE
  · have h54 : ¬ (w.1 = DOPT_SERVER_IDENT) := by rw [h53]; decide
    have h50 : ¬ (w.1 = DOPT_REQUESTED_IP_ADDR) := by rw [h53]; decide
    simp only [h53, h54, h50, if_true, if_false]
    cases last_payload DOPT_MESSAGE_TYPE ws <;> cases last_payload DOPT_SERVER_IDENT ws <;>
      cases last_payload DOPT_REQUESTED_IP_ADDR ws <;> rfl
  · by_cases h54 : w.1 = DOPT_SERVER_IDENT
    · have h50 : ¬ (w.1 = DOPT_REQUESTED_IP_ADDR) := by rw [h54]; decide
      simp only [h53, h54, h50, if_true, if_false]
      cases last_payload DOPT_MESSAGE_TYPE ws <;> cases last_payload DOPT_SERVER_IDENT ws <;>
        cases last_payload DOPT_REQUESTED_IP_ADDR ws <;> rfl
    · by_cases h50 : w.1 = DOPT_REQUESTED_IP_ADDR
      · simp only [h53, h54, h50, if_true, if_false]
        cases last_payload DOPT_MESSAGE_TYPE ws <;> cases last_payload DOPT_SERVER_IDENT ws <;>
          cases last_payload DOPT_REQUESTED_IP_ADDR ws <;> rfl
      · simp only [h53, h54, h50, if_false]
        cases last_payload DOPT_MESSAGE_TYPE ws <;> cases last_payload DOPT_SERVER_IDENT ws <;>
          cases last_payload DOPT_REQUESTED_IP_ADDR ws <;> rfl

theorem le32_append (p q : List Nat) (hp : p.length = 4) : le32 (p ++ q) 0 = le32 p 0 := by
  match p, hp with
  | [a, b, c, d], _ => rfl

theorem getD_append_head (p q : List Nat) (hp : 1 ≤ p.length) :
    (p ++ q).getD 0 0 = p.getD 0 0 := by
  match p, hp with
  | a :: _, _ => rfl

theorem store_option_wire (req : Request) (w : Nat × List Nat) (tail : List Nat)
    (h4 : (w.1 = DOPT_REQUESTED_IP_ADDR ∨ w.1 = DOPT_SERVER_IDENT) → w.2.length = 4)
    (h1 : w.1 = DOPT_MESSAGE_TYPE → 1 ≤ w.2.length) :
    store_option req ⟨w.1, w.2.length, w.2 ++ tail⟩ =
      (if w.1 = DOPT_MESSAGE_TYPE then { req with request_msg := w.2.getD 0 0 }
       else if w.1 = DOPT_SERVER_IDENT then { req with server_ip := le32 w.2 0 }
       else if w.1 = DOPT_REQUESTED_IP_ADDR then { req with requested_ip := le32 w.2 0 }
       else req) := by
  unfold store_option DhcpOption.u32
  simp only []
  by_cases h53 : w.1 = DOPT_MESSAGE_TYPE
  · rw [if_pos h53, if_pos h53, getD_append_head _ _ (h1 h53)]
  · rw [if_neg h53, if_neg h53]
    by_cases h54 : w.1 = DOPT_SERVER_IDENT
    · rw [if_pos h54, if_pos h54, le32_append _ _ (h4 (Or.inr h54))]
    · rw [if_neg h54, if_neg h54]
      by_cases h50 : w.1 = DOPT_REQUESTED_IP_ADDR
      · rw [if_pos h50, if_pos h50, le32_append _ _ (h4 (Or.inl h50))]
      · rw [if_neg h50, if_neg h50]

theorem decode_options_region (rest : List Nat) :
    ∀ (ws : List (Nat × List Nat)) (pre : List Nat) (rounds : Nat) (opt : DhcpOption)
      (req : Request),
      (pre ++ options_bytes ws ++ DOPT_END :: rest).length = DHCP_OPT_SIZE →
      DHCP_OPT_SIZE ≤ pre.length + rounds →
      (∀ w ∈ ws, w.1 ≠ DOPT_END ∧ w.2.length ≤ opt.buf.length ∧
        ((w.1 = DOPT_REQUESTED_IP_ADDR ∨ w.1 = DOPT_SERVER_IDENT) → w.2.length = 4) ∧
        (w.1 = DOPT_MESSAGE_TYPE → 1 ≤ w.2.length)) →
      decode_options (pre ++ options_bytes ws ++ DOPT_END :: rest) rounds pre.length opt req
        = some (reference_decode ws req) := by
  intro ws
  induction ws with
  | nil =>
    intro pre rounds opt req hlen hr _
    simp only [options_bytes, List.append_nil, List.length_append, List.length_cons] at hlen ⊢
    have hsrc : pre.length < DHCP_OPT_SIZE := by omega
    obtain ⟨r, rfl⟩ : ∃ r, rounds = r + 1 := ⟨rounds - 1, by omega⟩
    simp only [decode_options, if_pos hsrc, extract_option_end]
    rfl
  | cons w ws ih =>
    intro pre rounds opt req hlen hr hall
    obtain ⟨htag, hfit, h4, h1⟩ := hall w (List.mem_cons_self _ _)
    have hreg : pre ++ options_bytes (w :: ws) ++ DOPT_END :: rest
        = pre ++ w.1 :: w.2.length :: (w.2 ++ (options_bytes ws ++ DOPT_END :: rest)) := by
      simp only [options_bytes, option_bytes, List.append_assoc, List.cons_append]
    have hreg2 : pre ++ options_bytes (w :: ws) ++ DOPT_END :: rest
        = (pre ++ option_bytes w) ++ options_bytes ws ++ DOPT_END :: rest := by
      simp only [options_bytes, List.append_assoc]
    have hlen2 : (pre ++ option_bytes w).length = pre.length + 2 + w.2.length := by
      simp only [option_bytes, List.length_append, List.length_cons]
      omega
    have hsrc : pre.length < DHCP_OPT_SIZE := by
      rw [hreg2] at hlen
      simp only [List.length_append, List.length_cons] at hlen hlen2
      omega
    obtain ⟨r, rfl⟩ : ∃ r, rounds = r + 1 := ⟨rounds - 1, by omega⟩
    have hcap : (w.2 ++ opt.buf.drop w.2.length).length = opt.buf.length := by
      simp only [List.length_append, List.length_drop]
      omega
    have hx := extract_option_at pre (options_bytes ws ++ DOPT_END :: rest) w.2 w.1 opt htag hfit
    have hnext := ih (pre ++ option_bytes w) r ⟨w.1, w.2.length, w.2 ++ opt.buf.drop w.2.length⟩
      (store_option req ⟨w.1, w.2.length, w.2 ++ opt.buf.drop w.2.length⟩)
      (by rw [← hreg2]; exact hlen) (by rw [hlen2]; omega)
      (fun x hx => by
        have := hall x (List.mem_cons_of_mem _ hx)
        exact ⟨this.1, by rw [hcap]; exact this.2.1, this.2.2⟩)
    rw [← hreg2, hlen2, hreg] at hnext
    rw [reference_decode_cons, ← store_option_wire req w _ h4 h1, ← hnext, hreg]
    simp only [decode_options, if_pos hsrc, hx]


theorem recv_buffer_length (data : List Nat) : (recv_buffer data).length = PACKET_SIZE := by
  unfold recv_buffer
  simp only [List.length_take, List.length_append, List.length_replicate]
  omega

theorem ofBuffer_options_length (data : List Nat) :
    (Packet.ofBuffer (recv_buffer data)).options.length = DHCP_OPT_SIZE := by
  simp only [Packet.ofBuffer, List.length_take, List.length_drop, recv_buffer_length]
  decide

/-- C15: for a datagram that passes the validation of `receive_request` and
whose options region is a sequence of options (tags other than 255, every size
within the capacity of the option buffer, options 50 and 54 of size 4, option
53 of size at least 1) followed by the terminator 255 and arbitrary bytes,
`receive_request` returns true with `request_msg` the first payload byte of
the last option 53, `server_ip` the payload of the last option 54 and
`requested_ip` the payload of the last option 50, each 0 when there is no
such option; options with other tags and the bytes behind the terminator do
not influence the result. -/
theorem receive_request_decodes (opt0 : DhcpOption) (size : Int) (data : List Nat)
    (ws : List (Nat × List Nat)) (rest : List Nat)
    (hsize : size ≠ SOCKET_ERROR)
    (hop : (Packet.ofBuffer (recv_buffer data)).op = BOOTP_REQUEST)
    (hcookie : htonl (Packet.ofBuffer (recv_buffer data)).magic_cookie = DHCP_COOKIE)
    (hregion : (Packet.ofBuffer (recv_buffer data)).options
      = options_bytes ws ++ DOPT_END :: rest)
    (hall : ∀ w ∈ ws, w.1 ≠ DOPT_END ∧ w.2.length ≤ opt0.buf.length ∧
      ((w.1 = DOPT_REQUESTED_IP_ADDR ∨ w.1 = DOPT_SERVER_IDENT) → w.2.length = 4) ∧
      (w.1 = DOPT_MESSAGE_TYPE → 1 ≤ w.2.length)) :
    ∃ req, receive_request opt0 size data = some (true, req) ∧
      req.packet = Packet.ofBuffer (recv_buffer data) ∧
      req.request_msg =
        (match last_payload DOPT_MESSAGE_TYPE ws with
         | some p => p.getD 0 0
         | none => 0) ∧
      req.server_ip =
        (match last_payload DOPT_SERVER_IDENT ws with
         | some p => le32 p 0
         | none => 0) ∧
      req.requested_ip =
        (match last_payload DOPT_REQUESTED_IP_ADDR ws with
         | some p => le32 p 0
         | none => 0) := by
  have hlen := ofBuffer_options_length data
  rw [hregion] at hlen
  have hdec := decode_options_region rest ws [] DHCP_OPT_SIZE opt0
    { zero_request with packet := Packet.ofBuffer (recv_buffer data) }
    (by simpa using hlen) (by simp) hall
  simp only [List.nil_append, List.length_nil] at hdec
  have hrr : receive_request opt0 size data = some (true, reference_decode ws { zero_request with packet := Packet.ofBuffer (recv_buffer data) }) := by
    unfold receive_request
    simp only []
    rw [if_neg hsize, if_neg (by rw [hop, hcookie]; simp), hregion, hdec]
  exact ⟨_, hrr, rfl, rfl, rfl, rfl⟩

set_option maxRecDepth 8000 in
/-- Witness of C15: the options 53, 61, 50 and 54 of `request_datagram`, with
three bytes that look like an option 53 behind the terminator. -/
theorem receive_request_decodes_witness :
    ∃ req, receive_request ⟨0, 0, List.replicate 8 0⟩ 268 request_datagram = some (true, req) ∧
      req.packet = Packet.ofBuffer (recv_buffer request_datagram) ∧
      req.request_msg =
        (match last_payload DOPT_MESSAGE_TYPE
            [(53, [3]), (61, [1, 0xAA, 0xBB, 0xCC, 0xDD, 0xEE, 0xFF]), (50, [192, 168, 0, 2]),
              (54, [192, 168, 0, 1])] with
         | some p => p.getD 0 0
         | none => 0) ∧
      req.server_ip =
        (match last_payload DOPT_SERVER_IDENT
            [(53, [3]), (61, [1, 0xAA, 0xBB, 0xCC, 0xDD, 0xEE, 0xFF]), (50, [192, 168, 0, 2]),
              (54, [192, 168, 0, 1])] with
         | some p => le32 p 0
         | none => 0) ∧
      req.requested_ip =
        (match last_payload DOPT_REQUESTED_IP_ADDR
            [(53, [3]), (61, [1, 0xAA, 0xBB, 0xCC, 0xDD, 0xEE, 0xFF]), (50, [192, 168, 0, 2]),
              (54, [192, 168, 0, 1])] with
         | some p => le32 p 0
         | none => 0) :=
  receive_request_decodes ⟨0, 0, List.replicate 8 0⟩ 268 request_datagram
    [(53, [3]), (61, [1, 0xAA, 0xBB, 0xCC, 0xDD, 0xEE, 0xFF]), (50, [192, 168, 0, 2]),
      (54, [192, 168, 0, 1])]
    ([53, 1, 1] ++ List.replicate 100 0)
    (by decide) (by decide) (by decide) (by decide) (by decide)


/-! ## DISCOVER followed by REQUEST -/

theorem num_addr_eq (cfg : Config) (hle : cfg.range_start ≤ cfg.range_end)
    (hre : cfg.range_end < 4294967296) (hsz : cfg.range_end - cfg.range_start < NUM_CLIENTS) :
    num_addr cfg = ((cfg.range_end - cfg.range_start + 1 : Nat) : Int) := by
  unfold num_addr toInt32 add32 sub32
  simp only [NUM_CLIENTS] at hsz
  split <;> omega

theorem select_slot_total (req : Request) (cfg : Config) (now : Nat)
    (hfit : (num_addr cfg).toNat ≤ cfg.clients.length) :
    ∃ r, select_slot req cfg now = some r := by
  obtain ⟨⟨i, e⟩, hs⟩ := scan_total req.packet.chaddr cfg.clients now
    (num_addr cfg).toNat 0 (-1) (by omega)
  unfold select_slot
  simp only [hs]
  split
  · split
    · exact ⟨_, rfl⟩
    · exact ⟨_, rfl⟩
  · exact ⟨_, rfl⟩

theorem assign_address_cases (req : Request) (cfg : Config) (now : Nat)
    (hfit : (num_addr cfg).toNat ≤ cfg.clients.length) :
    (select_slot req cfg now = some none ∧ assign_address req cfg now = some (0, cfg)) ∨
    (∃ i, select_slot req cfg now = some (some i) ∧
      assign_address req cfg now = some (htonl (add32 cfg.range_start i),
        ⟨cfg.server_ip, cfg.lease, cfg.range_start, cfg.range_end,
          cfg.clients.set i ⟨add32 now 42, req.packet.chaddr⟩⟩)) := by
  obtain ⟨r, hr⟩ := select_slot_total req cfg now hfit
  cases r with
  | none => exact Or.inl ⟨hr, by simp [assign_address, hr]⟩
  | some i => exact Or.inr ⟨i, hr, assign_address_of_select req cfg now i hr⟩

theorem send_reply_discover_outcome (req : Request) (cfg : Config) (now : Nat) (sent : Int)
    (ip : Nat) (cfg1 : Config)
    (hmsg : req.request_msg = DMSG_DISCOVER)
    (h : assign_address req cfg now = some (ip, cfg1)) :
    ∃ o, send_reply req cfg now sent = some o ∧ o.cfg = cfg1 ∧ o.req.packet.yiaddr = ip ∧
      o.ret = false ∧
      (ip ≠ 0 → o.req.reply_msg = DMSG_OFFER) ∧ (ip = 0 → o.req.reply_msg = DMSG_NAK) := by
  have h' : assign_address { req with reply_msg := DMSG_NAK, packet := { req.packet with yiaddr := 0 } } cfg now = some (ip, cfg1) := h
  unfold send_reply
  simp only []
  rw [if_pos hmsg, h']
  simp only []
  by_cases hz : ip = 0
  · obtain ⟨o, ho, hret, hr, hy, hc⟩ := transmit_no_update
      { req with reply_msg := DMSG_NAK, packet := { req.packet with yiaddr := ip } }
      cfg1 (-1) now sent (by omega)
    refine ⟨o, ?_, hc, hy, hret, fun hne => absurd hz hne, fun _ => hr⟩
    rw [← ho, if_neg (by simpa using hz)]
  · obtain ⟨o, ho, hret, hr, hy, hc⟩ := transmit_no_update
      { req with reply_msg := DMSG_OFFER, packet := { req.packet with yiaddr := ip } }
      cfg1 (-1) now sent (by omega)
    refine ⟨o, ?_, hc, hy, hret, fun _ => hr, fun h0 => absurd h0 hz⟩
    rw [← ho, if_pos hz]

theorem matching_client_hit (ip : Nat) (hw : Chaddr) (cfg : Config) (c : Client)
    (h1 : cfg.range_start ≤ htonl ip) (h2 : htonl ip ≤ cfg.range_end)
    (hsmall : htonl ip - cfg.range_start < 2147483648)
    (hc : cfg.clients[htonl ip - cfg.range_start]? = some c)
    (he : equal_chaddr hw c.chaddr = true) :
    matching_client ip hw cfg = some ((htonl ip - cfg.range_start : Nat) : Int) := by
  unfold matching_client client_index_from_ip
  have hr : htonl ip ≥ cfg.range_start ∧ htonl ip ≤ cfg.range_end := ⟨h1, h2⟩
  have hsm := toInt32_sub32_small (htonl ip) cfg.range_start h1 (htonl_lt _) hsmall
  simp only [hr, and_self, if_true, hsm, Int.toNat_ofNat, hc, he]
  rw [if_pos (Int.ofNat_nonneg _)]

/-- C17: in a configuration with a table of `NUM_CLIENTS` slots and a pool
`range_start <= range_end` of at most 32 addresses, if a DISCOVER at time
`now1` is answered with OFFER, then the offered address `x` is
`htonl(range_start + i)` for a slot `i` that now holds the client with expiry
`now1 + 42`, and a REQUEST of the same hardware address processed next at time
`now2`, with `ciaddr = x` (or `ciaddr = 0` and requested address `x`) and no
foreign server identifier, is answered with ACK and `yiaddr = x`; when the
send succeeds, slot `i` gets the expiry `min (now2 + lease) (2^32 - 1)`. -/
theorem offer_then_request (dreq rreq : Request) (cfg : Config) (now1 now2 : Nat)
    (sent1 sent2 : Int) (o1 : Outcome)
    (hlen : cfg.clients.length = NUM_CLIENTS)
    (hle : cfg.range_start ≤ cfg.range_end) (hre : cfg.range_end < 2 ^ 32)
    (hsz : cfg.range_end - cfg.range_start < NUM_CLIENTS)
    (hlease : cfg.lease < 2 ^ 32) (hnow : now2 < 2 ^ 32)
    (hd : dreq.request_msg = DMSG_DISCOVER)
    (h1 : send_reply dreq cfg now1 sent1 = some o1)
    (hoffer : o1.req.reply_msg = DMSG_OFFER)
    (hr : rreq.request_msg = DMSG_REQUEST)
    (hhw : rreq.packet.chaddr = dreq.packet.chaddr)
    (hsrv : rreq.server_ip = 0 ∨ rreq.server_ip = cfg.server_ip)
    (hip : rreq.packet.ciaddr = o1.req.packet.yiaddr ∨
      (rreq.packet.ciaddr = 0 ∧ rreq.requested_ip = o1.req.packet.yiaddr)) :
    ∃ (i : Nat) (o2 : Outcome),
      o1.req.packet.yiaddr = htonl (cfg.range_start + i) ∧
      o1.cfg.clients[i]? = some ⟨add32 now1 42, dreq.packet.chaddr⟩ ∧
      send_reply rreq o1.cfg now2 sent2 = some o2 ∧
      o2.req.reply_msg = DMSG_ACK ∧ o2.req.packet.yiaddr = o1.req.packet.yiaddr ∧
      (0 < sent2 → o2.ret = true ∧
        o2.cfg.clients[i]? = some ⟨min (now2 + cfg.lease) (2 ^ 32 - 1), dreq.packet.chaddr⟩) := by
  have hna := num_addr_eq cfg hle hre hsz
  have hfit : (num_addr cfg).toNat ≤ cfg.clients.length := by
    rw [hna, hlen]
    simp only [NUM_CLIENTS] at hsz ⊢
    omega
  rcases assign_address_cases dreq cfg now1 hfit with ⟨_, ha⟩ | ⟨i, hsel, ha⟩
  · obtain ⟨o, ho, _, _, _, _, hnak⟩ := send_reply_discover_outcome dreq cfg now1 sent1 _ _ hd ha
    rw [h1] at ho
    cases ho
    rw [hnak rfl] at hoffer
    exact absurd hoffer (by decide)
  · obtain ⟨o, ho, hcfg, hy, _, _, _⟩ :=
      send_reply_discover_outcome dreq cfg now1 sent1 _ _ hd ha
    rw [h1] at ho
    cases ho
    obtain ⟨hi, ⟨c, hc⟩, _⟩ := select_slot_inv dreq cfg now1 i hsel
    have hilen : i < cfg.clients.length := by
      by_contra hge
      rw [List.getElem?_eq_none (by omega)] at hc
      cases hc
    rw [hna] at hi
    have hirange : i ≤ cfg.range_end - cfg.range_start := by omega
    have hadd : add32 cfg.range_start i = cfg.range_start + i := by
      unfold add32
      omega
    rw [hadd] at hy
    have hx0 : o1.req.packet.yiaddr ≠ 0 := by
      intro h0
      obtain ⟨o, ho, _, _, _, _, hnak⟩ :=
        send_reply_discover_outcome dreq cfg now1 sent1 _ _ hd ha
      rw [h1] at ho
      cases ho
      rw [hadd, ← hy] at hnak
      rw [hnak h0] at hoffer
      exact absurd hoffer (by decide)
    have hcand : candidate_ip rreq = o1.req.packet.yiaddr := by
      unfold candidate_ip
      rcases hip with h | ⟨h0, h⟩
      · rw [if_pos (by rw [h]; exact hx0), h]
      · rw [if_neg (by rw [h0]; simp), h]
    have hh : htonl o1.req.packet.yiaddr = cfg.range_start + i := by
      rw [hy]
      exact htonl_htonl _ (by omega)
    have hslot : o1.cfg.clients[i]? = some ⟨add32 now1 42, dreq.packet.chaddr⟩ := by
      rw [hcfg]
      simp [hilen]
    have hm : matching_client (candidate_ip rreq) rreq.packet.chaddr o1.cfg
        = some ((i : Nat) : Int) := by
      have hrs1 : o1.cfg.range_start = cfg.range_start := by rw [hcfg]
      have hre1 : o1.cfg.range_end = cfg.range_end := by rw [hcfg]
      have := matching_client_hit (candidate_ip rreq) rreq.packet.chaddr o1.cfg
        ⟨add32 now1 42, dreq.packet.chaddr⟩
        (by rw [hcand, hh, hrs1]; omega)
        (by rw [hcand, hh, hre1]; omega)
        (by rw [hcand, hh, hrs1]; simp only [NUM_CLIENTS] at hsz; omega)
        (by rw [hcand, hh, hrs1, Nat.add_sub_cancel_left]; exact hslot)
        (by rw [hhw]; exact equal_chaddr_self _)
      rw [this, hcand, hh, hrs1, Nat.add_sub_cancel_left]
    have hsrv1 : rreq.server_ip = 0 ∨ rreq.server_ip = o1.cfg.server_ip := by
      rw [hcfg]
      exact hsrv
    have hcand0 : candidate_ip rreq ≠ 0 := by
      rw [hcand]
      exact hx0
    have hsend := send_reply_request_checked rreq o1.cfg now2 sent2 _ hr hsrv1 hcand0 hm
    rw [if_pos (Int.ofNat_nonneg i)] at hsend
    by_cases hs2 : 0 < sent2
    · obtain ⟨o2, ho2, hret, hmsg2, hy2, hcfg2⟩ := transmit_update
        (ack_request rreq (candidate_ip rreq)) o1.cfg i now2 sent2 _ hs2 hslot
      refine ⟨i, o2, hy, hslot, by rw [hsend]; exact ho2, hmsg2, by rw [hy2]; exact hcand,
        fun _ => ⟨hret, ?_⟩⟩
      have hil1 : i < o1.cfg.clients.length := by
        rw [hcfg]
        simpa using hilen
      have hl1 : o1.cfg.lease = cfg.lease := by rw [hcfg]
      rw [hcfg2]
      simp only [List.getElem?_set_self hil1, hl1,
        confirmed_expiry_eq now2 cfg.lease hnow hlease]
      rfl
    · obtain ⟨o2, ho2, _, hmsg2, hy2, _⟩ := transmit_no_update
        (ack_request rreq (candidate_ip rreq)) o1.cfg (i : Int) now2 sent2 (by omega)
      exact ⟨i, o2, hy, hslot, by rw [hsend]; exact ho2, hmsg2, by rw [hy2]; exact hcand,
        fun h => absurd h hs2⟩


set_option maxRecDepth 8000 in
/-- Witness of C17: the scenario of the spec.  The DISCOVER of
`AA:BB:CC:DD:EE:FF` at time 1000 is offered 192.168.0.1 and slot 0 expires at
1042; the REQUEST with `ciaddr` 192.168.0.1 at time 1005 is acknowledged and
slot 0 expires at 1605. -/
theorem offer_then_request_witness :
    (∃ (i : Nat) (o2 : Outcome),
      spec_offer.req.packet.yiaddr = htonl (spec_cfg.range_start + i) ∧
      spec_offer.cfg.clients[i]? = some ⟨add32 1000 42, (discover_from mac_a).packet.chaddr⟩ ∧
      send_reply (request_from mac_a 0x0100A8C0) spec_offer.cfg 1005 262 = some o2 ∧
      o2.req.reply_msg = DMSG_ACK ∧ o2.req.packet.yiaddr = spec_offer.req.packet.yiaddr ∧
      ((0 : Int) < 262 → o2.ret = true ∧
        o2.cfg.clients[i]? = some ⟨min (1005 + spec_cfg.lease) (2 ^ 32 - 1),
          (discover_from mac_a).packet.chaddr⟩)) ∧
    spec_offer.req.reply_msg = DMSG_OFFER ∧ spec_offer.req.packet.yiaddr = 0x0100A8C0 ∧
    spec_offer.cfg.clients[0]? = some ⟨1042, mac_a⟩ ∧
    Option.map (fun o => (o.ret, o.req.reply_msg, o.req.packet.yiaddr, o.cfg.clients[0]?))
        (send_reply (request_from mac_a 0x0100A8C0) spec_offer.cfg 1005 262)
      = some (true, DMSG_ACK, 0x0100A8C0, some ⟨1605, mac_a⟩) :=
  ⟨offer_then_request (discover_from mac_a) (request_from mac_a 0x0100A8C0) spec_cfg 1000 1005
      262 262 spec_offer (by decide) (by decide) (by decide) (by decide) (by decide) (by decide)
      (by decide) (by decide) (by decide) (by decide) (by decide) (by decide)
      (Or.inl (by decide)),
    by decide, by decide, by decide, by decide⟩


/-! ## Uniqueness of the hardware addresses in the lease table -/

theorem keys_set_invariant (ks : List (Nat × Nat)) (n i : Nat) (k : Nat × Nat)
    (hk : k ≠ (0, 0)) (hin : i < n)
    (hU : keys_unique ks) (hP : keys_packed ks) (hO : keys_unused_from n ks)
    (hbefore : ∀ j, j < i → ∃ kj, ks[j]? = some kj ∧ kj ≠ (0, 0) ∧ kj ≠ k)
    (hcase : ks[i]? = some k ∨ ks[i]? = some (0, 0) ∨
      ∀ j, j < n → ∃ kj, ks[j]? = some kj ∧ kj ≠ (0, 0) ∧ kj ≠ k) :
    keys_unique (ks.set i k) ∧ keys_packed (ks.set i k) ∧ keys_unused_from n (ks.set i k) := by
  have hother : ∀ y, y ≠ i → ks[y]? = some k → False := by
    intro y hy hyk
    rcases hcase with h | h | h
    · exact hy (hU y i k hyk h hk)
    · rcases Nat.lt_or_gt_of_ne hy with hlt | hgt
      · obtain ⟨kj, h1, _, h3⟩ := hbefore y hlt
        rw [hyk] at h1
        cases h1
        exact h3 rfl
      · exact hP i y (0, 0) k hgt h hyk hk rfl
    · by_cases hyn : y < n
      · obtain ⟨kj, h1, _, h3⟩ := h y hyn
        rw [hyk] at h1
        cases h1
        exact h3 rfl
      · exact hk (hO y k (by omega) hyk)
  have hat : ∀ a, (ks.set i k)[i]? = some a → a = k := by
    intro a ha
    by_cases hl : i < ks.length
    · rw [List.getElem?_set_self hl] at ha
      cases ha
      rfl
    · rw [List.getElem?_eq_none (by simpa using hl)] at ha
      cases ha
  refine ⟨?_, ?_, ?_⟩
  · intro x y a hx hy ha
    by_cases hxi : x = i
    · by_cases hyi : y = i
      · rw [hxi, hyi]
      · exfalso
        subst hxi
        have := hat a hx
        subst this
        rw [List.getElem?_set_ne (Ne.symm hyi)] at hy
        exact hother y hyi hy
    · by_cases hyi : y = i
      · exfalso
        subst hyi
        have := hat a hy
        subst this
        rw [List.getElem?_set_ne (Ne.symm hxi)] at hx
        exact hother x hxi hx
      · rw [List.getElem?_set_ne (Ne.symm hxi)] at hx
        rw [List.getElem?_set_ne (Ne.symm hyi)] at hy
        exact hU x y a hx hy ha
  · intro x y kx ky hxy hx hy hky
    by_cases hxi : x = i
    · subst hxi
      rw [hat kx hx]
      exact hk
    · rw [List.getElem?_set_ne (Ne.symm hxi)] at hx
      by_cases hyi : y = i
      · subst hyi
        obtain ⟨kj, h1, h2, _⟩ := hbefore x hxy
        rw [hx] at h1
        cases h1
        exact h2
      · rw [List.getElem?_set_ne (Ne.symm hyi)] at hy
        exact hP x y kx ky hxy hx hy hky
  · intro j kj hj hjk
    rw [List.getElem?_set_ne (by omega)] at hjk
    exact hO j kj hj hjk

theorem set_same {α : Type} (l : List α) (i : Nat) (a : α) (h : l[i]? = some a) :
    l.set i a = l := by
  apply List.ext_getElem?
  intro j
  by_cases hji : i = j
  · subst hji
    have hl : i < l.length := by
      by_contra hge
      rw [List.getElem?_eq_none (by omega)] at h
      cases h
    rw [List.getElem?_set_self hl, h]
  · rw [List.getElem?_set_ne hji]

theorem equal_chaddr_iff (a b : Chaddr) :
    equal_chaddr a b = true ↔ hw_key a = hw_key b := by
  simp [equal_chaddr, hw_key]

theorem equal_chaddr_false_iff (a b : Chaddr) :
    equal_chaddr a b = false ↔ hw_key a ≠ hw_key b := by
  rw [Ne, ← equal_chaddr_iff]
  simp

theorem hw_key_empty : hw_key empty = (0, 0) := rfl

theorem lease_keys_get (cfg : Config) (j : Nat) :
    (lease_keys cfg)[j]? = (cfg.clients[j]?).map fun c => hw_key c.chaddr := by
  unfold lease_keys
  rw [List.getElem?_map]


theorem select_slot_inv_case (req : Request) (cfg : Config) (now i : Nat)
    (h : select_slot req cfg now = some (some i)) :
    (∃ c, cfg.clients[i]? = some c ∧ usable req.packet.chaddr c = true) ∨
    (∀ j : Nat, (j : Int) < num_addr cfg →
      ∃ cj, cfg.clients[j]? = some cj ∧ usable req.packet.chaddr cj = false) := by
  unfold select_slot at h
  cases hs : scan req.packet.chaddr cfg.clients now (num_addr cfg).toNat 0 (-1) with
  | none => simp [hs] at h
  | some r =>
    obtain ⟨i', e'⟩ := r
    simp only [hs] at h
    obtain ⟨_, h2, h3, h4⟩ := scan_exit _ _ _ _ _ _ _ _ hs
    by_cases hge : (i' : Int) ≥ num_addr cfg
    · right
      intro j hj
      exact h3 j (Nat.zero_le _) (by omega)
    · left
      rw [if_neg hge] at h
      simp only [Option.some.injEq] at h
      subst h
      exact h4 (by omega)

theorem table_invariant_congr (cfg cfg1 : Config) (hk : lease_keys cfg1 = lease_keys cfg)
    (hn : num_addr cfg1 = num_addr cfg) (h : table_invariant cfg) : table_invariant cfg1 := by
  unfold table_invariant at *
  rw [hk, hn]
  exact h

theorem lease_keys_confirm (cfg : Config) (i e : Nat) (c : Client)
    (hc : cfg.clients[i]? = some c) :
    lease_keys ⟨cfg.server_ip, cfg.lease, cfg.range_start, cfg.range_end,
      cfg.clients.set i ⟨e, c.chaddr⟩⟩ = lease_keys cfg := by
  unfold lease_keys
  simp only [List.map_set]
  apply set_same
  rw [List.getElem?_map, hc]
  rfl

theorem assign_address_invariant (req : Request) (cfg : Config) (now : Nat)
    (hfit : (num_addr cfg).toNat ≤ cfg.clients.length)
    (hinv : table_invariant cfg)
    (hnz : equal_chaddr req.packet.chaddr empty = false) :
    ∃ ip cfg1, assign_address req cfg now = some (ip, cfg1) ∧ table_invariant cfg1 ∧
      cfg1.clients.length = cfg.clients.length ∧ cfg1.range_start = cfg.range_start ∧
      cfg1.range_end = cfg.range_end := by
  rcases assign_address_cases req cfg now hfit with ⟨_, ha⟩ | ⟨i, hsel, ha⟩
  · exact ⟨_, _, ha, hinv, rfl, rfl, rfl⟩
  · refine ⟨_, _, ha, ?_, by simp, rfl, rfl⟩
    obtain ⟨hi, _, hpre⟩ := select_slot_inv req cfg now i hsel
    obtain ⟨hU, hP, hO⟩ := hinv
    have hk : hw_key req.packet.chaddr ≠ (0, 0) := by
      rw [← hw_key_empty]
      exact (equal_chaddr_false_iff _ _).1 hnz
    have hconv : ∀ (j : Nat) (cj : Client), cfg.clients[j]? = some cj →
        usable req.packet.chaddr cj = false →
        ∃ kj, (lease_keys cfg)[j]? = some kj ∧ kj ≠ (0, 0) ∧ kj ≠ hw_key req.packet.chaddr := by
      intro j cj hcj hu
      obtain ⟨h1, h2⟩ := (usable_false_iff _ _).1 hu
      refine ⟨hw_key cj.chaddr, by rw [lease_keys_get, hcj]; rfl, ?_, ?_⟩
      · rw [← hw_key_empty]
        exact (equal_chaddr_false_iff _ _).1 h2
      · exact fun h => (equal_chaddr_false_iff _ _).1 h1 h.symm
    have hres := keys_set_invariant (lease_keys cfg) (num_addr cfg).toNat i
      (hw_key req.packet.chaddr) hk (by omega) hU hP hO
      (fun j hj => by
        obtain ⟨cj, hcj, hu⟩ := hpre j hj
        exact hconv j cj hcj hu)
      (by
        rcases select_slot_inv_case req cfg now i hsel with ⟨c, hc, hu⟩ | hall
        · rcases (usable_iff _ _).1 hu with he | he
          · left
            rw [lease_keys_get, hc]
            simp only [Option.map_some']
            rw [(equal_chaddr_iff _ _).1 he]
          · right
            left
            rw [lease_keys_get, hc]
            simp only [Option.map_some']
            rw [(equal_chaddr_iff _ _).1 he, hw_key_empty]
        · right
          right
          intro j hj
          obtain ⟨cj, hcj, hu⟩ := hall j (by omega)
          exact hconv j cj hcj hu)
    have hkeys : lease_keys ⟨cfg.server_ip, cfg.lease, cfg.range_start, cfg.range_end,
        cfg.clients.set i ⟨add32 now 42, req.packet.chaddr⟩⟩
        = (lease_keys cfg).set i (hw_key req.packet.chaddr) := by
      unfold lease_keys
      simp only [List.map_set]
    unfold table_invariant
    rw [hkeys]
    exact hres

theorem matching_client_total (ip : Nat) (hw : Chaddr) (cfg : Config)
    (hlen : cfg.clients.length = NUM_CLIENTS)
    (hsz : cfg.range_end - cfg.range_start < NUM_CLIENTS) :
    ∃ k, matching_client ip hw cfg = some k := by
  by_cases hr : cfg.range_start ≤ htonl ip ∧ htonl ip ≤ cfg.range_end
  · have hidx : htonl ip - cfg.range_start < cfg.clients.length := by
      rw [hlen]
      omega
    rcases matching_client_slot ip hw cfg _ hr.1 hr.2 (List.getElem?_eq_getElem hidx) with
      h | ⟨_, h⟩
    · exact ⟨_, h⟩
    · exact ⟨_, h⟩
  · exact ⟨_, matching_client_out_of_range ip hw cfg hr⟩

theorem transmit_invariant (req : Request) (cfg : Config) (k : Int) (now : Nat) (sent : Int)
    (hk : 0 ≤ k → ∃ c, cfg.clients[k.toNat]? = some c) (hinv : table_invariant cfg) :
    ∃ o, transmit req cfg k now sent = some o ∧ table_invariant o.cfg ∧
      o.cfg.clients.length = cfg.clients.length ∧ o.cfg.range_start = cfg.range_start ∧
      o.cfg.range_end = cfg.range_end := by
  by_cases h : sent > 0 ∧ k ≥ 0
  · obtain ⟨c, hc⟩ := hk h.2
    obtain ⟨i, rfl⟩ : ∃ i : Nat, k = (i : Int) := ⟨k.toNat, by omega⟩
    simp only [Int.toNat_ofNat] at hc
    obtain ⟨o, ho, _, _, _, hcfg⟩ := transmit_update req cfg i now sent c h.1 hc
    refine ⟨o, ho, ?_, by rw [hcfg]; simp, by rw [hcfg], by rw [hcfg]⟩
    rw [hcfg]
    exact table_invariant_congr cfg _ (lease_keys_confirm cfg i _ c hc) rfl hinv
  · obtain ⟨o, ho, _, _, _, hcfg⟩ := transmit_no_update req cfg k now sent h
    exact ⟨o, ho, by rw [hcfg]; exact hinv, by rw [hcfg], by rw [hcfg], by rw [hcfg]⟩

theorem send_reply_invariant (req : Request) (cfg : Config) (now : Nat) (sent : Int)
    (hlen : cfg.clients.length = NUM_CLIENTS)
    (hle : cfg.range_start ≤ cfg.range_end) (hre : cfg.range_end < 4294967296)
    (hsz : cfg.range_end - cfg.range_start < NUM_CLIENTS)
    (hinv : table_invariant cfg)
    (hnz : req.request_msg = DMSG_DISCOVER →
      equal_chaddr req.packet.chaddr empty = false) :
    ∃ o, send_reply req cfg now sent = some o ∧ table_invariant o.cfg ∧
      o.cfg.clients.length = cfg.clients.length ∧ o.cfg.range_start = cfg.range_start ∧
      o.cfg.range_end = cfg.range_end := by
  by_cases hd : req.request_msg = DMSG_DISCOVER
  · have hfit : (num_addr cfg).toNat ≤ cfg.clients.length := by
      rw [num_addr_eq cfg hle hre hsz, hlen]
      simp only [NUM_CLIENTS] at hsz ⊢
      omega
    obtain ⟨ip, cfg1, ha, hi1, hl1, hs1, he1⟩ :=
      assign_address_invariant req cfg now hfit hinv (hnz hd)
    obtain ⟨o, ho, hcfg, _⟩ := send_reply_discover_outcome req cfg now sent ip cfg1 hd ha
    exact ⟨o, ho, by rw [hcfg]; exact hi1, by rw [hcfg]; exact hl1, by rw [hcfg]; exact hs1,
      by rw [hcfg]; exact he1⟩
  · by_cases hr : req.request_msg = DMSG_REQUEST
    · by_cases hok : (req.server_ip = 0 ∨ req.server_ip = cfg.server_ip) ∧ candidate_ip req ≠ 0
      · obtain ⟨k, hm⟩ := matching_client_total (candidate_ip req) req.packet.chaddr cfg hlen hsz
        rw [send_reply_request_checked req cfg now sent k hr hok.1 hok.2 hm]
        have hkc : 0 ≤ k → ∃ c, cfg.clients[k.toNat]? = some c := by
          intro hk
          obtain ⟨_, _, _, c, hc, _⟩ := matching_client_nonneg _ _ _ _ hm hk
          exact ⟨c, hc⟩
        by_cases hk : k ≥ 0
        · rw [if_pos hk]
          exact transmit_invariant _ cfg k now sent hkc hinv
        · rw [if_neg hk]
          exact transmit_invariant _ cfg k now sent hkc hinv
      · rw [send_reply_request_refused req cfg now sent hr hok]
        exact transmit_invariant _ cfg (-1) now sent (fun h => absurd h (by decide)) hinv
    · unfold send_reply
      simp only []
      rw [if_neg hd, if_neg hr]
      exact ⟨_, rfl, hinv, rfl, rfl, rfl⟩


theorem run_requests_invariant :
    ∀ (events : List (Request × Nat × Int)) (cfg : Config),
      cfg.clients.length = NUM_CLIENTS → cfg.range_start ≤ cfg.range_end →
      cfg.range_end < 4294967296 → cfg.range_end - cfg.range_start < NUM_CLIENTS →
      table_invariant cfg →
      (∀ e ∈ events, e.1.request_msg = DMSG_DISCOVER →
        equal_chaddr e.1.packet.chaddr empty = false) →
      ∃ cfg1, run_requests cfg events = some cfg1 ∧ table_invariant cfg1 := by
  intro events
  induction events with
  | nil => intro cfg _ _ _ _ hinv _; exact ⟨cfg, rfl, hinv⟩
  | cons e rest ih =>
    intro cfg hlen hle hre hsz hinv hev
    obtain ⟨req, now, sent⟩ := e
    obtain ⟨o, ho, hi1, hl1, hs1, he1⟩ := send_reply_invariant req cfg now sent hlen hle hre hsz
      hinv (hev (req, now, sent) (List.mem_cons_self _ _))
    obtain ⟨cfg1, hrun, hinv1⟩ := ih o.cfg (by rw [hl1]; exact hlen) (by rw [hs1, he1]; exact hle)
      (by rw [he1]; exact hre) (by rw [hs1, he1]; exact hsz) hi1
      (fun x hx => hev x (List.mem_cons_of_mem _ hx))
    exact ⟨cfg1, by simp only [run_requests, ho, hrun], hinv1⟩

theorem table_invariant_empty (cfg : Config)
    (hempty : ∀ c ∈ cfg.clients, equal_chaddr c.chaddr empty = true) : table_invariant cfg := by
  have hz : ∀ (j : Nat) (k : Nat × Nat), (lease_keys cfg)[j]? = some k → k = (0, 0) := by
    intro j k hk
    rw [lease_keys_get] at hk
    cases hc : cfg.clients[j]? with
    | none => rw [hc] at hk; cases hk
    | some c =>
      rw [hc] at hk
      simp only [Option.map_some', Option.some.injEq] at hk
      rw [← hk, ← hw_key_empty]
      exact (equal_chaddr_iff _ _).1 (hempty c (List.getElem?_mem hc))
  exact ⟨fun i j k hi _ hk => absurd (hz i k hi) hk,
    fun i j ki kj _ _ hj hkj => absurd (hz j kj hj) hkj, fun j k _ hk => hz j k hk⟩

theorem unique_leases_of_invariant (cfg : Config) (h : table_invariant cfg) :
    unique_leases cfg := by
  intro i j ci cj hi hj hne heq
  refine h.1 i j (hw_key ci.chaddr) (by rw [lease_keys_get, hi]; rfl) ?_ ?_
  · rw [lease_keys_get, hj, (equal_chaddr_iff _ _).1 heq]
    rfl
  · rw [← hw_key_empty]
    exact (equal_chaddr_false_iff _ _).1 hne

/-- C16, as the code has it: starting from a table of `NUM_CLIENTS` unused
slots with a pool `range_start <= range_end` of at most 32 addresses, after
any sequence of datagrams processed by `send_reply` at any clock values, in
which every DISCOVER carries a hardware address whose first two words are not
both zero, the run is defined and no two slots in use store the same hardware
address. -/
theorem unique_leases_invariant (cfg0 : Config) (events : List (Request × Nat × Int))
    (hlen : cfg0.clients.length = NUM_CLIENTS)
    (hle : cfg0.range_start ≤ cfg0.range_end) (hre : cfg0.range_end < 2 ^ 32)
    (hsz : cfg0.range_end - cfg0.range_start < NUM_CLIENTS)
    (hempty : ∀ c ∈ cfg0.clients, equal_chaddr c.chaddr empty = true)
    (hev : ∀ e ∈ events, e.1.request_msg = DMSG_DISCOVER →
      equal_chaddr e.1.packet.chaddr empty = false) :
    ∃ cfg, run_requests cfg0 events = some cfg ∧ unique_leases cfg := by
  obtain ⟨cfg, hrun, hinv⟩ := run_requests_invariant events cfg0 hlen hle hre hsz
    (table_invariant_empty cfg0 hempty) hev
  exact ⟨cfg, hrun, unique_leases_of_invariant cfg hinv⟩

set_option maxRecDepth 8000 in
/-- Witness of C16 as amended: three clients discover, one of them requests
its address and discovers again. -/
theorem unique_leases_invariant_witness :
    ∃ cfg, run_requests (sample_cfg 600 [])
        [(discover_from mac_a, 0, 262), (discover_from mac_b, 0, 262),
          (discover_from mac_c, 50, 262), (request_from mac_a 0x0200A8C0, 60, 262),
          (discover_from mac_a, 70, 262)] = some cfg ∧ unique_leases cfg :=
  unique_leases_invariant (sample_cfg 600 [])
    [(discover_from mac_a, 0, 262), (discover_from mac_b, 0, 262),
      (discover_from mac_c, 50, 262), (request_from mac_a 0x0200A8C0, 60, 262),
      (discover_from mac_a, 70, 262)]
    (by decide) (by decide) (by decide) (by decide) (by decide) (by decide)

set_option maxRecDepth 8000 in
/-- Counterexample to C16 as stated: on the empty table with a pool of three
addresses the DISCOVERs of `AA:BB:CC:DD:EE:FF` and `11:22:33:44:55:66` at time
0, of `21:22:33:44:55:66` at time 50, of the all-zero hardware address at
time 60 (it takes over the expired slot 1 and so marks it unused) and again of
`21:22:33:44:55:66` at time 70 leave that client in the slots 1 and 2. -/
theorem unique_leases_fails_with_zero_address :
    run_requests (sample_cfg 600 [])
        [(discover_from mac_a, 0, 262), (discover_from mac_b, 0, 262),
          (discover_from mac_c, 50, 262), (discover_from mac_zero, 60, 262),
          (discover_from mac_c, 70, 262)]
      = some (sample_cfg 600 [⟨42, mac_a⟩, ⟨112, mac_c⟩, ⟨92, mac_c⟩]) ∧
    ¬ unique_leases (sample_cfg 600 [⟨42, mac_a⟩, ⟨112, mac_c⟩, ⟨92, mac_c⟩]) := by
  refine ⟨by decide, fun hU => ?_⟩
  have h := hU 1 2 ⟨112, mac_c⟩ ⟨92, mac_c⟩ (by decide) (by decide) (by decide) (by decide)
  exact absurd h (by decide)


/-! ## The provisional hold near the end of the clock range -/

theorem provisional_expiry_not_earlier (now : Nat) (h : now ≤ 4294967295 - 42) :
    now ≤ add32 now 42 := by
  unfold add32
  omega

set_option maxRecDepth 8000 in
/-- C21 (the code departs from the claim): at `now = 2^32 - 1` the DISCOVER of
`AA:BB:CC:DD:EE:FF` on the empty table succeeds (192.168.0.2 is returned) and
slot 0 is given the expiry `(now + 42) mod 2^32 = 41`, which is earlier than
`now`: in the state that `assign_address` has just produced the slot already
counts as expired, while the lease confirmation of `send_reply` computes its
expiry with a guard against this wrap. -/
theorem assign_address_expiry_wraps :
    assign_address (discover_from mac_a) (sample_cfg 600 []) 4294967295
      = some (0x0200A8C0, sample_cfg 600 [⟨41, mac_a⟩]) ∧
    (41 : Nat) < 4294967295 ∧
    stale 4294967295 ⟨41, mac_a⟩ = true ∧
    confirmed_expiry 4294967295 42 = 4294967295 := by
  decide

/-! ## Table indices -/

theorem pool_span_of_num_addr (cfg : Config) (hre : cfg.range_end < 4294967296)
    (hn1 : 1 ≤ num_addr cfg) (hn32 : num_addr cfg ≤ 32) :
    cfg.range_end - cfg.range_start < NUM_CLIENTS := by
  unfold num_addr toInt32 add32 sub32 at hn1 hn32
  simp only [NUM_CLIENTS]
  split at hn1 <;> split at hn32 <;> omega

theorem matching_client_range (ip : Nat) (hw : Chaddr) (cfg : Config) (k : Int)
    (hlen : cfg.clients.length = NUM_CLIENTS)
    (h : matching_client ip hw cfg = some k) : -1 ≤ k ∧ k < 32 := by
  by_cases hk : 0 ≤ k
  · obtain ⟨_, _, _, c, hc, _⟩ := matching_client_nonneg ip hw cfg k h hk
    have hl : k.toNat < cfg.clients.length := by
      by_contra hge
      rw [List.getElem?_eq_none (by omega)] at hc
      cases hc
    rw [hlen] at hl
    simp only [NUM_CLIENTS] at hl
    omega
  · unfold matching_client at h
    simp only [] at h
    split at h
    · split at h
      · cases h
      · split at h
        · simp only [Option.some.injEq] at h
          omega
        · simp only [Option.some.injEq] at h
          omega
    · simp only [Option.some.injEq] at h
      omega

theorem transmit_total (req : Request) (cfg : Config) (k : Int) (now : Nat) (sent : Int)
    (hk : 0 ≤ k → ∃ c, cfg.clients[k.toNat]? = some c) :
    ∃ o, transmit req cfg k now sent = some o := by
  by_cases h : sent > 0 ∧ k ≥ 0
  · obtain ⟨c, hc⟩ := hk h.2
    obtain ⟨i, rfl⟩ : ∃ i : Nat, k = (i : Int) := ⟨k.toNat, by omega⟩
    simp only [Int.toNat_ofNat] at hc
    obtain ⟨o, ho, _⟩ := transmit_update req cfg i now sent c h.1 hc
    exact ⟨o, ho⟩
  · obtain ⟨o, ho, _⟩ := transmit_no_update req cfg k now sent h
    exact ⟨o, ho⟩

theorem assign_address_total (req : Request) (cfg : Config) (now : Nat)
    (hfit : (num_addr cfg).toNat ≤ cfg.clients.length) :
    ∃ ip cfg1, assign_address req cfg now = some (ip, cfg1) := by
  rcases assign_address_cases req cfg now hfit with ⟨_, ha⟩ | ⟨i, _, ha⟩
  · exact ⟨_, _, ha⟩
  · exact ⟨_, _, ha⟩

theorem send_reply_total (req : Request) (cfg : Config) (now : Nat) (sent : Int)
    (hlen : cfg.clients.length = NUM_CLIENTS)
    (hfit : (num_addr cfg).toNat ≤ cfg.clients.length)
    (hsz : cfg.range_end - cfg.range_start < NUM_CLIENTS) :
    ∃ o, send_reply req cfg now sent = some o := by
  by_cases hd : req.request_msg = DMSG_DISCOVER
  · obtain ⟨ip, cfg1, ha⟩ := assign_address_total req cfg now hfit
    obtain ⟨o, ho, _⟩ := send_reply_discover_outcome req cfg now sent ip cfg1 hd ha
    exact ⟨o, ho⟩
  · by_cases hr : req.request_msg = DMSG_REQUEST
    · by_cases hok : (req.server_ip = 0 ∨ req.server_ip = cfg.server_ip) ∧ candidate_ip req ≠ 0
      · obtain ⟨k, hm⟩ := matching_client_total (candidate_ip req) req.packet.chaddr cfg hlen hsz
        rw [send_reply_request_checked req cfg now sent k hr hok.1 hok.2 hm]
        have hkc : 0 ≤ k → ∃ c, cfg.clients[k.toNat]? = some c := by
          intro hk
          obtain ⟨_, _, _, c, hc, _⟩ := matching_client_nonneg _ _ _ _ hm hk
          exact ⟨c, hc⟩
        by_cases hk : k ≥ 0
        · rw [if_pos hk]
          exact transmit_total _ cfg k now sent hkc
        · rw [if_neg hk]
          exact transmit_total _ cfg k now sent hkc
      · rw [send_reply_request_refused req cfg now sent hr hok]
        exact transmit_total _ cfg (-1) now sent (fun h => absurd h (by decide))
    · unfold send_reply
      simp only []
      rw [if_neg hd, if_neg hr]
      exact ⟨_, rfl⟩

/-- C22: when the table has `NUM_CLIENTS` slots and the pool size
`range_end - range_start + 1` (the value `num_addr`, computed on `uint32_t`) is
between 1 and 32, no index outside `0..31` is used: `assign_address`,
`matching_client` and `send_reply` are defined for every request, every
address, every clock value and every result of `sendto`; the slot that
`assign_address` selects has an index below 32 and the index that
`matching_client` returns is `-1` or one of `0..31`. -/
theorem table_indexing_in_bounds (req : Request) (cfg : Config) (now : Nat) (sent : Int)
    (ip : Nat) (hw : Chaddr)
    (hlen : cfg.clients.length = NUM_CLIENTS) (hre : cfg.range_end < 2 ^ 32)
    (hn1 : 1 ≤ num_addr cfg) (hn32 : num_addr cfg ≤ NUM_CLIENTS) :
    (∃ ip1 cfg1, assign_address req cfg now = some (ip1, cfg1)) ∧
    (∀ i, select_slot req cfg now = some (some i) → i < NUM_CLIENTS) ∧
    (∃ k, matching_client ip hw cfg = some k ∧ -1 ≤ k ∧ k < NUM_CLIENTS) ∧
    (∃ o, send_reply req cfg now sent = some o) := by
  have hn32' : num_addr cfg ≤ 32 := hn32
  have hfit : (num_addr cfg).toNat ≤ cfg.clients.length := by
    rw [hlen]
    simp only [NUM_CLIENTS]
    omega
  have hsz := pool_span_of_num_addr cfg hre hn1 hn32'
  refine ⟨assign_address_total req cfg now hfit, ?_, ?_, send_reply_total req cfg now sent hlen hfit hsz⟩
  · intro i hi
    obtain ⟨h1, _, _⟩ := select_slot_inv req cfg now i hi
    simp only [NUM_CLIENTS]
    omega
  · obtain ⟨k, hk⟩ := matching_client_total ip hw cfg hlen hsz
    exact ⟨k, hk, matching_client_range ip hw cfg k hlen hk⟩

/-- Witness of C22: the sample pool of three addresses. -/
theorem table_indexing_in_bounds_witness :
    (∃ ip1 cfg1, assign_address (discover_from mac_a) (sample_cfg 600 []) 1000
      = some (ip1, cfg1)) ∧
    (∀ i, select_slot (discover_from mac_a) (sample_cfg 600 []) 1000 = some (some i) →
      i < NUM_CLIENTS) ∧
    (∃ k, matching_client 0x0200A8C0 mac_a (sample_cfg 600 []) = some k ∧ -1 ≤ k ∧
      k < NUM_CLIENTS) ∧
    (∃ o, send_reply (discover_from mac_a) (sample_cfg 600 []) 1000 262 = some o) :=
  table_indexing_in_bounds (discover_from mac_a) (sample_cfg 600 []) 1000 262 0x0200A8C0 mac_a
    (by decide) (by decide) (by decide) (by decide)


/-! ## What `send_reply` does to the lease table -/

theorem transmit_cfg_cases (req : Request) (cfg : Config) (k : Int) (now : Nat) (sent : Int)
    (o : Outcome) (h : transmit req cfg k now sent = some o) :
    (¬ (sent > 0 ∧ k ≥ 0) ∧ o.ret = false ∧ o.cfg = cfg) ∨
    (sent > 0 ∧ k ≥ 0 ∧ o.ret = true ∧ ∃ c, cfg.clients[k.toNat]? = some c ∧
      o.cfg = ⟨cfg.server_ip, cfg.lease, cfg.range_start, cfg.range_end,
        cfg.clients.set k.toNat ⟨confirmed_expiry now cfg.lease, c.chaddr⟩⟩) := by
  by_cases hu : sent > 0 ∧ k ≥ 0
  · right
    obtain ⟨i, rfl⟩ : ∃ i : Nat, k = (i : Int) := ⟨k.toNat, by omega⟩
    cases hc : cfg.clients[i]? with
    | none =>
      unfold transmit at h
      simp only [] at h
      rw [if_pos hu] at h
      simp only [Int.toNat_ofNat, hc] at h
      cases h
    | some c =>
      obtain ⟨o1, ho1, hret, _, _, hcfg⟩ := transmit_update req cfg i now sent c hu.1 hc
      rw [h] at ho1
      cases ho1
      exact ⟨hu.1, hu.2, hret, c, by simpa using hc, by simpa using hcfg⟩
  · left
    obtain ⟨o1, ho1, hret, _, _, hcfg⟩ := transmit_no_update req cfg k now sent hu
    rw [h] at ho1
    cases ho1
    exact ⟨hu, hret, hcfg⟩

theorem send_reply_discover_cfg (req : Request) (cfg : Config) (now : Nat) (sent : Int)
    (o : Outcome) (hd : req.request_msg = DMSG_DISCOVER)
    (h : send_reply req cfg now sent = some o) :
    o.cfg = cfg ∨ ∃ i, select_slot req cfg now = some (some i) ∧
      o.cfg = ⟨cfg.server_ip, cfg.lease, cfg.range_start, cfg.range_end,
        cfg.clients.set i ⟨add32 now 42, req.packet.chaddr⟩⟩ := by
  cases ha : assign_address req cfg now with
  | none =>
    have ha' : assign_address { req with reply_msg := DMSG_NAK, packet := { req.packet with yiaddr := 0 } } cfg now = none := ha
    unfold send_reply at h
    simp only [] at h
    rw [if_pos hd, ha'] at h
    cases h
  | some r =>
    obtain ⟨ip, cfg1⟩ := r
    obtain ⟨o1, ho1, hcfg, _⟩ := send_reply_discover_outcome req cfg now sent ip cfg1 hd ha
    rw [h] at ho1
    cases ho1
    cases hsel : select_slot req cfg now with
    | none => simp [assign_address, hsel] at ha
    | some r1 =>
      cases r1 with
      | none =>
        left
        simp only [assign_address, hsel, Option.some.injEq, Prod.mk.injEq] at ha
        rw [hcfg, ← ha.2]
      | some i =>
        right
        rw [assign_address_of_select req cfg now i hsel] at ha
        simp only [Option.some.injEq, Prod.mk.injEq] at ha
        exact ⟨i, rfl, by rw [hcfg, ← ha.2]⟩

theorem send_reply_request_cfg (req : Request) (cfg : Config) (now : Nat) (sent : Int)
    (o : Outcome) (hr : req.request_msg = DMSG_REQUEST)
    (h : send_reply req cfg now sent = some o) :
    (¬ (sent > 0) → o.ret = false) ∧
    ((¬ (sent > 0) ∨ ¬ (o.ret = true)) → o.cfg = cfg) ∧
    (o.cfg = cfg ∨ ∃ (i : Nat) (c : Client),
      matching_client (candidate_ip req) req.packet.chaddr cfg = some (i : Int) ∧
      cfg.clients[i]? = some c ∧
      o.cfg = ⟨cfg.server_ip, cfg.lease, cfg.range_start, cfg.range_end,
        cfg.clients.set i ⟨confirmed_expiry now cfg.lease, c.chaddr⟩⟩) := by
  have key : ∀ (r : Request) (k : Int), transmit r cfg k now sent = some o →
      (0 ≤ k → matching_client (candidate_ip req) req.packet.chaddr cfg = some k) →
      (¬ (sent > 0) → o.ret = false) ∧
      ((¬ (sent > 0) ∨ ¬ (o.ret = true)) → o.cfg = cfg) ∧
      (o.cfg = cfg ∨ ∃ (i : Nat) (c : Client),
        matching_client (candidate_ip req) req.packet.chaddr cfg = some (i : Int) ∧
        cfg.clients[i]? = some c ∧
        o.cfg = ⟨cfg.server_ip, cfg.lease, cfg.range_start, cfg.range_end,
          cfg.clients.set i ⟨confirmed_expiry now cfg.lease, c.chaddr⟩⟩) := by
    intro r k ht hm
    rcases transmit_cfg_cases r cfg k now sent o ht with ⟨hu, hret, hcfg⟩ | ⟨hs, hk, hret, c, hc, hcfg⟩
    · exact ⟨fun _ => hret, fun _ => hcfg, Or.inl hcfg⟩
    · obtain ⟨i, rfl⟩ : ∃ i : Nat, k = (i : Int) := ⟨k.toNat, by omega⟩
      simp only [Int.toNat_ofNat] at hc hcfg
      refine ⟨fun hn => absurd hs hn, fun hn => ?_, Or.inr ⟨i, c, hm hk, hc, hcfg⟩⟩
      rcases hn with hn | hn
      · exact absurd hs hn
      · exact absurd hret hn
  by_cases hok : (req.server_ip = 0 ∨ req.server_ip = cfg.server_ip) ∧ candidate_ip req ≠ 0
  · have hex : matching_client (candidate_ip req) req.packet.chaddr cfg = none ∨
        ∃ k, matching_client (candidate_ip req) req.packet.chaddr cfg = some k := by
      cases matching_client (candidate_ip req) req.packet.chaddr cfg with
      | none => exact Or.inl rfl
      | some k => exact Or.inr ⟨k, rfl⟩
    rcases hex with hm | ⟨k, hm⟩
    · have h1 : ¬ (req.request_msg = DMSG_DISCOVER) := by rw [hr]; decide
      have hip' : candidate_ip { req with reply_msg := DMSG_NAK, packet := { req.packet with yiaddr := 0 } } ≠ 0 := hok.2
      have hm' : matching_client (candidate_ip { req with reply_msg := DMSG_NAK, packet := { req.packet with yiaddr := 0 } }) req.packet.chaddr cfg = none := hm
      unfold send_reply at h
      simp only [] at h
      rw [if_neg h1, if_pos hr, if_pos hok.1, if_pos hip', hm'] at h
      cases h
    · rw [send_reply_request_checked req cfg now sent k hr hok.1 hok.2 hm] at h
      by_cases hk : k ≥ 0
      · rw [if_pos hk] at h
        exact key _ k h (fun _ => hm)
      · rw [if_neg hk] at h
        exact key _ k h (fun h0 => absurd h0 hk)
  · rw [send_reply_request_refused req cfg now sent hr hok] at h
    exact key _ (-1) h (fun h0 => absurd h0 (by decide))

theorem send_reply_other_cfg (req : Request) (cfg : Config) (now : Nat) (sent : Int)
    (o : Outcome) (hd : ¬ req.request_msg = DMSG_DISCOVER) (hr : ¬ req.request_msg = DMSG_REQUEST)
    (h : send_reply req cfg now sent = some o) : o.cfg = cfg := by
  unfold send_reply at h
  simp only [] at h
  rw [if_neg hd, if_neg hr] at h
  cases h
  rfl

theorem send_reply_request_total (req : Request) (cfg : Config) (now : Nat) (sent : Int)
    (hr : req.request_msg = DMSG_REQUEST)
    (hlen : cfg.clients.length = NUM_CLIENTS)
    (hsz : cfg.range_end - cfg.range_start < NUM_CLIENTS) :
    ∃ o, send_reply req cfg now sent = some o := by
  by_cases hok : (req.server_ip = 0 ∨ req.server_ip = cfg.server_ip) ∧ candidate_ip req ≠ 0
  · obtain ⟨k, hm⟩ := matching_client_total (candidate_ip req) req.packet.chaddr cfg hlen hsz
    rw [send_reply_request_checked req cfg now sent k hr hok.1 hok.2 hm]
    have hkc : 0 ≤ k → ∃ c, cfg.clients[k.toNat]? = some c := by
      intro hk
      obtain ⟨_, _, _, c, hc, _⟩ := matching_client_nonneg _ _ _ _ hm hk
      exact ⟨c, hc⟩
    by_cases hk : k ≥ 0
    · rw [if_pos hk]
      exact transmit_total _ cfg k now sent hkc
    · rw [if_neg hk]
      exact transmit_total _ cfg k now sent hkc
  · rw [send_reply_request_refused req cfg now sent hr hok]
    exact transmit_total _ cfg (-1) now sent (fun h => absurd h (by decide))

theorem set_expiry_chaddr (cs : List Client) (i e : Nat) (c : Client)
    (hc : cs[i]? = some c) :
    (cs.set i ⟨e, c.chaddr⟩).map Client.chaddr = cs.map Client.chaddr := by
  apply List.ext_getElem?
  intro j
  rw [List.getElem?_map, List.getElem?_map]
  by_cases hj : i = j
  · subst hj
    have hi : i < cs.length := by
      by_contra hge
      rw [List.getElem?_eq_none (by omega)] at hc
      cases hc
    rw [List.getElem?_set_self hi, hc]
    rfl
  · rw [List.getElem?_set_ne hj]

/-- C24: for every REQUEST (on a table of `NUM_CLIENTS` slots and a pool of
at most 32 addresses) `send_reply` is defined; when `sendto` reports failure
or zero bytes (`sent <= 0`) it returns `false` and leaves the configuration as
it was; and in every case the configuration is either unchanged or differs
only in the expiry of the one slot that `matching_client` found, so the
hardware addresses of all slots are those from before. -/
theorem request_confirms_only_when_sent (req : Request) (cfg : Config) (now : Nat) (sent : Int)
    (hmsg : req.request_msg = DMSG_REQUEST)
    (hlen : cfg.clients.length = NUM_CLIENTS)
    (hsz : cfg.range_end - cfg.range_start < NUM_CLIENTS) :
    ∃ o, send_reply req cfg now sent = some o ∧
      (sent ≤ 0 → o.ret = false ∧ o.cfg = cfg) ∧
      (o.cfg = cfg ∨ ∃ (i : Nat) (c : Client),
        matching_client (candidate_ip req) req.packet.chaddr cfg = some (i : Int) ∧
        cfg.clients[i]? = some c ∧
        o.cfg = ⟨cfg.server_ip, cfg.lease, cfg.range_start, cfg.range_end,
          cfg.clients.set i ⟨confirmed_expiry now cfg.lease, c.chaddr⟩⟩) ∧
      o.cfg.clients.map Client.chaddr = cfg.clients.map Client.chaddr := by
  obtain ⟨o, ho⟩ := send_reply_request_total req cfg now sent hmsg hlen hsz
  obtain ⟨h1, h2, h3⟩ := send_reply_request_cfg req cfg now sent o hmsg ho
  refine ⟨o, ho, fun hs => ⟨h1 (by omega), h2 (Or.inl (by omega))⟩, h3, ?_⟩
  rcases h3 with h3 | ⟨i, c, _, hc, hcfg⟩
  · rw [h3]
  · rw [hcfg]
    exact set_expiry_chaddr cfg.clients i _ c hc

set_option maxRecDepth 8000 in
/-- Witness of C24: the REQUEST of the client that holds slot 0, with a
failed `sendto`. -/
theorem request_confirms_only_when_sent_witness :
    ∃ o, send_reply (request_from mac_a 0x0200A8C0) (sample_cfg 600 [⟨42, mac_a⟩]) 10 (-1)
        = some o ∧
      ((-1 : Int) ≤ 0 → o.ret = false ∧ o.cfg = sample_cfg 600 [⟨42, mac_a⟩]) ∧
      (o.cfg = sample_cfg 600 [⟨42, mac_a⟩] ∨ ∃ (i : Nat) (c : Client),
        matching_client (candidate_ip (request_from mac_a 0x0200A8C0))
          (request_from mac_a 0x0200A8C0).packet.chaddr (sample_cfg 600 [⟨42, mac_a⟩])
          = some (i : Int) ∧
        (sample_cfg 600 [⟨42, mac_a⟩]).clients[i]? = some c ∧
        o.cfg = ⟨(sample_cfg 600 [⟨42, mac_a⟩]).server_ip, (sample_cfg 600 [⟨42, mac_a⟩]).lease,
          (sample_cfg 600 [⟨42, mac_a⟩]).range_start, (sample_cfg 600 [⟨42, mac_a⟩]).range_end,
          (sample_cfg 600 [⟨42, mac_a⟩]).clients.set i
            ⟨confirmed_expiry 10 (sample_cfg 600 [⟨42, mac_a⟩]).lease, c.chaddr⟩⟩) ∧
      o.cfg.clients.map Client.chaddr
        = (sample_cfg 600 [⟨42, mac_a⟩]).clients.map Client.chaddr :=
  request_confirms_only_when_sent (request_from mac_a 0x0200A8C0)
    (sample_cfg 600 [⟨42, mac_a⟩]) 10 (-1) (by decide) (by decide) (by decide)


/-! ## Slots in use over a run -/

theorem packed_leases_of_invariant (cfg : Config) (h : table_invariant cfg) :
    packed_leases cfg := by
  intro i j ci cj hij hi hj hne
  rw [equal_chaddr_false_iff, hw_key_empty] at hne ⊢
  exact h.2.1 i j (hw_key ci.chaddr) (hw_key cj.chaddr) hij
    (by rw [lease_keys_get, hi]; rfl) (by rw [lease_keys_get, hj]; rfl) hne

theorem leases_persist_refl (cfg : Config) : leases_persist cfg cfg :=
  fun _ c hc hne => ⟨c, hc, hne⟩

theorem leases_persist_trans (a b c : Config) (hab : leases_persist a b)
    (hbc : leases_persist b c) : leases_persist a c := by
  intro j x hx hne
  obtain ⟨y, hy, hney⟩ := hab j x hx hne
  exact hbc j y hy hney

theorem leases_persist_set (cfg cfg1 : Config) (i : Nat) (x : Client)
    (hcfg : cfg1.clients = cfg.clients.set i x)
    (hx : ∀ c, cfg.clients[i]? = some c → equal_chaddr c.chaddr empty = false →
      equal_chaddr x.chaddr empty = false) :
    leases_persist cfg cfg1 := by
  intro j c hc hne
  rw [hcfg]
  by_cases hj : i = j
  · subst hj
    have hi : i < cfg.clients.length := by
      by_contra hge
      rw [List.getElem?_eq_none (by omega)] at hc
      cases hc
    exact ⟨x, List.getElem?_set_self hi, hx c hc hne⟩
  · exact ⟨c, by rw [List.getElem?_set_ne hj]; exact hc, hne⟩

theorem send_reply_persist (req : Request) (cfg : Config) (now : Nat) (sent : Int)
    (o : Outcome) (h : send_reply req cfg now sent = some o)
    (hnz : req.request_msg = DMSG_DISCOVER → equal_chaddr req.packet.chaddr empty = false) :
    leases_persist cfg o.cfg := by
  by_cases hd : req.request_msg = DMSG_DISCOVER
  · rcases send_reply_discover_cfg req cfg now sent o hd h with hc | ⟨i, _, hc⟩
    · rw [hc]
      exact leases_persist_refl cfg
    · exact leases_persist_set cfg o.cfg i _ (by rw [hc]) (fun _ _ _ => hnz hd)
  · by_cases hr : req.request_msg = DMSG_REQUEST
    · rcases (send_reply_request_cfg req cfg now sent o hr h).2.2 with hc | ⟨i, c, _, hci, hc⟩
      · rw [hc]
        exact leases_persist_refl cfg
      · refine leases_persist_set cfg o.cfg i _ (by rw [hc]) ?_
        intro c1 hc1 hne
        rw [hci] at hc1
        cases hc1
        exact hne
    · rw [send_reply_other_cfg req cfg now sent o hd hr h]
      exact leases_persist_refl cfg

theorem run_requests_append :
    ∀ (before after : List (Request × Nat × Int)) (cfg : Config),
      run_requests cfg (before ++ after)
        = (run_requests cfg before).bind fun mid => run_requests mid after := by
  intro before after
  induction before with
  | nil => intro cfg; rfl
  | cons e rest ih =>
    intro cfg
    obtain ⟨req, now, sent⟩ := e
    cases ho : send_reply req cfg now sent with
    | none => simp [run_requests, ho]
    | some o => simp [run_requests, ho, ih]

theorem run_requests_packed :
    ∀ (events : List (Request × Nat × Int)) (cfg : Config),
      cfg.clients.length = NUM_CLIENTS → cfg.range_start ≤ cfg.range_end →
      cfg.range_end < 4294967296 → cfg.range_end - cfg.range_start < NUM_CLIENTS →
      table_invariant cfg →
      (∀ e ∈ events, e.1.request_msg = DMSG_DISCOVER →
        equal_chaddr e.1.packet.chaddr empty = false) →
      ∃ cfg1, run_requests cfg events = some cfg1 ∧ table_invariant cfg1 ∧
        cfg1.clients.length = NUM_CLIENTS ∧ cfg1.range_start = cfg.range_start ∧
        cfg1.range_end = cfg.range_end ∧ leases_persist cfg cfg1 := by
  intro events
  induction events with
  | nil => intro cfg hlen _ _ _ hinv _; exact ⟨cfg, rfl, hinv, hlen, rfl, rfl, leases_persist_refl cfg⟩
  | cons e rest ih =>
    intro cfg hlen hle hre hsz hinv hev
    obtain ⟨req, now, sent⟩ := e
    have hnz := hev (req, now, sent) (List.mem_cons_self _ _)
    obtain ⟨o, ho, hi1, hl1, hs1, he1⟩ := send_reply_invariant req cfg now sent hlen hle hre hsz
      hinv hnz
    obtain ⟨cfg1, hrun, hinv1, hl2, hs2, he2, hp⟩ := ih o.cfg (by rw [hl1]; exact hlen)
      (by rw [hs1, he1]; exact hle) (by rw [he1]; exact hre) (by rw [hs1, he1]; exact hsz) hi1
      (fun x hx => hev x (List.mem_cons_of_mem _ hx))
    exact ⟨cfg1, by simp only [run_requests, ho, hrun], hinv1, hl2, by rw [hs2, hs1],
      by rw [he2, he1],
      leases_persist_trans cfg o.cfg cfg1 (send_reply_persist req cfg now sent o ho hnz) hp⟩

/-- C23: starting from a table of `NUM_CLIENTS` unused slots with a pool
`range_start <= range_end` of at most 32 addresses, after any sequence of
datagrams processed by `send_reply` at any clock values, in which every
DISCOVER carries a hardware address whose first two words are not both zero,
the run is defined and no unused slot has a lower index than a slot in use;
and every slot that is in use at some point of the run (after the datagrams
`before`) is still in use at its end. -/
theorem in_use_slots_form_prefix (cfg0 : Config) (before after : List (Request × Nat × Int))
    (hlen : cfg0.clients.length = NUM_CLIENTS)
    (hle : cfg0.range_start ≤ cfg0.range_end) (hre : cfg0.range_end < 2 ^ 32)
    (hsz : cfg0.range_end - cfg0.range_start < NUM_CLIENTS)
    (hempty : ∀ c ∈ cfg0.clients, equal_chaddr c.chaddr empty = true)
    (hev : ∀ e ∈ before ++ after, e.1.request_msg = DMSG_DISCOVER →
      equal_chaddr e.1.packet.chaddr empty = false) :
    ∃ mid cfg, run_requests cfg0 before = some mid ∧
      run_requests cfg0 (before ++ after) = some cfg ∧
      packed_leases cfg ∧ leases_persist mid cfg := by
  obtain ⟨mid, hrun1, hinv1, hl1, hs1, he1, _⟩ := run_requests_packed before cfg0 hlen hle hre hsz
    (table_invariant_empty cfg0 hempty)
    (fun e he => hev e (List.mem_append_left _ he))
  obtain ⟨cfg, hrun2, hinv2, _, _, _, hp⟩ := run_requests_packed after mid hl1
    (by rw [hs1, he1]; exact hle) (by rw [he1]; exact hre) (by rw [hs1, he1]; exact hsz) hinv1
    (fun e he => hev e (List.mem_append_right _ he))
  refine ⟨mid, cfg, hrun1, ?_, packed_leases_of_invariant cfg hinv2, hp⟩
  rw [run_requests_append, hrun1]
  exact hrun2

set_option maxRecDepth 8000 in
/-- Witness of C23: two clients discover; then the first requests its address
and a third client discovers. -/
theorem in_use_slots_form_prefix_witness :
    ∃ mid cfg,
      run_requests (sample_cfg 600 [])
        [(discover_from mac_a, 0, 262), (discover_from mac_b, 0, 262)] = some mid ∧
      run_requests (sample_cfg 600 [])
        ([(discover_from mac_a, 0, 262), (discover_from mac_b, 0, 262)] ++
          [(request_from mac_a 0x0200A8C0, 10, 262), (discover_from mac_c, 50, 262)])
        = some cfg ∧
      packed_leases cfg ∧ leases_persist mid cfg :=
  in_use_slots_form_prefix (sample_cfg 600 [])
    [(discover_from mac_a, 0, 262), (discover_from mac_b, 0, 262)]
    [(request_from mac_a 0x0200A8C0, 10, 262), (discover_from mac_c, 50, 262)]
    (by decide) (by decide) (by decide) (by decide) (by decide) (by decide)


/-! ## The fields of the reply that come from the request -/

theorem finalize_reply_packet (req : Request) (cfg : Config) :
    (finalize_reply req cfg).1.packet =
      ⟨BOOTP_REPLY, req.packet.htype, req.packet.hlen, req.packet.hops, req.packet.xid,
        req.packet.secs, req.packet.flags, req.packet.ciaddr, req.packet.yiaddr,
        req.packet.siaddr, req.packet.giaddr, req.packet.chaddr, req.packet.sname,
        req.packet.file, req.packet.magic_cookie, (finalize_reply req cfg).1.packet.options⟩ := by
  unfold finalize_reply
  simp only []

theorem finalize_reply_size (req : Request) (cfg : Config) :
    240 ≤ (finalize_reply req cfg).2 := by
  by_cases h : req.reply_msg = DMSG_NAK
  · rw [(finalize_reply_nak req cfg h).2]
    decide
  · rw [(finalize_reply_other req cfg h).2]
    decide

theorem transmit_frame (req : Request) (cfg : Config) (k : Int) (now : Nat) (sent : Int)
    (o : Outcome) (h : transmit req cfg k now sent = some o) :
    o.req = (finalize_reply req cfg).1 ∧
    o.datagram = some ((finalize_reply req cfg).1.packet.toBuffer.take (finalize_reply req cfg).2) := by
  unfold transmit at h
  simp only [] at h
  split at h
  · split at h
    · cases h
    · cases h
      exact ⟨rfl, rfl⟩
  · cases h
    exact ⟨rfl, rfl⟩

theorem send_reply_prepared (req : Request) (cfg : Config) (now : Nat) (sent : Int)
    (o : Outcome) (h : send_reply req cfg now sent = some o) :
    (o.datagram = none ∧ o.req = nak_request req) ∨
    ∃ (r : Request) (cfg1 : Config) (k : Int) (y : Nat),
      transmit r cfg1 k now sent = some o ∧
      r.packet = ⟨req.packet.op, req.packet.htype, req.packet.hlen, req.packet.hops,
        req.packet.xid, req.packet.secs, req.packet.flags, req.packet.ciaddr, y,
        req.packet.siaddr, req.packet.giaddr, req.packet.chaddr, req.packet.sname,
        req.packet.file, req.packet.magic_cookie, req.packet.options⟩ := by
  by_cases hd : req.request_msg = DMSG_DISCOVER
  · right
    cases ha : assign_address req cfg now with
    | none =>
      have ha' : assign_address { req with reply_msg := DMSG_NAK, packet := { req.packet with yiaddr := 0 } } cfg now = none := ha
      unfold send_reply at h
      simp only [] at h
      rw [if_pos hd, ha'] at h
      cases h
    | some r =>
      obtain ⟨ip, cfg1⟩ := r
      have ha' : assign_address { req with reply_msg := DMSG_NAK, packet := { req.packet with yiaddr := 0 } } cfg now = some (ip, cfg1) := ha
      unfold send_reply at h
      simp only [] at h
      rw [if_pos hd, ha'] at h
      simp only [] at h
      by_cases hz : ip = 0
      · rw [if_neg (by simpa using hz)] at h
        exact ⟨_, cfg1, -1, ip, h, rfl⟩
      · rw [if_pos hz] at h
        exact ⟨_, cfg1, -1, ip, h, rfl⟩
  · by_cases hr : req.request_msg = DMSG_REQUEST
    · right
      by_cases hok : (req.server_ip = 0 ∨ req.server_ip = cfg.server_ip) ∧ candidate_ip req ≠ 0
      · have hex : matching_client (candidate_ip req) req.packet.chaddr cfg = none ∨
            ∃ k, matching_client (candidate_ip req) req.packet.chaddr cfg = some k := by
          cases matching_client (candidate_ip req) req.packet.chaddr cfg with
          | none => exact Or.inl rfl
          | some k => exact Or.inr ⟨k, rfl⟩
        rcases hex with hm | ⟨k, hm⟩
        · have hip' : candidate_ip { req with reply_msg := DMSG_NAK, packet := { req.packet with yiaddr := 0 } } ≠ 0 := hok.2
          have hm' : matching_client (candidate_ip { req with reply_msg := DMSG_NAK, packet := { req.packet with yiaddr := 0 } }) req.packet.chaddr cfg = none := hm
          unfold send_reply at h
          simp only [] at h
          rw [if_neg hd, if_pos hr, if_pos hok.1, if_pos hip', hm'] at h
          cases h
        · rw [send_reply_request_checked req cfg now sent k hr hok.1 hok.2 hm] at h
          by_cases hk : k ≥ 0
          · rw [if_pos hk] at h
            exact ⟨_, cfg, k, candidate_ip req, h, rfl⟩
          · rw [if_neg hk] at h
            exact ⟨_, cfg, k, 0, h, rfl⟩
      · rw [send_reply_request_refused req cfg now sent hr hok] at h
        exact ⟨_, cfg, -1, 0, h, rfl⟩
    · left
      unfold send_reply at h
      simp only [] at h
      rw [if_neg hd, if_neg hr] at h
      cases h
      exact ⟨rfl, rfl⟩

theorem take_drop_take (l : List Nat) (n a b : Nat) (h : a + b ≤ n) :
    ((l.take n).drop a).take b = (l.drop a).take b := by
  rw [List.drop_take, List.take_take]
  congr 1
  omega

theorem kept_bytes_take (b : List Nat) (n : Nat) (h : 240 ≤ n) :
    kept_bytes (b.take n) = kept_bytes b := by
  unfold kept_bytes
  rw [take_drop_take b n 1 15 (by omega), take_drop_take b n 20 220 (by omega)]

theorem kept_bytes_toBuffer (p : Packet) (hs : p.sname.length = 64) (hf : p.file.length = 128) :
    kept_bytes p.toBuffer =
      ([p.htype, p.hlen, p.hops] ++ bytes32 p.xid ++ bytes16 p.secs ++ bytes16 p.flags
          ++ bytes32 p.ciaddr,
        bytes32 p.siaddr ++ bytes32 p.giaddr ++ bytes32 p.chaddr.w0 ++ bytes32 p.chaddr.w1
          ++ bytes32 p.chaddr.w2 ++ bytes32 p.chaddr.w3 ++ p.sname ++ p.file
          ++ bytes32 p.magic_cookie) := by
  have h1 : p.toBuffer = [p.op] ++ (([p.htype, p.hlen, p.hops] ++ bytes32 p.xid ++ bytes16 p.secs
      ++ bytes16 p.flags ++ bytes32 p.ciaddr) ++ (bytes32 p.yiaddr ++ bytes32 p.siaddr
      ++ bytes32 p.giaddr ++ bytes32 p.chaddr.w0 ++ bytes32 p.chaddr.w1 ++ bytes32 p.chaddr.w2
      ++ bytes32 p.chaddr.w3 ++ p.sname ++ p.file ++ bytes32 p.magic_cookie ++ p.options)) := by
    simp [Packet.toBuffer]
  have h2 : p.toBuffer = ([p.op, p.htype, p.hlen, p.hops] ++ bytes32 p.xid ++ bytes16 p.secs
      ++ bytes16 p.flags ++ bytes32 p.ciaddr ++ bytes32 p.yiaddr) ++ ((bytes32 p.siaddr
      ++ bytes32 p.giaddr ++ bytes32 p.chaddr.w0 ++ bytes32 p.chaddr.w1 ++ bytes32 p.chaddr.w2
      ++ bytes32 p.chaddr.w3 ++ p.sname ++ p.file ++ bytes32 p.magic_cookie) ++ p.options) := by
    simp [Packet.toBuffer]
  unfold kept_bytes
  rw [Prod.mk.injEq]
  constructor
  · rw [h1, List.drop_left' (by rfl), List.take_left' (by rfl)]
  · rw [h2, List.drop_left' (by rfl), List.take_left' (by simp [bytes32, hs, hf])]

/-- C25: whatever `send_reply` returns, the packet it leaves in the request
record is the packet of the request in all fields but `op`, `yiaddr` and
`options`; and whenever a datagram is handed to `sendto`, its bytes at the
offsets of `htype`, `hlen`, `hops`, `xid`, `secs`, `flags`, `ciaddr` (1 to 15)
and of `siaddr`, `giaddr`, `chaddr`, `sname`, `file` and the magic cookie
(20 to 239) are those of the request buffer. -/
theorem reply_framing (req : Request) (cfg : Config) (now : Nat) (sent : Int) (o : Outcome)
    (h : send_reply req cfg now sent = some o)
    (hs : req.packet.sname.length = 64) (hf : req.packet.file.length = 128) :
    o.req.packet =
      ⟨o.req.packet.op, req.packet.htype, req.packet.hlen, req.packet.hops, req.packet.xid,
        req.packet.secs, req.packet.flags, req.packet.ciaddr, o.req.packet.yiaddr,
        req.packet.siaddr, req.packet.giaddr, req.packet.chaddr, req.packet.sname,
        req.packet.file, req.packet.magic_cookie, o.req.packet.options⟩ ∧
    ∀ d, o.datagram = some d → kept_bytes d = kept_bytes req.packet.toBuffer := by
  rcases send_reply_prepared req cfg now sent o h with ⟨hnone, hreq⟩ | ⟨r, cfg1, k, y, ht, hr⟩
  · refine ⟨by rw [hreq]; rfl, fun d hd => ?_⟩
    rw [hnone] at hd
    cases hd
  · obtain ⟨hreq, hdat⟩ := transmit_frame r cfg1 k now sent o ht
    have hp : o.req.packet =
        ⟨BOOTP_REPLY, req.packet.htype, req.packet.hlen, req.packet.hops, req.packet.xid,
          req.packet.secs, req.packet.flags, req.packet.ciaddr, y,
          req.packet.siaddr, req.packet.giaddr, req.packet.chaddr, req.packet.sname,
          req.packet.file, req.packet.magic_cookie, (finalize_reply r cfg1).1.packet.options⟩ := by
      rw [hreq, finalize_reply_packet r cfg1, hr]
    refine ⟨by rw [hp], fun d hd => ?_⟩
    rw [hdat, ← hreq] at hd
    cases hd
    rw [kept_bytes_take _ _ (finalize_reply_size r cfg1),
      kept_bytes_toBuffer o.req.packet (by rw [hp]; exact hs) (by rw [hp]; exact hf),
      kept_bytes_toBuffer req.packet hs hf, hp]

set_option maxRecDepth 8000 in
/-- Witness of C25: the offer to `AA:BB:CC:DD:EE:FF` in the scenario of the
spec. -/
theorem reply_framing_witness :
    send_reply (discover_from mac_a) spec_cfg 1000 262 = some spec_offer ∧
    spec_offer.req.packet =
      ⟨spec_offer.req.packet.op, (discover_from mac_a).packet.htype,
        (discover_from mac_a).packet.hlen, (discover_from mac_a).packet.hops,
        (discover_from mac_a).packet.xid, (discover_from mac_a).packet.secs,
        (discover_from mac_a).packet.flags, (discover_from mac_a).packet.ciaddr,
        spec_offer.req.packet.yiaddr, (discover_from mac_a).packet.siaddr,
        (discover_from mac_a).packet.giaddr, (discover_from mac_a).packet.chaddr,
        (discover_from mac_a).packet.sname, (discover_from mac_a).packet.file,
        (discover_from mac_a).packet.magic_cookie, spec_offer.req.packet.options⟩ ∧
    ∀ d, spec_offer.datagram = some d →
      kept_bytes d = kept_bytes (discover_from mac_a).packet.toBuffer :=
  ⟨by decide, reply_framing (discover_from mac_a) spec_cfg 1000 262 spec_offer (by decide)
    (by decide) (by decide)⟩

/-! ## The pool of `get_single_config` -/

theorem get_single_config_accepts (ipo : Option Nat) (lease : Nat) (ok : Bool) (cfg : Config)
    (h : get_single_config ipo lease ok = some cfg) :
    ∃ ip, ipo = some ip ∧ ok = true ∧ htonl ip &&& CC_NET_MASK_LE = CC_PREFIX_LE := by
  cases ipo with
  | none => cases h
  | some ip =>
    by_cases hnet : htonl ip &&& CC_NET_MASK_LE = CC_PREFIX_LE
    · cases ok with
      | true => exact ⟨ip, rfl, rfl, hnet⟩
      | false =>
        unfold get_single_config at h
        simp only [] at h
        rw [if_neg (not_not.mpr hnet)] at h
        simp at h
    · unfold get_single_config at h
      simp only [] at h
      rw [if_pos hnet] at h
      cases h

/-- C26: whenever `get_single_config` accepts a server address (it is then
`192.168.x.y`, stored in network order), every address of the pool
`range_start .. range_end` (host order) agrees with the server address in its
upper 24 bits, has a last octet between 1 and 254, and is not the server
address; the pool is not empty. -/
theorem pool_excludes_server_and_reserved (ipo : Option Nat) (lease : Nat) (ok : Bool)
    (cfg : Config) (h : get_single_config ipo lease ok = some cfg) :
    ipo = some cfg.server_ip ∧ htonl cfg.server_ip / 65536 = 0xC0A8 ∧
    cfg.range_start ≤ cfg.range_end ∧
    ∀ a, cfg.range_start ≤ a → a ≤ cfg.range_end →
      a / 256 = htonl cfg.server_ip / 256 ∧ 1 ≤ a % 256 ∧ a % 256 ≤ 254 ∧
      a ≠ htonl cfg.server_ip := by
  obtain ⟨ip, rfl, rfl, hnet⟩ := get_single_config_accepts ipo lease ok cfg h
  rw [get_single_config_range ip lease hnet] at h
  simp only [Option.some.injEq] at h
  subst h
  have hs := htonl_lt ip
  have hnet2 := hnet
  rw [land_net_mask _ hs] at hnet2
  simp only [CC_PREFIX_LE] at hnet2
  refine ⟨rfl, by simp only []; omega, by simp only []; omega, ?_⟩
  intro a h1 h2
  simp only [] at h1 h2 ⊢
  by_cases hy : htonl ip % 256 ≥ 128
  · rw [if_pos hy] at h1 h2
    omega
  · rw [if_neg hy] at h1 h2
    omega

/-- Witness of C26: the server 192.168.0.1 gets the pool 192.168.0.2 to
192.168.0.33. -/
theorem pool_excludes_server_and_reserved_witness :
    some 0x0100A8C0 = some (Config.mk 0x0100A8C0 600 0xC0A80002 0xC0A80021
      (List.replicate NUM_CLIENTS ⟨0, empty⟩)).server_ip ∧
    htonl (Config.mk 0x0100A8C0 600 0xC0A80002 0xC0A80021
      (List.replicate NUM_CLIENTS ⟨0, empty⟩)).server_ip / 65536 = 0xC0A8 ∧
    (Config.mk 0x0100A8C0 600 0xC0A80002 0xC0A80021
      (List.replicate NUM_CLIENTS ⟨0, empty⟩)).range_start ≤
      (Config.mk 0x0100A8C0 600 0xC0A80002 0xC0A80021
        (List.replicate NUM_CLIENTS ⟨0, empty⟩)).range_end ∧
    ∀ a, 0xC0A80002 ≤ a → a ≤ 0xC0A80021 →
      a / 256 = htonl 0x0100A8C0 / 256 ∧ 1 ≤ a % 256 ∧ a % 256 ≤ 254 ∧
      a ≠ htonl 0x0100A8C0 :=
  pool_excludes_server_and_reserved (some 0x0100A8C0) 600 true
    (Config.mk 0x0100A8C0 600 0xC0A80002 0xC0A80021 (List.replicate NUM_CLIENTS ⟨0, empty⟩))
    (by decide)


end Tatdylf
